import Mathlib

/-!
# Fixture generator

A shallow embedding of `fixturegenerator/parser.go`, `fixturegenerator/generators.go`
and `cmd/fixturegen/fixturegen.go`, followed by theorems about the embedded functions.

Conventions of the embedding.

* A Go function returning `(T, error)` returns a `Res T`: `ok` for a nil error, `err` for a
  returned error value, `panic` for a run-time panic (index out of range, nil dereference)
  and `diverge` when the recursion budget of the model is exhausted.
* The process-wide random generator of `math/rand` and standard output are explicit state.
* `*ast.Object` pointers are addresses into the object table of the `World`, so that
  declarations which refer to themselves can be written down.
-/

namespace FixtureGenerator

/-! ## Data model -/

/-- Outcome of a Go call. -/
inductive Res (α : Type) where
  | ok (a : α)
  | err (msg : String)
  | panic (msg : String)
  | diverge
  deriving DecidableEq

/-- A field declaration of a struct type (`ast.Field`): its names and its type. -/
structure FieldOf (α : Type) where
  Names : List String
  Typ : α

/-- Type expressions (`ast.Expr`), restricted to the node kinds that can stand for a type.
`Ident.Obj` is an address into the object table; `ArrayType.Len` is kept as source text. -/
inductive Expr where
  | Ident (Name : String) (Obj : Option Nat)
  | ArrayType (Len : Option String) (Elt : Expr)
  | MapType (Key : Expr) (Value : Expr)
  | SelectorExpr (X : Expr) (Sel : String)
  | StarExpr (X : Expr)
  | StructType (Fields : List (FieldOf Expr))
  | FuncType
  | ChanType (Value : Expr)
  | InterfaceType
  | ParenExpr (X : Expr)

/-- A field declaration. -/
abbrev Field := FieldOf Expr

/-- A type specification `Name Type` (`ast.TypeSpec`). -/
structure TypeSpec where
  Name : String
  Typ : Expr

/-- What `ast.Object.Decl` holds: a type specification or some other declaration node. -/
inductive ObjDecl where
  | typeSpec (spec : TypeSpec)
  | other

/-- An import specification (`ast.ImportSpec`): optional alias and the path literal,
quotes included. -/
structure ImportSpec where
  Name : Option String
  Path : String

/-- Keyword of a general declaration (`GenDecl.Tok`). -/
inductive Token where
  | IMPORT | CONST | TYPE | VAR
  deriving DecidableEq

/-- A specification inside a general declaration. -/
inductive Spec where
  | importSpec (s : ImportSpec)
  | valueSpec
  | typeSpec (s : TypeSpec)

/-- A top-level declaration (`ast.Decl`). -/
inductive Decl where
  | GenDecl (Tok : Token) (Specs : List Spec)
  | FuncDecl
  | BadDecl

/-- A parsed source file (`ast.File`). -/
structure File where
  Decls : List Decl
  Imports : List ImportSpec

/-- A parsed package (`ast.Package`); `Files` is listed in the order the run iterates it. -/
structure Package where
  Files : List File

/-- The environment the program runs in: the object table of the parsed sources,
environment variables, `filepath.Glob` and `parser.ParseDir` (the packages in the order
the run iterates them). The type `int` is 64 bits wide, as on amd64 and arm64. -/
structure World where
  objects : Nat → ObjDecl
  getenv : String → String
  glob : String → List String
  parseDir : String → Except String (List Package)

/-- The struct model of `parser.go`: `structField`. -/
structure structField where
  name : String
  goType : Expr

/-- The struct model of `parser.go`: `structType`. -/
structure structType where
  name : String
  fields : List structField

/-- The random source (`math/rand`), as state transformers over its state `σ`, together
with the ranges its documentation promises: `Uint32` and `Uint64` return a value of their
type, `Intn`, `Int31n` and `Int63n` a value in `[0, n)` for `n > 0`. `Float32` and
`Float64` draw from `[0.0, 1.0)`; the embedding takes the drawn number in millionths,
rounded as the verb `%f` prints it. -/
structure RandSource (σ : Type) where
  Uint32 : σ → Nat × σ
  Uint64 : σ → Nat × σ
  Intn : Nat → σ → Nat × σ
  Int31n : Nat → σ → Nat × σ
  Int63n : Nat → σ → Nat × σ
  Float32 : σ → Nat × σ
  Float64 : σ → Nat × σ
  Uint32_lt : ∀ s, (Uint32 s).1 < 2 ^ 32
  Uint64_lt : ∀ s, (Uint64 s).1 < 2 ^ 64
  Intn_lt : ∀ n s, 0 < n → (Intn n s).1 < n
  Int31n_lt : ∀ n s, 0 < n → (Int31n n s).1 < n
  Int63n_lt : ∀ n s, 0 < n → (Int63n n s).1 < n
  Float32_le : ∀ s, (Float32 s).1 ≤ 1000000
  Float64_le : ∀ s, (Float64 s).1 ≤ 1000000

/-- Program state: the random generator and what was printed to standard output. -/
structure St (σ : Type) where
  rng : σ
  stdout : List String

/-- An import table (`map[string]string`), as an association list with unique keys. -/
abbrev Imports := List (String × String)

/-- Map read `m[k]`: the zero value when the key is absent. -/
def mapGet (m : Imports) (k : String) : String :=
  match m.lookup k with
  | some v => v
  | none => ""

/-- Map write `m[k] = v`. -/
def mapSet (m : Imports) (k v : String) : Imports :=
  if m.any (fun p => p.1 == k) then m.map (fun p => if p.1 == k then (k, v) else p)
  else m ++ [(k, v)]

/-! ## parser.go -/

/-- The function `strings.Trim(s, "\"")`. -/
def trimQuotes (s : String) : String :=
  ⟨((s.data.dropWhile (fun c => c == '"')).reverse.dropWhile (fun c => c == '"')).reverse⟩

/-- Pieces of a character list between occurrences of `sep`; `cur` is the piece being read,
in reverse. -/
def splitLoop (sep : Char) : List Char → List Char → List String
  | [], cur => [⟨cur.reverse⟩]
  | c :: cs, cur =>
    if c == sep then ⟨cur.reverse⟩ :: splitLoop sep cs [] else splitLoop sep cs (c :: cur)

/-- The function `strings.Split(s, "/")`. -/
def splitSlash (s : String) : List String := splitLoop '/' s.data []

/-- The loop of `typeSpecToStructType` over `expr.Fields.List`. -/
def fieldsLoop : List Field → List structField → Res (List structField)
  | [], fields => .ok fields
  | goField :: rest, fields =>
    match goField.Names with
    | [] => .panic "index out of range [0] with length 0"
    | n0 :: _ => fieldsLoop rest (fields ++ [⟨n0, goField.Typ⟩])

/-- The function `typeSpecToStructType`. -/
def typeSpecToStructType (spec : TypeSpec) : Res structType :=
  match spec.Typ with
  | .StructType fieldList =>
    match fieldsLoop fieldList [] with
    | .ok fields => .ok ⟨spec.Name, fields⟩
    | .err e => .err e
    | .panic e => .panic e
    | .diverge => .diverge
  | _ => .err "TypeSpec is not a struct"

/-- The loop of `GetStruct` over `fileAST.Decls`; `none` when the loop ends without a
`return`. -/
def declsLoop (name : String) : List Decl → Option (Res structType)
  | [] => none
  | s :: rest =>
    match s with
    | .GenDecl Tok Specs =>
      if Tok ≠ Token.TYPE then declsLoop name rest
      else
        match Specs with
        | [] => some (.panic "index out of range [0] with length 0")
        | .typeSpec spec :: _ =>
          match spec.Typ with
          | .StructType _ =>
            if spec.Name ≠ name then declsLoop name rest
            else some (typeSpecToStructType spec)
          | _ => declsLoop name rest
        | _ :: _ => some (.panic "interface conversion: not *ast.TypeSpec")
    | _ => declsLoop name rest

/-- The loop of `GetStruct` over `packageAST.Files`. -/
def filesLoop (name : String) : List File → Option (Res structType)
  | [] => none
  | fileAST :: rest =>
    match declsLoop name fileAST.Decls with
    | some r => some r
    | none => filesLoop name rest

/-- The loop of `GetStruct` over `packageASTMapping`. -/
def packagesLoop (name : String) : List Package → Option (Res structType)
  | [] => none
  | packageAST :: rest =>
    match filesLoop name packageAST.Files with
    | some r => some r
    | none => packagesLoop name rest

/-- The function `GetStruct`. -/
def GetStruct (W : World) (dirPath name : String) : Res structType :=
  match W.parseDir dirPath with
  | .error e => .err e
  | .ok packageASTMapping =>
    match packagesLoop name packageASTMapping with
    | some r => r
    | none => .err ("Struct " ++ name ++ " does not exist")

/-- The body of the loop of `GetImports` over `fileAST.Imports`. -/
def importStep (m : Imports) (imp : ImportSpec) : Imports :=
  match imp.Name with
  | some impName => mapSet m impName (trimQuotes imp.Path)
  | none =>
    let path := imp.Path
    let tokens := splitSlash path
    mapSet m (trimQuotes (tokens.getLastD "")) (trimQuotes imp.Path)

/-- The function `GetImports`. -/
def GetImports (W : World) (dirPath : String) : Res Imports :=
  match W.parseDir dirPath with
  | .error e => .err e
  | .ok packageASTMapping =>
    .ok (packageASTMapping.foldl
      (fun m packageAST => packageAST.Files.foldl
        (fun m fileAST => fileAST.Imports.foldl importStep m) m) [])

/-! ## generators.go: scalar values -/

/-- The constant `maxInt`. -/
def maxInt : Nat := 1000000

/-- The constant `maxListLength`. -/
def maxListLength : Int := 3

/-- The table `letterRunes`. -/
def letterRunes : List Char := "abcdefghijklmnopqrstuvwxyzABCDEFGHIJKLMNOPQRSTUVWXYZ".data

/-- Conversion of a non-negative number to a signed integer type of `w` bits. -/
def toSigned (w : Nat) (v : Nat) : Int :=
  let m := v % 2 ^ w
  if m < 2 ^ (w - 1) then (m : Int) else (m : Int) - (2 ^ w : Nat)

/-- The loop of `getTabs`. -/
def getTabsLoop : Nat → String → String
  | 0, tabs => tabs
  | n + 1, tabs => getTabsLoop n (tabs ++ "\t")

/-- The function `getTabs`. -/
def getTabs (indentation : Int) : String := getTabsLoop indentation.toNat ""

/-- The verb `%f` on a number given in millionths. -/
def formatF (q : Nat) : String :=
  let d := toString (q % 1000000)
  toString (q / 1000000) ++ "." ++ String.mk (List.replicate (6 - d.length) '0') ++ d

section Scalars
variable {σ : Type} (R : RandSource σ)

/-- The function `getRandomInt`. -/
def getRandomInt (st : St σ) : String × St σ :=
  let r := R.Intn maxInt st.rng
  (toString r.1, ⟨r.2, st.stdout⟩)

/-- The function `getRandomInt8`. -/
def getRandomInt8 (st : St σ) : String × St σ :=
  let r := R.Intn maxInt st.rng
  ("int8(" ++ toString (toSigned 8 r.1) ++ ")", ⟨r.2, st.stdout⟩)

/-- The function `getRandomInt16`. -/
def getRandomInt16 (st : St σ) : String × St σ :=
  let r := R.Intn maxInt st.rng
  ("int16(" ++ toString (toSigned 16 r.1) ++ ")", ⟨r.2, st.stdout⟩)

/-- The function `getRandomInt32`. -/
def getRandomInt32 (st : St σ) : String × St σ :=
  let r := R.Int31n maxInt st.rng
  ("int32(" ++ toString r.1 ++ ")", ⟨r.2, st.stdout⟩)

/-- The function `getRandomInt64`. -/
def getRandomInt64 (st : St σ) : String × St σ :=
  let r := R.Int63n maxInt st.rng
  ("int64(" ++ toString r.1 ++ ")", ⟨r.2, st.stdout⟩)

/-- The function `getRandomUint`. -/
def getRandomUint (st : St σ) : String × St σ :=
  let r := R.Uint32 st.rng
  ("uint(" ++ toString (r.1 % 2 ^ 64) ++ ")", ⟨r.2, st.stdout⟩)

/-- The function `getRandomUint8`. -/
def getRandomUint8 (st : St σ) : String × St σ :=
  let r := R.Uint32 st.rng
  ("uint8(" ++ toString (r.1 % 2 ^ 8) ++ ")", ⟨r.2, st.stdout⟩)

/-- The function `getRandomUint16`. -/
def getRandomUint16 (st : St σ) : String × St σ :=
  let r := R.Uint32 st.rng
  ("uint16(" ++ toString (r.1 % 2 ^ 16) ++ ")", ⟨r.2, st.stdout⟩)

/-- The function `getRandomUint32`. -/
def getRandomUint32 (st : St σ) : String × St σ :=
  let r := R.Uint32 st.rng
  ("uint32(" ++ toString r.1 ++ ")", ⟨r.2, st.stdout⟩)

/-- The function `getRandomUint64`. -/
def getRandomUint64 (st : St σ) : String × St σ :=
  let r := R.Uint64 st.rng
  ("uint64(" ++ toString r.1 ++ ")", ⟨r.2, st.stdout⟩)

/-- The function `getRandomFloat32`. -/
def getRandomFloat32 (st : St σ) : String × St σ :=
  let r := R.Float32 st.rng
  ("float32(" ++ formatF r.1 ++ ")", ⟨r.2, st.stdout⟩)

/-- The function `getRandomFloat64`. -/
def getRandomFloat64 (st : St σ) : String × St σ :=
  let r := R.Float64 st.rng
  ("float64(" ++ formatF r.1 ++ ")", ⟨r.2, st.stdout⟩)

/-- The loop of `getRandomString`: fills the remaining `n` cells of `b`; indexing
`letterRunes` out of range panics. -/
def stringLoop : Nat → List Char → St σ → Res (List Char) × St σ
  | 0, b, st => (.ok b, st)
  | n + 1, b, st =>
    let r := R.Intn letterRunes.length st.rng
    match letterRunes.get? r.1 with
    | none => (.panic "index out of range", ⟨r.2, st.stdout⟩)
    | some c => stringLoop n (b ++ [c]) ⟨r.2, st.stdout⟩

/-- The function `getRandomString`. -/
def getRandomString (st : St σ) : Res String × St σ :=
  let r := R.Intn 20 st.rng
  match stringLoop R r.1 [] ⟨r.2, st.stdout⟩ with
  | (.ok b, st1) => (.ok ("\"" ++ String.mk b ++ "\""), st1)
  | (.err e, st1) => (.err e, st1)
  | (.panic e, st1) => (.panic e, st1)
  | (.diverge, st1) => (.diverge, st1)

/-- The function `getRandomBool`. -/
def getRandomBool (st : St σ) : String × St σ :=
  let r := R.Intn 10 st.rng
  (if r.1 < 5 then "true" else "false", ⟨r.2, st.stdout⟩)

/-- Wraps a generator that cannot fail. -/
def okOf (p : String × St σ) : Res String × St σ := (.ok p.1, p.2)

/-- The function `getSimpleTypeFixture`. -/
def getSimpleTypeFixture (concreteType : String) (st : St σ) : Res String × St σ :=
  if concreteType = "int" then okOf (getRandomInt R st)
  else if concreteType = "int8" then okOf (getRandomInt8 R st)
  else if concreteType = "int16" then okOf (getRandomInt16 R st)
  else if concreteType = "int32" then okOf (getRandomInt32 R st)
  else if concreteType = "int64" then okOf (getRandomInt64 R st)
  else if concreteType = "uint" then okOf (getRandomUint R st)
  else if concreteType = "uint8" then okOf (getRandomUint8 R st)
  else if concreteType = "uint16" then okOf (getRandomUint16 R st)
  else if concreteType = "uint32" then okOf (getRandomUint32 R st)
  else if concreteType = "uint64" then okOf (getRandomUint64 R st)
  else if concreteType = "float32" then okOf (getRandomFloat32 R st)
  else if concreteType = "float64" then okOf (getRandomFloat64 R st)
  else if concreteType = "string" then getRandomString R st
  else if concreteType = "bool" then okOf (getRandomBool R st)
  else (.err ("Unsupported type: " ++ concreteType), st)

end Scalars

/-- The function `getTypeName`. -/
def getTypeName : Expr → Res String
  | .Ident Name _ => .ok Name
  | .ArrayType _ Elt =>
    match getTypeName Elt with
    | .ok elementType => .ok ("[]" ++ elementType)
    | r => r
  | .MapType Key Value =>
    match getTypeName Key with
    | .ok keyType =>
      match getTypeName Value with
      | .ok valueType => .ok ("map[" ++ keyType ++ "]" ++ valueType)
      | r => r
    | r => r
  | .StarExpr X =>
    match getTypeName X with
    | .ok elementType => .ok ("*" ++ elementType)
    | r => r
  | _ => .err "Can not generate type name"

/-- The function `getPackagePath`. -/
def getPackagePath (W : World) (path : String) : String :=
  let goPath := W.getenv "GOPATH"
  let wildPath := goPath ++ "/pkg/mod/" ++ path ++ "*"
  let s := W.glob wildPath
  match s.getLast? with
  | some last => last
  | none =>
    let goRoot := W.getenv "GOROOT"
    let wildPath := goRoot ++ "/src/" ++ path ++ "*"
    let s := W.glob wildPath
    match s.getLast? with
    | some last => last
    | none => goPath ++ "/src/" ++ path ++ "*"

/-! ## generators.go: composite values

The functions of this section call each other recursively in the source. The embedding
ties the knot in `getValueFixture`, which carries a recursion budget; every other function
receives the value synthesizer `gv` it calls back into, and gets its source name once
`getValueFixture` exists. -/

/-- The signature of `getValueFixture` once the environment is fixed. -/
abbrev Synth (σ : Type) := Expr → Imports → Bool → Int → St σ → Res String × St σ

section Composite
variable {σ : Type} (W : World) (R : RandSource σ)

/-- The loop of `GetStructFixture` over `structType.fields`. A returned error is printed
and the field skipped; a panic ends the run. -/
def structLoop (gv : Synth σ) (imps : Imports) (pointer : Bool) (indentation : Int) :
    List structField → String → St σ → Res String × St σ
  | [], fixture, st => (.ok fixture, st)
  | field :: rest, fixture, st =>
    match gv field.goType imps pointer (indentation + 1) st with
    | (.ok value, st1) =>
      structLoop gv imps pointer indentation rest
        (fixture ++ (getTabs indentation ++ field.name ++ ": " ++ value ++ ",\n")) st1
    | (.err e, st1) =>
      structLoop gv imps pointer indentation rest fixture ⟨st1.rng, st1.stdout ++ [e]⟩
    | (.panic e, st1) => (.panic e, st1)
    | (.diverge, st1) => (.diverge, st1)

/-- The function `GetStructFixture`, calling back into `gv`. -/
def structFixtureWith (gv : Synth σ) (s : structType) (imps : Imports) (pointer : Bool)
    (indentation : Int) (st : St σ) : Res String × St σ :=
  let fixture := if pointer then "&" ++ s.name ++ "\x7b\n" else s.name ++ "\x7b\n"
  match structLoop gv imps pointer indentation s.fields fixture st with
  | (.ok fixture, st1) => (.ok (fixture ++ (getTabs (indentation - 1) ++ "\x7d")), st1)
  | r => r

/-- The function `getExternalStructFieldFixture`, calling back into `gv`. -/
def externalStructFieldFixtureWith (gv : Synth σ) (X : Expr) (Sel : String)
    (imps : Imports) (pointer : Bool) (indentation : Int) (st : St σ) : Res String × St σ :=
  match X with
  | .Ident Name _ =>
    let packagePath := getPackagePath W (mapGet imps Name)
    match GetStruct W packagePath Sel with
    | .ok s =>
      match GetImports W packagePath with
      | .ok newImports => structFixtureWith gv s newImports pointer indentation st
      | .err e => (.err e, st)
      | .panic e => (.panic e, st)
      | .diverge => (.diverge, st)
    | .err e => (.err e, st)
    | .panic e => (.panic e, st)
    | .diverge => (.diverge, st)
  | _ => (.panic "nil pointer dereference", st)

/-- The function `getStructFieldFixture`, calling back into `gv`. -/
def structFieldFixtureWith (gv : Synth σ) (object : Nat) (imps : Imports) (pointer : Bool)
    (indentation : Int) (st : St σ) : Res String × St σ :=
  match W.objects object with
  | .typeSpec spec =>
    match typeSpecToStructType spec with
    | .ok s => structFixtureWith gv s imps pointer indentation st
    | .err e => (.err e, st)
    | .panic e => (.panic e, st)
    | .diverge => (.diverge, st)
  | .other => (.err "Not a type", st)

/-- The element count of `getArrayFixture` and `getMapFixture` from the drawn number. -/
def listCount (u : Nat) : Int :=
  let count := toSigned 64 u
  let count := if count = 0 then 1 else count
  if count > maxListLength then maxListLength else count

/-- The loop of `getArrayFixture`, for `n` iterations. -/
def arrayLoop (gv : Synth σ) (Elt : Expr) (imps : Imports) (pointer : Bool)
    (indentation : Int) : Nat → String → St σ → Res String × St σ
  | 0, fixture, st => (.ok fixture, st)
  | n + 1, fixture, st =>
    match gv Elt imps pointer indentation st with
    | (.ok value, st1) =>
      arrayLoop gv Elt imps pointer indentation n (fixture ++ value ++ ", ") st1
    | r => r

/-- The function `getArrayFixture`, calling back into `gv`. -/
def arrayFixtureWith (gv : Synth σ) (Len : Option String) (Elt : Expr) (imps : Imports)
    (pointer : Bool) (indentation : Int) (st : St σ) : Res String × St σ :=
  let r := R.Uint32 st.rng
  let count := listCount r.1
  let st0 : St σ := ⟨r.2, st.stdout⟩
  match getTypeName (.ArrayType Len Elt) with
  | .ok typeName =>
    let fixture := typeName ++ "\x7b"
    match arrayLoop gv Elt imps pointer indentation (count - 1).toNat fixture st0 with
    | (.ok fixture, st1) =>
      match gv Elt imps pointer indentation st1 with
      | (.ok value, st2) => (.ok (fixture ++ value ++ "\x7d"), st2)
      | r => r
    | r => r
  | .err e => (.err e, st0)
  | .panic e => (.panic e, st0)
  | .diverge => (.diverge, st0)

/-- The loop of `getMapFixture`, for `n` iterations. -/
def mapLoop (gv : Synth σ) (Key Value : Expr) (imps : Imports) (pointer : Bool)
    (indentation : Int) : Nat → String → St σ → Res String × St σ
  | 0, fixture, st => (.ok fixture, st)
  | n + 1, fixture, st =>
    match gv Key imps pointer (indentation + 1) st with
    | (.ok key, st1) =>
      match gv Value imps pointer (indentation + 1) st1 with
      | (.ok value, st2) =>
        mapLoop gv Key Value imps pointer indentation n
          (fixture ++ (getTabs indentation ++ key ++ ": " ++ value ++ ",\n")) st2
      | r => r
    | r => r

/-- The function `getMapFixture`, calling back into `gv`. -/
def mapFixtureWith (gv : Synth σ) (Key Value : Expr) (imps : Imports)
    (pointer : Bool) (indentation : Int) (st : St σ) : Res String × St σ :=
  let r := R.Uint32 st.rng
  let count := listCount r.1
  let st0 : St σ := ⟨r.2, st.stdout⟩
  match getTypeName (.MapType Key Value) with
  | .ok typeName =>
    let fixture := typeName ++ "\x7b\n"
    match mapLoop gv Key Value imps pointer indentation (count - 1).toNat fixture st0 with
    | (.ok fixture, st1) =>
      match gv Key imps pointer (indentation + 1) st1 with
      | (.ok key, st2) =>
        match gv Value imps pointer (indentation + 1) st2 with
        | (.ok value, st3) =>
          (.ok (fixture ++ (getTabs indentation ++ key ++ ": " ++ value ++ "\x7d")), st3)
        | r => r
      | r => r
    | r => r
  | .err e => (.err e, st0)
  | .panic e => (.panic e, st0)
  | .diverge => (.diverge, st0)

/-- The function `getValueFixture`; `fuel` bounds the depth of nested calls. -/
def getValueFixture : Nat → Synth σ
  | 0, _, _, _, _, st => (.diverge, st)
  | fuel + 1, goType, imps, pointer, indentation, st =>
    match goType with
    | .Ident Name Obj =>
      match Obj with
      | some object =>
        structFieldFixtureWith W (getValueFixture fuel) object imps pointer indentation st
      | none => getSimpleTypeFixture R Name st
    | .ArrayType Len Elt =>
      arrayFixtureWith R (getValueFixture fuel) Len Elt imps pointer indentation st
    | .MapType Key Value =>
      mapFixtureWith R (getValueFixture fuel) Key Value imps pointer indentation st
    | .SelectorExpr X Sel =>
      externalStructFieldFixtureWith W (getValueFixture fuel) X Sel imps pointer indentation st
    | .StarExpr X => getValueFixture fuel X imps true indentation st
    | _ => (.err "Can not generate field data", st)

/-- The function `GetStructFixture`. -/
def GetStructFixture (fuel : Nat) (s : structType) (imps : Imports) (pointer : Bool)
    (indentation : Int) (st : St σ) : Res String × St σ :=
  structFixtureWith (getValueFixture W R fuel) s imps pointer indentation st

/-- The function `getExternalStructFieldFixture`. -/
def getExternalStructFieldFixture (fuel : Nat) (X : Expr) (Sel : String) (imps : Imports)
    (pointer : Bool) (indentation : Int) (st : St σ) : Res String × St σ :=
  externalStructFieldFixtureWith W (getValueFixture W R fuel) X Sel imps pointer indentation st

/-- The function `getStructFieldFixture`. -/
def getStructFieldFixture (fuel : Nat) (object : Nat) (imps : Imports) (pointer : Bool)
    (indentation : Int) (st : St σ) : Res String × St σ :=
  structFieldFixtureWith W (getValueFixture W R fuel) object imps pointer indentation st

/-- The function `getArrayFixture`. -/
def getArrayFixture (fuel : Nat) (Len : Option String) (Elt : Expr) (imps : Imports)
    (pointer : Bool) (indentation : Int) (st : St σ) : Res String × St σ :=
  arrayFixtureWith R (getValueFixture W R fuel) Len Elt imps pointer indentation st

/-- The function `getMapFixture`. -/
def getMapFixture (fuel : Nat) (Key Value : Expr) (imps : Imports)
    (pointer : Bool) (indentation : Int) (st : St σ) : Res String × St σ :=
  mapFixtureWith R (getValueFixture W R fuel) Key Value imps pointer indentation st

/-! ## cmd/fixturegen -/

/-- The function `main` with the flag `-struct` set to `structName`; `st.rng` is the
generator state left by `rand.Seed`. The result is the final state, whose `stdout` holds
the printed lines. -/
def main (fuel : Nat) (structName : String) (st : St σ) : Res Unit × St σ :=
  if structName = "" then (.ok (), ⟨st.rng, st.stdout ++ ["You must specify a struct name."]⟩)
  else
    match GetStruct W "." structName with
    | .ok s =>
      match GetImports W "." with
      | .ok imps =>
        match GetStructFixture W R fuel s imps false 1 st with
        | (.ok fixture, st1) => (.ok (), ⟨st1.rng, st1.stdout ++ [fixture]⟩)
        | (.err e, st1) => (.err e, st1)
        | (.panic e, st1) => (.panic e, st1)
        | (.diverge, st1) => (.diverge, st1)
      | .err e => (.ok (), ⟨st.rng, st.stdout ++ [e]⟩)
      | .panic e => (.panic e, st)
      | .diverge => (.diverge, st)
    | .err e => (.ok (), ⟨st.rng, st.stdout ++ [e]⟩)
    | .panic e => (.panic e, st)
    | .diverge => (.diverge, st)

end Composite

/-! ## A concrete random source and world, for evaluation -/

/-- A random source over a counter: every draw returns the counter reduced into the range
asked for and advances it by `step`. -/
def counterSource (step : Nat) : RandSource Nat where
  Uint32 := fun s => (s % 2 ^ 32, s + step)
  Uint64 := fun s => (s % 2 ^ 64, s + step)
  Intn := fun n s => (s % n, s + step)
  Int31n := fun n s => (s % n, s + step)
  Int63n := fun n s => (s % n, s + step)
  Float32 := fun s => (s % 1000000, s + step)
  Float64 := fun s => (s % 1000000, s + step)
  Uint32_lt := fun s => Nat.mod_lt s (by norm_num)
  Uint64_lt := fun s => Nat.mod_lt s (by norm_num)
  Intn_lt := fun _ s h => Nat.mod_lt s h
  Int31n_lt := fun _ s h => Nat.mod_lt s h
  Int63n_lt := fun _ s h => Nat.mod_lt s h
  Float32_le := fun s => Nat.le_of_lt (Nat.mod_lt s (by norm_num))
  Float64_le := fun s => Nat.le_of_lt (Nat.mod_lt s (by norm_num))

/-- A world with no objects, no environment and no source files. -/
def emptyWorld : World where
  objects := fun _ => .other
  getenv := fun _ => ""
  glob := fun _ => []
  parseDir := fun _ => .ok []

/-- The fourteen scalar kinds of the table of `getSimpleTypeFixture`. -/
def scalarKinds : List String :=
  ["int", "int8", "int16", "int32", "int64", "uint", "uint8", "uint16", "uint32", "uint64",
    "float32", "float64", "string", "bool"]

/-! ## Vocabulary of the statements -/

/-- A run of `k` tab characters. -/
def tabs (k : Nat) : String := String.mk (List.replicate k '\t')

/-- Concatenation of a list of strings. -/
def concatAll : List String → String
  | [] => ""
  | x :: xs => x ++ concatAll xs

/-- The strings of a list with `sep` between neighbours and nothing after the last. -/
def joinSep (sep : String) : List String → String
  | [] => ""
  | [x] => x
  | x :: y :: r => x ++ sep ++ joinSep sep (y :: r)

/-- The number of elements the claims give for a drawn number `u`. -/
def elemCount (u : Nat) : Nat := if u ≤ 1 then 1 else if u = 2 then 2 else 3

/-- Successive successful calls of `g`: started in `st` they return the values `vs` in
turn and leave the state `st1`. -/
inductive SynthRun {σ : Type} (g : St σ → Res String × St σ) :
    St σ → List String → St σ → Prop where
  | nil (st : St σ) : SynthRun g st [] st
  | cons {st st1 st2 : St σ} {v : String} {vs : List String} :
      g st = (.ok v, st1) → SynthRun g st1 vs st2 → SynthRun g st (v :: vs) st2

/-- Successive successful calls of `gk` then `gv`, returning key and value pairs. -/
inductive PairRun {σ : Type} (gk gv : St σ → Res String × St σ) :
    St σ → List (String × String) → St σ → Prop where
  | nil (st : St σ) : PairRun gk gv st [] st
  | cons {st st1 st2 st3 : St σ} {k v : String} {ps : List (String × String)} :
      gk st = (.ok k, st1) → gv st1 = (.ok v, st2) → PairRun gk gv st2 ps st3 →
      PairRun gk gv st ((k, v) :: ps) st3

/-- One pass over the fields of a struct in which every synthesis returns: `os` lists, per
field in order, the value synthesized (`some`) or that an error was returned (`none`), the
error message being printed to standard output. -/
inductive FieldsRun {σ : Type} (gv : Synth σ) (imps : Imports) (pointer : Bool)
    (indentation : Int) : St σ → List structField → List (Option String) → St σ → Prop where
  | nil (st : St σ) : FieldsRun gv imps pointer indentation st [] [] st
  | ok {st st1 st2 : St σ} {f : structField} {fs : List structField} {v : String}
      {os : List (Option String)} :
      gv f.goType imps pointer (indentation + 1) st = (.ok v, st1) →
      FieldsRun gv imps pointer indentation st1 fs os st2 →
      FieldsRun gv imps pointer indentation st (f :: fs) (some v :: os) st2
  | skip {st st1 st2 : St σ} {f : structField} {fs : List structField} {e : String}
      {os : List (Option String)} :
      gv f.goType imps pointer (indentation + 1) st = (.err e, st1) →
      FieldsRun gv imps pointer indentation ⟨st1.rng, st1.stdout ++ [e]⟩ fs os st2 →
      FieldsRun gv imps pointer indentation st (f :: fs) (none :: os) st2

/-- The `(name, value)` entries of the fields whose synthesis returned a value. -/
def entriesOf : List structField → List (Option String) → List (String × String)
  | f :: fs, some v :: os => (f.name, v) :: entriesOf fs os
  | _ :: fs, none :: os => entriesOf fs os
  | _, _ => []

/-- The text of a struct literal: the name, an opening brace and a newline, one line
`tabs name: value,` per entry at `n` tabs, the closing brace at `n - 1` tabs. -/
def structText (name : String) (n : Nat) (es : List (String × String)) : String :=
  name ++ "\x7b\n" ++ concatAll (es.map (fun e => tabs n ++ e.1 ++ ": " ++ e.2 ++ ",\n")) ++
    tabs (n - 1) ++ "\x7d"

/-- The text of an array literal: the type name, then the elements between braces with
`, ` between neighbours. -/
def arrayText (typeName : String) (vs : List String) : String :=
  typeName ++ "\x7b" ++ joinSep ", " vs ++ "\x7d"

/-- The lines of a map literal at `i` tabs: `key: value`, followed by a comma and a newline
except after the last pair. -/
def mapEntries (i : Nat) : List (String × String) → String
  | [] => ""
  | [p] => tabs i ++ p.1 ++ ": " ++ p.2
  | p :: q :: r => tabs i ++ p.1 ++ ": " ++ p.2 ++ ",\n" ++ mapEntries i (q :: r)

/-- The text of a map literal. -/
def mapText (typeName : String) (i : Nat) (ps : List (String × String)) : String :=
  typeName ++ "\x7b\n" ++ mapEntries i ps ++ "\x7d"

/-- The type expressions for which the type switch of `getValueFixture` has no case. -/
def fallsThrough : Expr → Bool
  | .Ident _ _ => false
  | .ArrayType _ _ => false
  | .MapType _ _ => false
  | .SelectorExpr _ _ => false
  | .StarExpr _ => false
  | _ => true

/-- The type expressions built solely from identifiers, arrays, maps and pointers. -/
def nameable : Expr → Bool
  | .Ident _ _ => true
  | .ArrayType _ Elt => nameable Elt
  | .MapType Key Value => nameable Key && nameable Value
  | .StarExpr X => nameable X
  | _ => false

/-- A package-qualified type `pkg.T` occurs somewhere in the type expression. -/
inductive MentionsQualified : Expr → Prop where
  | here (X : Expr) (Sel : String) : MentionsQualified (.SelectorExpr X Sel)
  | array (Len : Option String) {Elt : Expr} :
      MentionsQualified Elt → MentionsQualified (.ArrayType Len Elt)
  | mapKey {Key : Expr} (Value : Expr) :
      MentionsQualified Key → MentionsQualified (.MapType Key Value)
  | mapValue (Key : Expr) {Value : Expr} :
      MentionsQualified Value → MentionsQualified (.MapType Key Value)
  | star {X : Expr} : MentionsQualified X → MentionsQualified (.StarExpr X)
  | chan {X : Expr} : MentionsQualified X → MentionsQualified (.ChanType X)
  | paren {X : Expr} : MentionsQualified X → MentionsQualified (.ParenExpr X)
  | field {fs : List Field} {f : Field} :
      f ∈ fs → MentionsQualified f.Typ → MentionsQualified (.StructType fs)

/-- The characters after the last `/` of a character list (all of it when there is none). -/
def afterLastSlash (xs : List Char) : List Char :=
  (xs.reverse.takeWhile (fun c => c != '/')).reverse

/-- The last `/`-separated segment of a string. -/
def lastSegment (s : String) : String := ⟨afterLastSlash s.data⟩

/-- What `strings.Trim(lit, "\"")` leaves of a path literal that has no double quote
inside: the text between the double quotes of an interpreted string literal; a raw string
literal, written between backquotes, is left as it is. -/
def unquote (lit : String) : String :=
  match lit.data with
  | '"' :: rest => if rest.getLast? = some '"' then ⟨rest.dropLast⟩ else lit
  | _ => lit

/-- The key the code gives an import: the explicit alias if one is given, otherwise the
last `/`-separated segment of what `unquote` leaves of the path literal. -/
def importKey (imp : ImportSpec) : String :=
  match imp.Name with
  | some a => a
  | none => lastSegment (unquote imp.Path)

/-- The value the code gives an import: what `unquote` leaves of the path literal. -/
def importValue (imp : ImportSpec) : String := unquote imp.Path

/-- The import statements of the files of a package in scan order. -/
def fileImports : List File → List ImportSpec
  | [] => []
  | f :: fs => f.Imports ++ fileImports fs

/-- The import statements of a module in scan order. -/
def scanImports : List Package → List ImportSpec
  | [] => []
  | p :: ps => fileImports p.Files ++ scanImports ps

/-- A path literal as the parser accepts it: a double-quoted literal with no double quote
inside, or a literal with no double quote at all (a raw string). -/
def QuotedPath (lit : String) : Prop :=
  '"' ∉ lit.data ∨ ∃ p : List Char, lit.data = '"' :: (p ++ ['"']) ∧ '"' ∉ p

/-- A text with every `&` deleted. -/
def eraseAmp (s : String) : String := ⟨s.data.filter (fun c => c != '&')⟩

/-- Two outcomes that agree up to `&`: the same final state, and either two values equal
after deleting `&`, or the same error, the same panic, or no return in both. -/
def AmpRel {σ : Type} (r1 r2 : Res String × St σ) : Prop :=
  r1.2 = r2.2 ∧
  match r1.1, r2.1 with
  | .ok a, .ok b => eraseAmp a = eraseAmp b
  | .err a, .err b => a = b
  | .panic a, .panic b => a = b
  | .diverge, .diverge => True
  | _, _ => False

/-- The synthesizer `gv` gives outcomes that agree up to `&` under the flags `p1`, `p2`. -/
def FlagInsensitive {σ : Type} (gv : Synth σ) (p1 p2 : Bool) : Prop :=
  ∀ (e : Expr) (imps : Imports) (ind : Int) (st : St σ),
    AmpRel (gv e imps p1 ind st) (gv e imps p2 ind st)

/-- The synthesizer `g` returns (a value, an error or a panic) from every state. -/
def Returns {σ : Type} (g : St σ → Res String × St σ) : Prop :=
  ∀ st, (g st).1 ≠ .diverge

/-- The fields whose synthesis returned a value, each with its value. -/
def fieldValues : List structField → List (Option String) → List (structField × String)
  | f :: fs, some v :: os => (f, v) :: fieldValues fs os
  | _ :: fs, none :: os => fieldValues fs os
  | _, _ => []

/-- `Emits W p e v`: the text `v` is a value for the type expression `e` synthesized with
the pointer flag `p`. A record literal carries the prefix `&` exactly when the flag is
true at it; the flag is handed down unchanged to fields, elements, keys and values, and
is true beneath a pointer type whatever it was above. -/
inductive Emits (W : World) : Bool → Expr → String → Prop where
  | scalar (p : Bool) (n v : String) : Emits W p (.Ident n none) v
  | record (p : Bool) (n : String) (a : Nat) (spec : TypeSpec) (s : structType) (i : Nat)
      (os : List (Option String)) :
      W.objects a = .typeSpec spec → typeSpecToStructType spec = .ok s →
      (∀ q ∈ fieldValues s.fields os, Emits W p q.1.goType q.2) →
      Emits W p (.Ident n (some a))
        ((if p then "&" else "") ++ structText s.name i (entriesOf s.fields os))
  | external (p : Bool) (X : Expr) (Sel dir : String) (s : structType) (i : Nat)
      (os : List (Option String)) :
      GetStruct W dir Sel = .ok s →
      (∀ q ∈ fieldValues s.fields os, Emits W p q.1.goType q.2) →
      Emits W p (.SelectorExpr X Sel)
        ((if p then "&" else "") ++ structText s.name i (entriesOf s.fields os))
  | array (p : Bool) (l : Option String) (e : Expr) (tn : String) (vs : List String) :
      (∀ v ∈ vs, Emits W p e v) → Emits W p (.ArrayType l e) (arrayText tn vs)
  | map (p : Bool) (k v : Expr) (tn : String) (i : Nat) (ps : List (String × String)) :
      (∀ q ∈ ps, Emits W p k q.1) → (∀ q ∈ ps, Emits W p v q.2) →
      Emits W p (.MapType k v) (mapText tn i ps)
  | star (p : Bool) (x : Expr) (v : String) : Emits W true x v → Emits W p (.StarExpr x) v

/-- The opening brace. -/
def lbrace : Char := Char.ofNat 123

/-- The closing brace. -/
def rbrace : Char := Char.ofNat 125

/-- A string without braces. -/
def NoBrace (s : String) : Prop := lbrace ∉ s.data ∧ rbrace ∉ s.data

/-- Scan of a text from nesting depth `d`: an opening brace goes one level down, a closing
brace one level up; `none` when a closing brace has no opening brace before it. -/
def braceScan : List Char → Nat → Option Nat
  | [], d => some d
  | c :: cs, d =>
    if c = lbrace then braceScan cs (d + 1)
    else if c = rbrace then (match d with
      | 0 => none
      | k + 1 => braceScan cs k)
    else braceScan cs d

/-- Every opening brace of the text is matched by a later closing brace, and every closing
brace by an earlier opening one. -/
def Balanced (s : String) : Prop := braceScan s.data 0 = some 0

/-- The identifiers of a field type, as far as type names are rendered from it, satisfy
`N`. -/
inductive TypeOK (N : String → Prop) : Expr → Prop where
  | ident (n : String) (o : Option Nat) : N n → TypeOK N (.Ident n o)
  | array (l : Option String) {e : Expr} : TypeOK N e → TypeOK N (.ArrayType l e)
  | map {k v : Expr} : TypeOK N k → TypeOK N v → TypeOK N (.MapType k v)
  | star {x : Expr} : TypeOK N x → TypeOK N (.StarExpr x)
  | selector (X : Expr) (Sel : String) : TypeOK N (.SelectorExpr X Sel)
  | other {e : Expr} : fallsThrough e = true → TypeOK N e

/-- The name of a type specification, and the names and types of its fields when it is a
struct type, satisfy `N`. -/
def SpecOK (N : String → Prop) (spec : TypeSpec) : Prop :=
  N spec.Name ∧ ∀ fs : List Field, spec.Typ = .StructType fs →
    ∀ f ∈ fs, (∀ n ∈ f.Names, N n) ∧ TypeOK N f.Typ

/-- The name of a struct model and the names and types of its fields satisfy `N`. -/
def StructOK (N : String → Prop) (s : structType) : Prop :=
  N s.name ∧ ∀ f ∈ s.fields, N f.name ∧ TypeOK N f.goType

/-- Every type specification of the object table and of the parsed packages satisfies
`SpecOK N`. -/
def WorldOK (N : String → Prop) (W : World) : Prop :=
  (∀ (a : Nat) (spec : TypeSpec), W.objects a = .typeSpec spec → SpecOK N spec) ∧
  (∀ (dir : String) (pkgs : List Package), W.parseDir dir = .ok pkgs →
    ∀ pkg ∈ pkgs, ∀ file ∈ pkg.Files, ∀ (tok : Token) (specs : List Spec),
      Decl.GenDecl tok specs ∈ file.Decls → ∀ spec : TypeSpec,
        Spec.typeSpec spec ∈ specs → SpecOK N spec)

/-- A text that leaves every nesting depth as it found it. -/
def Level (s : String) : Prop := ∀ d, braceScan s.data d = some d

/-- The type expression refers to the local record at address `a`: directly, or through
arrays, maps and pointers. -/
inductive Refers : Expr → Nat → Prop where
  | object (n : String) (a : Nat) : Refers (.Ident n (some a)) a
  | array (l : Option String) {e : Expr} {a : Nat} : Refers e a → Refers (.ArrayType l e) a
  | mapKey {k : Expr} (v : Expr) {a : Nat} : Refers k a → Refers (.MapType k v) a
  | mapValue (k : Expr) {v : Expr} {a : Nat} : Refers v a → Refers (.MapType k v) a
  | star {x : Expr} {a : Nat} : Refers x a → Refers (.StarExpr x) a

/-- The type expression refers to a type of an external module: a package-qualified type
stands in it directly or beneath arrays, maps and pointers. -/
inductive RefersExternal : Expr → Prop where
  | here (X : Expr) (Sel : String) : RefersExternal (.SelectorExpr X Sel)
  | array (l : Option String) {e : Expr} : RefersExternal e → RefersExternal (.ArrayType l e)
  | mapKey {k : Expr} (v : Expr) : RefersExternal k → RefersExternal (.MapType k v)
  | mapValue (k : Expr) {v : Expr} : RefersExternal v → RefersExternal (.MapType k v)
  | star {x : Expr} : RefersExternal x → RefersExternal (.StarExpr x)

/-- The field types of the record declared at address `a` (none when the object is not a
struct type). -/
def fieldTypesAt (W : World) (a : Nat) : List Expr :=
  match W.objects a with
  | .typeSpec spec =>
    match spec.Typ with
    | .StructType fs => fs.map (fun f => f.Typ)
    | _ => []
  | .other => []

/-- An edge of the declaration graph: a field type of the record at `a` refers to the
record at `b`. -/
def FieldRef (W : World) (a b : Nat) : Prop := ∃ t ∈ fieldTypesAt W a, Refers t b

/-- The local records reachable from a type expression: those it refers to, and those the
fields of a reachable record refer to. -/
inductive Reaches (W : World) (e : Expr) : Nat → Prop where
  | direct {a : Nat} : Refers e a → Reaches W e a
  | step {a b : Nat} : Reaches W e a → FieldRef W a b → Reaches W e b

/-- The precondition of termination for a type expression: the records reachable from it
are finitely many (as in every program), none of them reaches itself through fields,
arrays, maps or pointers, and neither the expression nor a field of a reachable record
refers to a type of an external module. -/
def NoCycleFrom (W : World) (e : Expr) : Prop :=
  (∃ L : List Nat, ∀ a, Reaches W e a → a ∈ L) ∧
  (∀ a, Reaches W e a → ¬ Relation.TransGen (FieldRef W) a a) ∧
  ¬ RefersExternal e ∧
  (∀ a, Reaches W e a → ∀ t ∈ fieldTypesAt W a, ¬ RefersExternal t)

/-- The import path a path literal denotes: the text between its delimiters, which are
double quotes for an interpreted string literal and backquotes for a raw string literal. -/
def specImportPath (lit : String) : String :=
  match lit.data with
  | [] => lit
  | c :: rest =>
    if (c = '"' ∨ c = Char.ofNat 96) ∧ rest.getLast? = some c then ⟨rest.dropLast⟩ else lit

/-- The key the specification gives an import: the explicit alias if one is given,
otherwise the last `/`-separated segment of the import path. -/
def specImportKey (imp : ImportSpec) : String :=
  match imp.Name with
  | some a => a
  | none => lastSegment (specImportPath imp.Path)

/-- The value the specification gives an import: the import path. -/
def specImportValue (imp : ImportSpec) : String := specImportPath imp.Path

/-- The import table of the specification: one insertion per import in scan order, a later
insertion overwriting the value of an equal key. -/
def specImports (l : List ImportSpec) : Imports :=
  l.foldl (fun m imp => mapSet m (specImportKey imp) (specImportValue imp)) []

/-- An interpreted string literal: double quotes around a text without double quote. -/
def Interpreted (lit : String) : Prop :=
  ∃ p : List Char, lit.data = '"' :: (p ++ ['"']) ∧ '"' ∉ p

/-- The fields whose synthesis returned a value in two runs, each with its two values;
`ops` lists, per field in order, the two values (`some`) or that an error was returned
(`none`). -/
def fieldPairs : List structField → List (Option (String × String)) →
    List (structField × String × String)
  | f :: fs, some v :: ops => (f, v.1, v.2) :: fieldPairs fs ops
  | _ :: fs, none :: ops => fieldPairs fs ops
  | _, _ => []

/-- `OnlyMarks W e a b`: the texts `a` and `b` are values for the type expression `e`, and
`b` is `a` with the marker `&` put before record literals and nothing else changed. Either
the two texts are equal; or `e` names a record, `a` is a record literal, `b` is `&` followed
by a record literal of the same name with the same field names at the same indentation,
and the field values are related in turn at the field types; or `e` is an array or a map
type, both texts are array (map) literals of the same type name with as many elements
(pairs), no marker before them, and the elements (keys, values) are related in turn. -/
inductive OnlyMarks (W : World) : Expr → String → String → Prop where
  | same (e : Expr) (v : String) : OnlyMarks W e v v
  | record (n : String) (a : Nat) (spec : TypeSpec) (s : structType) (i : Nat)
      (ops : List (Option (String × String))) :
      W.objects a = .typeSpec spec → typeSpecToStructType spec = .ok s →
      (∀ q ∈ fieldPairs s.fields ops, OnlyMarks W q.1.goType q.2.1 q.2.2) →
      OnlyMarks W (.Ident n (some a))
        (structText s.name i (entriesOf s.fields (ops.map (Option.map Prod.fst))))
        ("&" ++ structText s.name i (entriesOf s.fields (ops.map (Option.map Prod.snd))))
  | external (X : Expr) (Sel dir : String) (s : structType) (i : Nat)
      (ops : List (Option (String × String))) :
      GetStruct W dir Sel = .ok s →
      (∀ q ∈ fieldPairs s.fields ops, OnlyMarks W q.1.goType q.2.1 q.2.2) →
      OnlyMarks W (.SelectorExpr X Sel)
        (structText s.name i (entriesOf s.fields (ops.map (Option.map Prod.fst))))
        ("&" ++ structText s.name i (entriesOf s.fields (ops.map (Option.map Prod.snd))))
  | array (l : Option String) (e : Expr) (tn : String) (vs : List (String × String)) :
      (∀ v ∈ vs, OnlyMarks W e v.1 v.2) →
      OnlyMarks W (.ArrayType l e) (arrayText tn (vs.map Prod.fst))
        (arrayText tn (vs.map Prod.snd))
  | map (k v : Expr) (tn : String) (i : Nat)
      (ps : List ((String × String) × (String × String))) :
      (∀ q ∈ ps, OnlyMarks W k q.1.1 q.2.1) → (∀ q ∈ ps, OnlyMarks W v q.1.2 q.2.2) →
      OnlyMarks W (.MapType k v) (mapText tn i (ps.map Prod.fst))
        (mapText tn i (ps.map Prod.snd))

/-- The keywords of Go, which are not identifiers. -/
def goKeywords : List String :=
  ["break", "default", "func", "interface", "select", "case", "defer", "go", "map",
    "struct", "chan", "else", "goto", "package", "switch", "const", "fallthrough", "if",
    "range", "type", "continue", "for", "import", "return", "var"]

/-- The letters and the digits of Unicode beyond ASCII, which the development leaves
open: every statement holds whatever they are. -/
structure Unicode where
  letter : Char → Prop
  digit : Char → Prop

/-- A letter of the Go lexical grammar: an ASCII letter, the underscore, or a Unicode
letter beyond ASCII. -/
def isLetter (U : Unicode) (c : Char) : Prop :=
  c.isAlpha = true ∨ c = '_' ∨ (128 ≤ c.toNat ∧ U.letter c)

/-- A letter or a digit of the Go lexical grammar. -/
def isLetterOrDigit (U : Unicode) (c : Char) : Prop :=
  isLetter U c ∨ c.isDigit = true ∨ (128 ≤ c.toNat ∧ U.digit c)

/-- An identifier of Go: a letter followed by letters and digits, and not a keyword. -/
def GoIdent (U : Unicode) (s : String) : Prop :=
  (∃ (c : Char) (cs : List Char), s.data = c :: cs ∧ isLetter U c ∧
    ∀ d ∈ cs, isLetterOrDigit U d) ∧ s ∉ goKeywords

/-- An identifier of Go written in ASCII, as a test. -/
def asciiIdent (s : String) : Bool :=
  match s.data with
  | [] => false
  | c :: cs => (c.isAlpha || c == '_') &&
      cs.all (fun d => d.isAlpha || d == '_' || d.isDigit) && !(goKeywords.contains s)

/-- A type of Go, as far as type names are rendered: a type name, a slice type, a map type
or a pointer type. -/
inductive GoType (U : Unicode) : String → Prop where
  | name (n : String) : GoIdent U n → GoType U n
  | slice (t : String) : GoType U t → GoType U ("[]" ++ t)
  | map (k v : String) : GoType U k → GoType U v → GoType U ("map[" ++ k ++ "]" ++ v)
  | pointer (t : String) : GoType U t → GoType U ("*" ++ t)

/-- A type that may stand before the braces of a composite literal: a type name, a slice
type or a map type. -/
inductive GoLitType (U : Unicode) : String → Prop where
  | name (n : String) : GoIdent U n → GoLitType U n
  | slice (t : String) : GoType U t → GoLitType U ("[]" ++ t)
  | map (k v : String) : GoType U k → GoType U v → GoLitType U ("map[" ++ k ++ "]" ++ v)

/-- A decimal integer literal of Go: decimal digits, without a leading zero unless the
literal is `0`. -/
def DecimalLit (s : String) : Prop :=
  s.data ≠ [] ∧ (∀ c ∈ s.data, c.isDigit = true) ∧ (s.data.head? = some '0' → s.data = ['0'])

/-- A decimal floating-point literal of Go without exponent: decimal digits, a point,
decimal digits. -/
def FloatLit (s : String) : Prop :=
  ∃ a b : List Char, s.data = a ++ '.' :: b ∧ a ≠ [] ∧ b ≠ [] ∧
    (∀ c ∈ a, c.isDigit = true) ∧ (∀ c ∈ b, c.isDigit = true)

/-- An interpreted string literal of Go without escapes: double quotes around characters
other than the double quote, the backslash and the newline. -/
def StringLit (s : String) : Prop :=
  ∃ body : List Char, s.data = '"' :: (body ++ ['"']) ∧
    ∀ c ∈ body, c ≠ '"' ∧ c ≠ '\\' ∧ c ≠ '\n'

/-- White space within a line: spaces and tabs. -/
def isBlank (s : String) : Prop := ∀ c ∈ s.data, c = ' ' ∨ c = '\t'

/-- White space that may hold newlines; it stands only after an opening brace or a comma,
where the lexer inserts no semicolon. -/
def isSpace (s : String) : Prop := ∀ c ∈ s.data, c = ' ' ∨ c = '\t' ∨ c = '\n'

/-- The syntactic categories of the grammar `Go`: an expression, the element list between
the braces of a composite literal, and one element of that list. -/
inductive Cat where
  | expr
  | elems
  | elem

/-- A grammar of Go expressions, a part of the grammar of the language specification,
white space included. Expressions: a decimal integer literal, a negated one, a
floating-point literal, a string literal, an operand name (such as `true`), a call or
conversion `f(a)`, a composite literal `T\x7b...\x7d` and its address `&T\x7b...\x7d`. An
element is an expression or `key: value`; elements are separated by commas, the last one
may be followed by a comma, and a newline stands only after the opening brace or after a
comma. -/
inductive Go (U : Unicode) : Cat → String → Prop where
  | int (s : String) : DecimalLit s → Go U .expr s
  | neg (s : String) : DecimalLit s → Go U .expr ("-" ++ s)
  | float (s : String) : FloatLit s → Go U .expr s
  | str (s : String) : StringLit s → Go U .expr s
  | name (s : String) : GoIdent U s → Go U .expr s
  | call (f a : String) : GoIdent U f → Go U .expr a → Go U .expr (f ++ "(" ++ a ++ ")")
  | composite (ty body : String) : GoLitType U ty → Go U .elems body →
      Go U .expr (ty ++ "\x7b" ++ body ++ "\x7d")
  | addr (ty body : String) : GoLitType U ty → Go U .elems body →
      Go U .expr ("&" ++ ty ++ "\x7b" ++ body ++ "\x7d")
  | value (v : String) : Go U .expr v → Go U .elem v
  | keyed (k b v : String) : Go U .expr k → isBlank b → Go U .expr v →
      Go U .elem (k ++ ":" ++ b ++ v)
  | none (w : String) : isSpace w → Go U .elems w
  | last (w e b : String) : isSpace w → Go U .elem e → isBlank b → Go U .elems (w ++ e ++ b)
  | more (w e b rest : String) : isSpace w → Go U .elem e → isBlank b → Go U .elems rest →
      Go U .elems (w ++ e ++ b ++ "," ++ rest)

/-- A text of the grammar `Go` that leaves every nesting depth of braces as it found it. -/
def WellFormed (U : Unicode) (v : String) : Prop := Go U .expr v ∧ Level v

/-- The alphabet without letters and digits beyond ASCII. -/
def asciiOnly : Unicode := ⟨fun _ => False, fun _ => False⟩

/-! ## Concrete inputs -/

/-- The struct `Box` with the single field `Items []string`. -/
def boxStruct : structType := ⟨"Box", [⟨"Items", .ArrayType none (.Ident "string" none)⟩]⟩

/-- A world in which the import path `example.com/pkg` is found in the module cache and
holds one file declaring `type T struct { A int }`. -/
def pkgWorld : World where
  objects := fun _ => .other
  getenv := fun v => if v = "GOPATH" then "/go" else ""
  glob := fun pat =>
    if pat = "/go/pkg/mod/example.com/pkg*" then ["/go/pkg/mod/example.com/pkg@v1.0.0"] else []
  parseDir := fun d =>
    if d = "/go/pkg/mod/example.com/pkg@v1.0.0" then
      .ok [⟨[⟨[.GenDecl .TYPE [.typeSpec ⟨"T", .StructType [⟨["A"], .Ident "int" none⟩]⟩]], []⟩]⟩]
    else .error "no such file or directory"

/-- The import table of a file that imports `example.com/pkg`. -/
def pkgImports : Imports := [("pkg", "example.com/pkg")]

/-- The type expression `pkg.T`. -/
def pkgT : Expr := .SelectorExpr (.Ident "pkg" none) "T"

/-- The struct `Point` with the fields `X int` and `Y int`. -/
def pointStruct : structType := ⟨"Point", [⟨"X", .Ident "int" none⟩, ⟨"Y", .Ident "int" none⟩]⟩

/-- The type expression `*Node`, `Node` being the object at address 0. -/
def starNode : Expr := .StarExpr (.Ident "Node" (some 0))

/-- The type expression `*Job`, `Job` being the object at address 1. -/
def starJob : Expr := .StarExpr (.Ident "Job" (some 1))

/-- A world whose object table holds `type Node struct { Next *Node }` at address 0 and
`type Job struct { Run func(); Next *Job }` at address 1. -/
def selfWorld : World where
  objects := fun a =>
    if a = 0 then .typeSpec ⟨"Node", .StructType [⟨["Next"], starNode⟩]⟩
    else if a = 1 then .typeSpec ⟨"Job", .StructType [⟨["Run"], .FuncType⟩, ⟨["Next"], starJob⟩]⟩
    else .other
  getenv := fun _ => ""
  glob := fun _ => []
  parseDir := fun _ => .ok []

/-- The struct model of `Node`. -/
def nodeStruct : structType := ⟨"Node", [⟨"Next", starNode⟩]⟩

/-- The struct model of `Job`. -/
def jobStruct : structType := ⟨"Job", [⟨"Run", .FuncType⟩, ⟨"Next", starJob⟩]⟩

/-- The type specification `type P struct { X, Y int }`. -/
def xySpec : TypeSpec := ⟨"P", .StructType [⟨["X", "Y"], .Ident "int" none⟩]⟩

/-- A world whose current directory holds one file with the grouped declaration
`type ( A struct{}; B struct { X int } )`. -/
def groupWorld : World where
  objects := fun _ => .other
  getenv := fun _ => ""
  glob := fun _ => []
  parseDir := fun _ =>
    .ok [⟨[⟨[.GenDecl .TYPE [.typeSpec ⟨"A", .StructType []⟩,
      .typeSpec ⟨"B", .StructType [⟨["X"], .Ident "int" none⟩]⟩]], []⟩]⟩]

/-- A world whose current directory holds one file with the empty declaration `type ()`. -/
def emptyGroupWorld : World where
  objects := fun _ => .other
  getenv := fun _ => ""
  glob := fun _ => []
  parseDir := fun _ => .ok [⟨[⟨[.GenDecl .TYPE []], []⟩]⟩]

/-- A world whose current directory holds one file importing `fmt`, `encoding/json` under
the alias `j`, and `example.com/x/fmt`. -/
def importWorld : World where
  objects := fun _ => .other
  getenv := fun _ => ""
  glob := fun _ => []
  parseDir := fun _ =>
    .ok [⟨[⟨[], [⟨none, "\"fmt\""⟩, ⟨some "j", "\"encoding/json\""⟩,
      ⟨none, "\"example.com/x/fmt\""⟩]⟩]⟩]

/-- A world whose object table holds `type Inner struct { A int }` at address 0 and
`type Outer struct { In Inner; Ps []*Inner }` at address 1. -/
def nestWorld : World where
  objects := fun a =>
    if a = 0 then .typeSpec ⟨"Inner", .StructType [⟨["A"], .Ident "int" none⟩]⟩
    else if a = 1 then .typeSpec ⟨"Outer", .StructType [⟨["In"], .Ident "Inner" (some 0)⟩,
      ⟨["Ps"], .ArrayType none (.StarExpr (.Ident "Inner" (some 0)))⟩]⟩
    else .other
  getenv := fun _ => ""
  glob := fun _ => []
  parseDir := fun _ => .ok []

/-- A world whose object table holds `type Inner struct { A int }` at address 0,
`type Outer struct { In Inner; Ps []*Inner }` at address 1, the self-referential
`type Node struct { Next *Node }` at address 2 and `type Stamp struct { T time.Time }` at
address 3. -/
def mixedWorld : World where
  objects := fun a =>
    if a = 0 then .typeSpec ⟨"Inner", .StructType [⟨["A"], .Ident "int" none⟩]⟩
    else if a = 1 then .typeSpec ⟨"Outer", .StructType [⟨["In"], .Ident "Inner" (some 0)⟩,
      ⟨["Ps"], .ArrayType none (.StarExpr (.Ident "Inner" (some 0)))⟩]⟩
    else if a = 2 then
      .typeSpec ⟨"Node", .StructType [⟨["Next"], .StarExpr (.Ident "Node" (some 2))⟩]⟩
    else if a = 3 then
      .typeSpec ⟨"Stamp", .StructType [⟨["T"], .SelectorExpr (.Ident "time" none) "Time"⟩]⟩
    else .other
  getenv := fun _ => ""
  glob := fun _ => []
  parseDir := fun _ => .ok []

/-- A world whose current directory holds one file whose only import is written with a
raw string literal, the path `encoding/json` between backquotes. -/
def rawImportWorld : World where
  objects := fun _ => .other
  getenv := fun _ => ""
  glob := fun _ => []
  parseDir := fun _ => .ok [⟨[⟨[], [⟨none, "\x60encoding/json\x60"⟩]⟩]⟩]

/-! ## Scalar values -/

section ScalarFacts
variable {σ : Type} (R : RandSource σ)

theorem letterRunes_length : letterRunes.length = 52 := by decide

theorem letterRunes_isAlpha : ∀ c ∈ letterRunes, c.isAlpha = true := by decide

/-- The loop of `getRandomString` never panics, adds exactly `n` characters and takes each
of them from `letterRunes`. -/
theorem stringLoop_ok (n : Nat) : ∀ (b : List Char) (st : St σ),
    ∃ t st1, stringLoop R n b st = (.ok (b ++ t), st1) ∧ t.length = n ∧
      (∀ c ∈ t, c ∈ letterRunes) ∧ st1.stdout = st.stdout := by
  induction n with
  | zero => intro b st; exact ⟨[], st, by simp [stringLoop], rfl, by simp, rfl⟩
  | succ n ih =>
    intro b st
    have hlt : (R.Intn letterRunes.length st.rng).1 < letterRunes.length :=
      R.Intn_lt _ _ (by decide)
    obtain ⟨t, st1, h1, h2, h3, h4⟩ :=
      ih (b ++ [letterRunes[(R.Intn letterRunes.length st.rng).1]])
        ⟨(R.Intn letterRunes.length st.rng).2, st.stdout⟩
    refine ⟨letterRunes[(R.Intn letterRunes.length st.rng).1] :: t, st1, ?_, by simp [h2], ?_, h4⟩
    · simp only [stringLoop, List.get?_eq_getElem?, List.getElem?_eq_getElem hlt]
      simpa using h1
    · intro c hc
      rcases List.mem_cons.1 hc with h | h
      · exact h ▸ List.getElem_mem _
      · exact h3 c h

/-- The function `getRandomString` returns a quoted run of at most 19 letters. -/
theorem getRandomString_ok (st : St σ) :
    ∃ t st1, getRandomString R st = (.ok ("\"" ++ String.mk t ++ "\""), st1) ∧
      t.length ≤ 19 ∧ (∀ c ∈ t, c ∈ letterRunes) ∧ st1.stdout = st.stdout := by
  obtain ⟨t, st1, h1, h2, h3, h4⟩ :=
    stringLoop_ok R (R.Intn 20 st.rng).1 [] ⟨(R.Intn 20 st.rng).2, st.stdout⟩
  have hlt : (R.Intn 20 st.rng).1 < 20 := R.Intn_lt _ _ (by decide)
  refine ⟨t, st1, ?_, by omega, h3, h4⟩
  simp only [getRandomString, h1, List.nil_append]

end ScalarFacts

/-- C4: `getRandomString` returns a double quote, then between 0 and 19 characters each
taken from the 52 letters `a-z`, `A-Z` of `letterRunes`, then a double quote, for every
random source whose bounded draw stays in `[0, n)`. -/
theorem getRandomString_quoted_letters {σ : Type} (R : RandSource σ) (st : St σ) :
    letterRunes.length = 52 ∧
    ∃ t : List Char, (getRandomString R st).1 = .ok ("\"" ++ String.mk t ++ "\"") ∧
      t.length ≤ 19 ∧ ∀ c ∈ t, c ∈ letterRunes ∧ c.isAlpha = true ∧ c ≠ '"' := by
  refine ⟨letterRunes_length, ?_⟩
  obtain ⟨t, st1, h1, h2, h3, _⟩ := getRandomString_ok R st
  refine ⟨t, by rw [h1], h2, fun c hc => ⟨h3 c hc, letterRunes_isAlpha c (h3 c hc), ?_⟩⟩
  intro h
  have := letterRunes_isAlpha c (h3 c hc)
  rw [h] at this
  exact absurd this (by decide)

theorem getSimpleTypeFixture_unsupported {σ : Type} (R : RandSource σ) (name : String)
    (st : St σ) (h : name ∉ scalarKinds) :
    getSimpleTypeFixture R name st = (.err ("Unsupported type: " ++ name), st) := by
  simp only [scalarKinds, List.mem_cons, List.mem_singleton, List.not_mem_nil, or_false,
    not_or] at h
  obtain ⟨h1, h2, h3, h4, h5, h6, h7, h8, h9, h10, h11, h12, h13, h14⟩ := h
  simp only [getSimpleTypeFixture, h1, h2, h3, h4, h5, h6, h7, h8, h9, h10, h11, h12, h13,
    h14, if_false]

theorem getSimpleTypeFixture_supported {σ : Type} (R : RandSource σ) (name : String)
    (st : St σ) (h : name ∈ scalarKinds) :
    ∃ v st1, getSimpleTypeFixture R name st = (.ok v, st1) ∧ st1.stdout = st.stdout := by
  simp only [scalarKinds, List.mem_cons, List.mem_singleton, List.not_mem_nil, or_false] at h
  rcases h with rfl | rfl | rfl | rfl | rfl | rfl | rfl | rfl | rfl | rfl | rfl | rfl | rfl | rfl
  case inr.inr.inr.inr.inr.inr.inr.inr.inr.inr.inr.inr.inl =>
    obtain ⟨t, st1, ht, _, _, hs⟩ := getRandomString_ok R st
    exact ⟨_, st1, ht, hs⟩
  all_goals exact ⟨_, _, rfl, rfl⟩

/-- C10: `getSimpleTypeFixture` succeeds exactly on the fourteen scalar kinds `int`, `int8`,
`int16`, `int32`, `int64`, `uint`, `uint8`, `uint16`, `uint32`, `uint64`, `float32`,
`float64`, `string`, `bool`; on every other name (such as `byte`, `rune`, `uintptr`,
`complex128`, `error`) it returns the error `Unsupported type: <name>` and no value. -/
theorem getSimpleTypeFixture_succeeds_iff {σ : Type} (R : RandSource σ) (name : String)
    (st : St σ) :
    ((∃ v, (getSimpleTypeFixture R name st).1 = .ok v) ↔ name ∈ scalarKinds) ∧
    (name ∉ scalarKinds →
      getSimpleTypeFixture R name st = (.err ("Unsupported type: " ++ name), st)) ∧
    scalarKinds.length = 14 ∧
    (∀ n ∈ ["byte", "rune", "uintptr", "complex128", "error"], n ∉ scalarKinds) := by
  refine ⟨⟨?_, ?_⟩, getSimpleTypeFixture_unsupported R name st, by decide, by decide⟩
  · rintro ⟨v, hv⟩
    by_contra hn
    rw [getSimpleTypeFixture_unsupported R name st hn] at hv
    exact absurd hv (by simp)
  · intro h
    obtain ⟨v, st1, hv, _⟩ := getSimpleTypeFixture_supported R name st h
    exact ⟨v, by rw [hv]⟩

/-! ## Loops and the runs they perform -/

theorem tabs_zero : tabs 0 = "" := rfl

theorem getTabsLoop_eq (n : Nat) : ∀ acc : String, getTabsLoop n acc = acc ++ tabs n := by
  induction n with
  | zero => intro acc; simp [getTabsLoop, tabs_zero]
  | succ n ih =>
    intro acc
    rw [getTabsLoop, ih]
    apply String.ext
    simp [tabs, List.replicate_succ]

theorem getTabs_eq (i : Int) : getTabs i = tabs i.toNat := by
  simp [getTabs, getTabsLoop_eq]

theorem toSigned_of_lt (u : Nat) (h : u < 2 ^ 32) : toSigned 64 u = (u : Int) := by
  have h1 : u % 2 ^ 64 = u := Nat.mod_eq_of_lt (by norm_num at h ⊢; omega)
  have h2 : u < 2 ^ (64 - 1) := by norm_num at h ⊢; omega
  simp only [toSigned, h1, if_pos h2]

theorem listCount_eq (u : Nat) (h : u < 2 ^ 32) : listCount u = (elemCount u : Int) := by
  simp only [listCount, toSigned_of_lt u h, maxListLength, elemCount]
  split_ifs <;> omega

theorem elemCount_pos (u : Nat) : 1 ≤ elemCount u := by
  simp only [elemCount]; split_ifs <;> omega

theorem elemCount_le (u : Nat) : elemCount u ≤ 3 := by
  simp only [elemCount]; split_ifs <;> omega

section Runs
variable {σ : Type}

theorem structLoop_of_run {gv : Synth σ} {imps : Imports} {pointer : Bool} {ind : Int}
    {st st1 : St σ} {fs : List structField} {os : List (Option String)}
    (h : FieldsRun gv imps pointer ind st fs os st1) :
    ∀ acc : String, structLoop gv imps pointer ind fs acc st =
      (.ok (acc ++ concatAll ((entriesOf fs os).map
        (fun e => tabs ind.toNat ++ e.1 ++ ": " ++ e.2 ++ ",\n"))), st1) := by
  induction h with
  | nil st => intro acc; simp [structLoop, entriesOf, concatAll]
  | ok hg _ ih =>
    intro acc
    simp only [structLoop, hg, ih, entriesOf, List.map_cons, concatAll, getTabs_eq,
      String.append_assoc]
  | skip hg _ ih =>
    intro acc
    simp only [structLoop, hg, ih, entriesOf]

theorem synthRun_snoc {g : St σ → Res String × St σ} {st st1 : St σ}
    {vs : List String} (h : SynthRun g st vs st1) :
    ∀ {v : String} {st2 : St σ}, g st1 = (.ok v, st2) → SynthRun g st (vs ++ [v]) st2 := by
  induction h with
  | nil st => intro v st2 hv; exact .cons hv (.nil _)
  | cons hg _ ih => intro v st2 hv; exact .cons hg (ih hv)

theorem synthRun_unsnoc {g : St σ → Res String × St σ} :
    ∀ {vs : List String} {st st2 : St σ} {v : String}, SynthRun g st (vs ++ [v]) st2 →
      ∃ st1, SynthRun g st vs st1 ∧ g st1 = (.ok v, st2) := by
  intro vs
  induction vs with
  | nil =>
    intro st st2 v h
    cases h with
    | cons hg hr => cases hr; exact ⟨st, .nil _, hg⟩
  | cons w ws ih =>
    intro st st2 v h
    cases h with
    | cons hg hr =>
      obtain ⟨st1, h1, h2⟩ := ih hr
      exact ⟨st1, .cons hg h1, h2⟩

theorem arrayLoop_of_run {gv : Synth σ} {Elt : Expr} {imps : Imports} {pointer : Bool}
    {ind : Int} {st st1 : St σ} {vs : List String}
    (h : SynthRun (gv Elt imps pointer ind) st vs st1) :
    ∀ acc : String, arrayLoop gv Elt imps pointer ind vs.length acc st =
      (.ok (acc ++ concatAll (vs.map (fun v => v ++ ", "))), st1) := by
  induction h with
  | nil st => intro acc; simp [arrayLoop, concatAll]
  | cons hg _ ih =>
    intro acc
    simp only [List.length_cons, arrayLoop, hg, ih, List.map_cons, concatAll,
      String.append_assoc]

theorem joinSep_snoc (sep : String) (v : String) : ∀ ws : List String,
    concatAll (ws.map (fun w => w ++ sep)) ++ v = joinSep sep (ws ++ [v]) := by
  intro ws
  induction ws with
  | nil => simp [concatAll, joinSep]
  | cons w ws ih =>
    cases ws with
    | nil => simp [concatAll, joinSep]
    | cons x xs =>
      simp only [List.map_cons, concatAll, List.cons_append, joinSep, String.append_assoc] at ih ⊢
      rw [ih]
      rfl

theorem eq_nil_or_snoc {α : Type} (l : List α) : l = [] ∨ ∃ ws v, l = ws ++ [v] := by
  rcases List.eq_nil_or_concat l with h | ⟨ws, v, h⟩
  · exact .inl h
  · exact .inr ⟨ws, v, by rw [h, List.concat_eq_append]⟩

theorem synthRun_of_total {g : St σ → Res String × St σ} (P : String → Prop)
    (h : ∀ st, ∃ v st1, g st = (.ok v, st1) ∧ P v) :
    ∀ (n : Nat) (st : St σ), ∃ vs st1, SynthRun g st vs st1 ∧ vs.length = n ∧ ∀ v ∈ vs, P v := by
  intro n
  induction n with
  | zero => intro st; exact ⟨[], st, .nil _, rfl, by simp⟩
  | succ n ih =>
    intro st
    obtain ⟨v, st1, hv, hp⟩ := h st
    obtain ⟨vs, st2, hr, hl, hall⟩ := ih st1
    refine ⟨v :: vs, st2, .cons hv hr, by simp [hl], ?_⟩
    intro w hw
    rcases List.mem_cons.1 hw with rfl | hw
    · exact hp
    · exact hall w hw

theorem arrayFixtureWith_of_run (R : RandSource σ) {gv : Synth σ} {Len : Option String}
    {Elt : Expr} {imps : Imports} {pointer : Bool} {ind : Int} {st st1 : St σ}
    {tn : String} {vs : List String}
    (htn : getTypeName (.ArrayType Len Elt) = .ok tn)
    (hrun : SynthRun (gv Elt imps pointer ind) ⟨(R.Uint32 st.rng).2, st.stdout⟩ vs st1)
    (hlen : vs.length = elemCount (R.Uint32 st.rng).1) :
    arrayFixtureWith R gv Len Elt imps pointer ind st = (.ok (arrayText tn vs), st1) := by
  rcases eq_nil_or_snoc vs with rfl | ⟨ws, v, rfl⟩
  · have := elemCount_pos (R.Uint32 st.rng).1
    simp at hlen; omega
  · obtain ⟨st2, hws, hv⟩ := synthRun_unsnoc hrun
    have hc : (listCount (R.Uint32 st.rng).1 - 1).toNat = ws.length := by
      rw [listCount_eq _ (R.Uint32_lt _), ← hlen]
      simp
    simp only [arrayFixtureWith, htn, hc, arrayLoop_of_run hws, hv, arrayText,
      String.append_assoc, ← joinSep_snoc]

theorem pairRun_unsnoc {gk gv : St σ → Res String × St σ} :
    ∀ {ps : List (String × String)} {st st3 : St σ} {k v : String},
      PairRun gk gv st (ps ++ [(k, v)]) st3 →
      ∃ st1 st2, PairRun gk gv st ps st1 ∧ gk st1 = (.ok k, st2) ∧ gv st2 = (.ok v, st3) := by
  intro ps
  induction ps with
  | nil =>
    intro st st3 k v h
    cases h with
    | cons hk hv hr => cases hr; exact ⟨st, _, .nil _, hk, hv⟩
  | cons q qs ih =>
    intro st st3 k v h
    cases h with
    | cons hk hv hr =>
      obtain ⟨st1, st2, h1, h2, h3⟩ := ih hr
      exact ⟨st1, st2, .cons hk hv h1, h2, h3⟩

theorem pairRun_of_total {gk gv : St σ → Res String × St σ}
    (hk : ∀ st, ∃ k st1, gk st = (.ok k, st1)) (hv : ∀ st, ∃ v st1, gv st = (.ok v, st1)) :
    ∀ (n : Nat) (st : St σ), ∃ ps st1, PairRun gk gv st ps st1 ∧ ps.length = n := by
  intro n
  induction n with
  | zero => intro st; exact ⟨[], st, .nil _, rfl⟩
  | succ n ih =>
    intro st
    obtain ⟨k, st1, h1⟩ := hk st
    obtain ⟨v, st2, h2⟩ := hv st1
    obtain ⟨ps, st3, hr, hl⟩ := ih st2
    exact ⟨(k, v) :: ps, st3, .cons h1 h2 hr, by simp [hl]⟩

theorem mapLoop_of_run {gv : Synth σ} {Key Value : Expr} {imps : Imports} {pointer : Bool}
    {ind : Int} {st st1 : St σ} {ps : List (String × String)}
    (h : PairRun (gv Key imps pointer (ind + 1)) (gv Value imps pointer (ind + 1)) st ps st1) :
    ∀ acc : String, mapLoop gv Key Value imps pointer ind ps.length acc st =
      (.ok (acc ++ concatAll (ps.map
        (fun p => tabs ind.toNat ++ p.1 ++ ": " ++ p.2 ++ ",\n"))), st1) := by
  induction h with
  | nil st => intro acc; simp [mapLoop, concatAll]
  | cons hk hv _ ih =>
    intro acc
    simp only [List.length_cons, mapLoop, hk, hv, ih, List.map_cons, concatAll, getTabs_eq,
      String.append_assoc]

theorem mapEntries_snoc (i : Nat) (p : String × String) : ∀ qs : List (String × String),
    concatAll (qs.map (fun q => tabs i ++ q.1 ++ ": " ++ q.2 ++ ",\n")) ++
      (tabs i ++ p.1 ++ ": " ++ p.2) = mapEntries i (qs ++ [p]) := by
  intro qs
  induction qs with
  | nil => simp [concatAll, mapEntries]
  | cons q qs ih =>
    cases qs with
    | nil => simp [concatAll, mapEntries, String.append_assoc]
    | cons x xs =>
      simp only [List.map_cons, concatAll, List.cons_append, mapEntries,
        String.append_assoc] at ih ⊢
      rw [ih]
      rfl

theorem mapFixtureWith_of_run (R : RandSource σ) {gv : Synth σ} {Key Value : Expr}
    {imps : Imports} {pointer : Bool} {ind : Int} {st st1 : St σ}
    {tn : String} {ps : List (String × String)}
    (htn : getTypeName (.MapType Key Value) = .ok tn)
    (hrun : PairRun (gv Key imps pointer (ind + 1)) (gv Value imps pointer (ind + 1))
      ⟨(R.Uint32 st.rng).2, st.stdout⟩ ps st1)
    (hlen : ps.length = elemCount (R.Uint32 st.rng).1) :
    mapFixtureWith R gv Key Value imps pointer ind st = (.ok (mapText tn ind.toNat ps), st1) := by
  rcases eq_nil_or_snoc ps with rfl | ⟨qs, ⟨k, v⟩, rfl⟩
  · have := elemCount_pos (R.Uint32 st.rng).1
    simp at hlen; omega
  · obtain ⟨st2, st3, hqs, hk, hv⟩ := pairRun_unsnoc hrun
    have hc : (listCount (R.Uint32 st.rng).1 - 1).toNat = qs.length := by
      rw [listCount_eq _ (R.Uint32_lt _), ← hlen]
      simp
    simp only [mapFixtureWith, htn, hc, mapLoop_of_run hqs, hk, hv, mapText, getTabs_eq,
      String.append_assoc, ← mapEntries_snoc]

theorem structFixtureWith_of_run {gv : Synth σ} {imps : Imports} {pointer : Bool} {ind : Int}
    {st st1 : St σ} {s : structType} {os : List (Option String)}
    (h : FieldsRun gv imps pointer ind st s.fields os st1) :
    structFixtureWith gv s imps pointer ind st =
      (.ok ((if pointer then "&" else "") ++
        structText s.name ind.toNat (entriesOf s.fields os)), st1) := by
  have ht : (ind - 1).toNat = ind.toNat - 1 := by omega
  cases pointer <;>
    simp only [structFixtureWith, structLoop_of_run h, structText, getTabs_eq, ht,
      String.append_assoc, Bool.false_eq_true, if_false, if_true, String.empty_append]

end Runs

/-! ## Array literals -/

theorem getValueFixture_string {σ : Type} (W : World) (R : RandSource σ) (fuel : Nat)
    (imps : Imports) (pointer : Bool) (ind : Int) (st : St σ) :
    ∃ v st1, getValueFixture W R (fuel + 1) (.Ident "string" none) imps pointer ind st =
        (.ok v, st1) ∧
      ∃ t : List Char, v = "\"" ++ String.mk t ++ "\"" ∧ t.length ≤ 19 ∧
        ∀ c ∈ t, c ∈ letterRunes := by
  obtain ⟨t, st1, h1, h2, h3, _⟩ := getRandomString_ok R st
  exact ⟨_, st1, h1, t, rfl, h2, h3⟩

/-- C9: when the type name of an array type renders as `tn` and the element values `vs`,
as many as the draw asks for (1 to 3), synthesize successfully one after the other,
`getArrayFixture` returns `tn`, an opening brace, the values with `, ` between neighbours
and none after the last, and a closing brace. For `Box` with `Items []string` at
indentation 1, `GetStructFixture` returns the `Box` literal whose `Items` entry is
`[]string` with 1 to 3 double-quoted entries separated by `, `. -/
theorem getArrayFixture_text {σ : Type} (W : World) (R : RandSource σ) :
    (∀ (fuel : Nat) (Len : Option String) (Elt : Expr) (imps : Imports) (pointer : Bool)
        (ind : Int) (st st1 : St σ) (tn : String) (vs : List String),
      getTypeName (.ArrayType Len Elt) = .ok tn →
      SynthRun (getValueFixture W R fuel Elt imps pointer ind)
        ⟨(R.Uint32 st.rng).2, st.stdout⟩ vs st1 →
      vs.length = elemCount (R.Uint32 st.rng).1 →
      getArrayFixture W R fuel Len Elt imps pointer ind st =
          (.ok (tn ++ "\x7b" ++ joinSep ", " vs ++ "\x7d"), st1) ∧
        1 ≤ vs.length ∧ vs.length ≤ 3) ∧
    (∀ (fuel : Nat) (imps : Imports) (st : St σ), ∃ ws : List String,
      1 ≤ ws.length ∧ ws.length ≤ 3 ∧
      (∀ w ∈ ws, ∃ t : List Char, w = "\"" ++ String.mk t ++ "\"" ∧ t.length ≤ 19 ∧
        ∀ c ∈ t, c ∈ letterRunes) ∧
      (GetStructFixture W R (fuel + 2) boxStruct imps false 1 st).1 =
        .ok ("Box\x7b\n\tItems: []string\x7b" ++ joinSep ", " ws ++ "\x7d,\n\x7d")) := by
  constructor
  · intro fuel Len Elt imps pointer ind st st1 tn vs htn hrun hlen
    refine ⟨?_, hlen ▸ elemCount_pos _, hlen ▸ elemCount_le _⟩
    exact arrayFixtureWith_of_run R htn hrun hlen
  · intro fuel imps st
    obtain ⟨ws, st1, hrun, hlen, hall⟩ := synthRun_of_total
      (fun v => ∃ t : List Char, v = "\"" ++ String.mk t ++ "\"" ∧ t.length ≤ 19 ∧
        ∀ c ∈ t, c ∈ letterRunes)
      (getValueFixture_string W R fuel imps false (1 + 1))
      (elemCount (R.Uint32 st.rng).1) ⟨(R.Uint32 st.rng).2, st.stdout⟩
    refine ⟨ws, hlen ▸ elemCount_pos _, hlen ▸ elemCount_le _, hall, ?_⟩
    have htn : getTypeName (.ArrayType none (.Ident "string" none)) = .ok "[]string" := rfl
    have harr : getValueFixture W R (fuel + 2) (.ArrayType none (.Ident "string" none))
        imps false (1 + 1) st = (.ok (arrayText "[]string" ws), st1) :=
      arrayFixtureWith_of_run R htn hrun hlen
    have hf : FieldsRun (getValueFixture W R (fuel + 2)) imps false 1 st boxStruct.fields
        [some (arrayText "[]string" ws)] st1 := .ok harr (.nil _)
    rw [GetStructFixture, structFixtureWith_of_run hf]
    simp [structText, boxStruct, entriesOf, concatAll, arrayText, tabs, String.append_assoc]
    rfl

/-- The theorem `getArrayFixture_text` at `[]int` with the counter source started at 2:
the draw is 2, the two elements are the next counter values. -/
theorem getArrayFixture_text_witness :
    getArrayFixture emptyWorld (counterSource 1) 2 none (.Ident "int" none) [] false 1
        ⟨2, []⟩ = (.ok ("[]int" ++ "\x7b" ++ joinSep ", " ["3", "4"] ++ "\x7d"), ⟨5, []⟩) ∧
      1 ≤ ["3", "4"].length ∧ ["3", "4"].length ≤ 3 :=
  (getArrayFixture_text emptyWorld (counterSource 1)).1 2 none (.Ident "int" none) [] false 1
    ⟨2, []⟩ ⟨5, []⟩ "[]int" ["3", "4"] rfl (.cons rfl (.cons rfl (.nil _))) rfl

/-- C2, as stated, fails: the element type `pkg.T` synthesizes successfully from every
state, yet `getArrayFixture` on `[]pkg.T` returns the error of `getTypeName` and emits no
element, whatever the draw. -/
theorem getArrayFixture_qualified_element_fails :
    (∀ st : St Nat, ∃ v st1, getValueFixture pkgWorld (counterSource 1) 2 pkgT pkgImports
        false 1 st = (.ok v, st1)) ∧
    (getValueFixture pkgWorld (counterSource 1) 2 pkgT pkgImports false 1 ⟨5, []⟩).1 =
      .ok "T\x7b\n\tA: 5,\n\x7d" ∧
    (∀ st : St Nat, (getArrayFixture pkgWorld (counterSource 1) 2 none pkgT pkgImports false 1
        st).1 = .err "Can not generate type name") :=
  ⟨fun _ => ⟨_, _, rfl⟩, by decide, fun _ => rfl⟩

/-- C2, amended: for an array type whose type name renders as `tn` and whose element type
synthesizes successfully from every state, `getArrayFixture` returns the array literal of
exactly `n` successively synthesized elements, where for the drawn 32-bit number `u`
`n = 1` if `u ≤ 1`, `n = 2` if `u = 2` and `n = 3` if `u ≥ 3`; so `1 ≤ n ≤ 3`. -/
theorem getArrayFixture_count {σ : Type} (W : World) (R : RandSource σ) (fuel : Nat)
    (Len : Option String) (Elt : Expr) (imps : Imports) (pointer : Bool) (ind : Int)
    (st : St σ) (tn : String)
    (htn : getTypeName (.ArrayType Len Elt) = .ok tn)
    (helt : ∀ st0, ∃ v st1, getValueFixture W R fuel Elt imps pointer ind st0 = (.ok v, st1)) :
    ∃ vs st1,
      getArrayFixture W R fuel Len Elt imps pointer ind st =
        (.ok (tn ++ "\x7b" ++ joinSep ", " vs ++ "\x7d"), st1) ∧
      SynthRun (getValueFixture W R fuel Elt imps pointer ind)
        ⟨(R.Uint32 st.rng).2, st.stdout⟩ vs st1 ∧
      ((R.Uint32 st.rng).1 ≤ 1 → vs.length = 1) ∧
      ((R.Uint32 st.rng).1 = 2 → vs.length = 2) ∧
      (3 ≤ (R.Uint32 st.rng).1 → vs.length = 3) ∧
      1 ≤ vs.length ∧ vs.length ≤ 3 := by
  obtain ⟨vs, st1, hrun, hlen, _⟩ := synthRun_of_total (fun _ => True)
    (fun st0 => (helt st0).imp fun v h => h.imp fun st1 h1 => ⟨h1, trivial⟩)
    (elemCount (R.Uint32 st.rng).1) ⟨(R.Uint32 st.rng).2, st.stdout⟩
  refine ⟨vs, st1, arrayFixtureWith_of_run R htn hrun hlen, hrun, ?_, ?_, ?_,
    hlen ▸ elemCount_pos _, hlen ▸ elemCount_le _⟩
  · intro h; rw [hlen, elemCount, if_pos h]
  · intro h; rw [hlen, h]; rfl
  · intro h
    rw [hlen, elemCount, if_neg (by omega), if_neg (by omega)]

/-- The theorem `getArrayFixture_count` at `[]int` in the empty world with the counter
source, started where the draw is 7. -/
theorem getArrayFixture_count_witness :
    ∃ vs st1,
      getArrayFixture emptyWorld (counterSource 1) 1 none (.Ident "int" none) [] false 1
        ⟨7, []⟩ = (.ok ("[]int" ++ "\x7b" ++ joinSep ", " vs ++ "\x7d"), st1) ∧
      SynthRun (getValueFixture emptyWorld (counterSource 1) 1 (.Ident "int" none) [] false 1)
        ⟨((counterSource 1).Uint32 7).2, []⟩ vs st1 ∧
      (((counterSource 1).Uint32 7).1 ≤ 1 → vs.length = 1) ∧
      (((counterSource 1).Uint32 7).1 = 2 → vs.length = 2) ∧
      (3 ≤ ((counterSource 1).Uint32 7).1 → vs.length = 3) ∧
      1 ≤ vs.length ∧ vs.length ≤ 3 :=
  getArrayFixture_count emptyWorld (counterSource 1) 1 none (.Ident "int" none) [] false 1
    ⟨7, []⟩ "[]int" rfl (fun _ => ⟨_, _, rfl⟩)

/-! ## Map literals -/

/-- C3, as stated, fails: key type `string` and value type `pkg.T` both synthesize
successfully from every state, yet `getMapFixture` on `map[string]pkg.T` returns the error
of `getTypeName` and emits no pair, whatever the draw. -/
theorem getMapFixture_qualified_value_fails :
    (∀ st : St Nat, ∃ v st1, getValueFixture pkgWorld (counterSource 1) 2
        (.Ident "string" none) pkgImports false 2 st = (.ok v, st1)) ∧
    (∀ st : St Nat, ∃ v st1, getValueFixture pkgWorld (counterSource 1) 2 pkgT pkgImports
        false 2 st = (.ok v, st1)) ∧
    (∀ st : St Nat, (getMapFixture pkgWorld (counterSource 1) 2 (.Ident "string" none) pkgT
        pkgImports false 1 st).1 = .err "Can not generate type name") :=
  ⟨fun st => (getValueFixture_string pkgWorld (counterSource 1) 1 pkgImports false 2 st).imp
      fun _ h => h.imp fun _ h1 => h1.1,
    fun _ => ⟨_, _, rfl⟩, fun _ => rfl⟩

/-- C3, amended: for a map type whose type name renders as `tn` and whose key and value
types synthesize successfully from every state, `getMapFixture` returns the map literal of
the successively synthesized `key: value` pairs, and the number of pairs emitted is between
1 and 3 inclusive, for every value of the draw. -/
theorem getMapFixture_count {σ : Type} (W : World) (R : RandSource σ) (fuel : Nat)
    (Key Value : Expr) (imps : Imports) (pointer : Bool) (ind : Int) (st : St σ) (tn : String)
    (htn : getTypeName (.MapType Key Value) = .ok tn)
    (hkey : ∀ st0, ∃ k st1,
      getValueFixture W R fuel Key imps pointer (ind + 1) st0 = (.ok k, st1))
    (hval : ∀ st0, ∃ v st1,
      getValueFixture W R fuel Value imps pointer (ind + 1) st0 = (.ok v, st1)) :
    ∃ ps st1,
      getMapFixture W R fuel Key Value imps pointer ind st =
        (.ok (mapText tn ind.toNat ps), st1) ∧
      PairRun (getValueFixture W R fuel Key imps pointer (ind + 1))
        (getValueFixture W R fuel Value imps pointer (ind + 1))
        ⟨(R.Uint32 st.rng).2, st.stdout⟩ ps st1 ∧
      1 ≤ ps.length ∧ ps.length ≤ 3 := by
  obtain ⟨ps, st1, hrun, hlen⟩ := pairRun_of_total hkey hval
    (elemCount (R.Uint32 st.rng).1) ⟨(R.Uint32 st.rng).2, st.stdout⟩
  exact ⟨ps, st1, mapFixtureWith_of_run R htn hrun hlen, hrun,
    hlen ▸ elemCount_pos _, hlen ▸ elemCount_le _⟩

/-- The theorem `getMapFixture_count` at `map[int]bool` in the empty world with the counter
source. -/
theorem getMapFixture_count_witness :
    ∃ ps st1,
      getMapFixture emptyWorld (counterSource 1) 1 (.Ident "int" none) (.Ident "bool" none)
        [] false 1 ⟨7, []⟩ = (.ok (mapText "map[int]bool" (1 : Int).toNat ps), st1) ∧
      PairRun (getValueFixture emptyWorld (counterSource 1) 1 (.Ident "int" none) [] false
          (1 + 1))
        (getValueFixture emptyWorld (counterSource 1) 1 (.Ident "bool" none) [] false (1 + 1))
        ⟨((counterSource 1).Uint32 7).2, []⟩ ps st1 ∧
      1 ≤ ps.length ∧ ps.length ≤ 3 :=
  getMapFixture_count emptyWorld (counterSource 1) 1 (.Ident "int" none) (.Ident "bool" none)
    [] false 1 ⟨7, []⟩ "map[int]bool" rfl (fun _ => ⟨_, _, rfl⟩) (fun _ => ⟨_, _, rfl⟩)

/-! ## Struct literals -/

section StructFacts
variable {σ : Type} (W : World) (R : RandSource σ)

theorem getValueFixture_fallsThrough (fuel : Nat) (e : Expr) (imps : Imports) (pointer : Bool)
    (ind : Int) (st : St σ) (h : fallsThrough e = true) :
    getValueFixture W R (fuel + 1) e imps pointer ind st =
      (.err "Can not generate field data", st) := by
  cases e <;> first | rfl | exact absurd h (by simp [fallsThrough])

theorem getValueFixture_fallsThrough_not_ok (fuel : Nat) (e : Expr) (imps : Imports)
    (pointer : Bool) (ind : Int) (st st1 : St σ) (v : String) (h : fallsThrough e = true) :
    getValueFixture W R fuel e imps pointer ind st ≠ (.ok v, st1) := by
  cases fuel with
  | zero => intro hc; simp [getValueFixture] at hc
  | succ k => rw [getValueFixture_fallsThrough W R k e imps pointer ind st h]; simp

theorem fieldsRun_length {gv : Synth σ} {imps : Imports} {pointer : Bool} {ind : Int}
    {st st1 : St σ} {fs : List structField} {os : List (Option String)}
    (h : FieldsRun gv imps pointer ind st fs os st1) :
    os.length = fs.length ∧ (entriesOf fs os).length + os.count none = fs.length ∧
      ((entriesOf fs os).map Prod.fst).Sublist (fs.map (fun f => f.name)) := by
  induction h with
  | nil st => simp [entriesOf]
  | ok _ _ ih =>
    obtain ⟨h1, h2, h3⟩ := ih
    refine ⟨by simp [h1], ?_, ?_⟩
    · simp only [entriesOf, List.length_cons]
      rw [List.count_cons_of_ne (by simp)]
      omega
    · simpa [entriesOf] using h3
  | skip _ _ ih =>
    obtain ⟨h1, h2, h3⟩ := ih
    refine ⟨by simp [h1], ?_, ?_⟩
    · simp only [entriesOf, List.count_cons_self, List.length_cons]
      omega
    · simpa [entriesOf] using h3.cons _

theorem fieldsRun_fallsThrough {fuel : Nat} {imps : Imports} {pointer : Bool} {ind : Int}
    {st st1 : St σ} {fs : List structField} {os : List (Option String)}
    (h : FieldsRun (getValueFixture W R fuel) imps pointer ind st fs os st1) :
    ∀ (i : Nat) (f : structField), fs[i]? = some f → fallsThrough f.goType = true →
      os[i]? = some none := by
  induction h with
  | nil st => intro i f hf; simp at hf
  | ok hg _ ih =>
    intro i f hf hft
    cases i with
    | zero =>
      simp at hf
      subst hf
      exact absurd hg (getValueFixture_fallsThrough_not_ok W R _ _ _ _ _ _ _ _ hft)
    | succ j => simpa using ih j f (by simpa using hf) hft
  | skip _ _ ih =>
    intro i f hf hft
    cases i with
    | zero => simp
    | succ j => simpa using ih j f (by simpa using hf) hft

theorem getValueFixture_int (fuel : Nat) (imps : Imports) (pointer : Bool) (ind : Int)
    (st : St σ) :
    getValueFixture W R (fuel + 1) (.Ident "int" none) imps pointer ind st =
      (.ok (toString (R.Intn maxInt st.rng).1), ⟨(R.Intn maxInt st.rng).2, st.stdout⟩) := rfl

end StructFacts

/-- C5, as stated, fails: `Job` has the unsupported field `Run func()`, yet
`GetStructFixture` returns no literal for it, because synthesizing `Next *Job` calls
`GetStructFixture` on `Job` again without end: no recursion budget suffices. -/
theorem GetStructFixture_job_never_returns :
    (∀ (fuel : Nat) (st : St Nat),
      getValueFixture selfWorld (counterSource 1) (fuel + 1) .FuncType [] false 2 st =
        (.err "Can not generate field data", st)) ∧
    (∀ (fuel : Nat) (st : St Nat),
      (GetStructFixture selfWorld (counterSource 1) fuel jobStruct [] false 1 st).1 =
        .diverge) := by
  refine ⟨fun _ _ => rfl, ?_⟩
  have key : ∀ (fuel : Nat) (imps : Imports) (p : Bool) (ind : Int) (st : St Nat),
      (∃ st1, getValueFixture selfWorld (counterSource 1) fuel starJob imps p ind st =
        (.diverge, st1)) ∧
      (∃ st1, getValueFixture selfWorld (counterSource 1) fuel (.Ident "Job" (some 1)) imps p
        ind st = (.diverge, st1)) ∧
      (∃ st1, structFixtureWith (getValueFixture selfWorld (counterSource 1) fuel) jobStruct
        imps p ind st = (.diverge, st1)) := by
    intro fuel
    induction fuel with
    | zero => intro imps p ind st; exact ⟨⟨_, rfl⟩, ⟨_, rfl⟩, ⟨_, rfl⟩⟩
    | succ k ih =>
      intro imps p ind st
      refine ⟨(ih imps true ind st).2.1, (ih imps p ind st).2.2, ?_⟩
      obtain ⟨st1, h1⟩ := (ih imps true (ind + 1)
        ⟨st.rng, st.stdout ++ ["Can not generate field data"]⟩).2.1
      refine ⟨st1, ?_⟩
      have h2 : getValueFixture selfWorld (counterSource 1) (k + 1) starJob imps p (ind + 1)
          ⟨st.rng, st.stdout ++ ["Can not generate field data"]⟩ = (.diverge, st1) := h1
      simp only [structFixtureWith, jobStruct, structLoop,
        getValueFixture_fallsThrough selfWorld (counterSource 1) k .FuncType imps p (ind + 1)
          st rfl, h2]
  intro fuel st
  obtain ⟨st1, h⟩ := (key fuel [] false 1 st).2.2
  rw [GetStructFixture, h]

/-- C5, amended: when every field synthesis of a record returns, a value or an error,
`GetStructFixture` returns a literal; the literal has, in declaration order, exactly the
entries of the fields whose synthesis returned a value, so `N` fields of which `K` return
an error give `N - K` entries; and a field whose type expression has no case in the type
switch (a function, channel or interface type) returns the error
`Can not generate field data` and has no entry. -/
theorem GetStructFixture_skips_failed_fields {σ : Type} (W : World) (R : RandSource σ)
    (fuel : Nat) (s : structType) (imps : Imports) (pointer : Bool) (ind : Int)
    (st st1 : St σ) (os : List (Option String))
    (hrun : FieldsRun (getValueFixture W R fuel) imps pointer ind st s.fields os st1) :
    GetStructFixture W R fuel s imps pointer ind st =
      (.ok ((if pointer then "&" else "") ++
        structText s.name ind.toNat (entriesOf s.fields os)), st1) ∧
    os.length = s.fields.length ∧
    (entriesOf s.fields os).length + os.count none = s.fields.length ∧
    ((entriesOf s.fields os).map Prod.fst).Sublist (s.fields.map (fun f => f.name)) ∧
    (∀ (i : Nat) (f : structField), s.fields[i]? = some f →
      fallsThrough f.goType = true → os[i]? = some none) ∧
    (∀ (k : Nat) (e : Expr) (imps0 : Imports) (p0 : Bool) (ind0 : Int) (st0 : St σ),
      fallsThrough e = true →
      getValueFixture W R (k + 1) e imps0 p0 ind0 st0 =
        (.err "Can not generate field data", st0)) ∧
    fallsThrough .FuncType = true ∧ fallsThrough .InterfaceType = true ∧
    (∀ x, fallsThrough (.ChanType x) = true) :=
  ⟨structFixtureWith_of_run hrun, (fieldsRun_length hrun).1, (fieldsRun_length hrun).2.1,
    (fieldsRun_length hrun).2.2, fieldsRun_fallsThrough W R hrun,
    fun k e imps0 p0 ind0 st0 h => getValueFixture_fallsThrough W R k e imps0 p0 ind0 st0 h,
    rfl, rfl, fun _ => rfl⟩

/-- The theorem `GetStructFixture_skips_failed_fields` at the record with the fields
`F func()` and `X int`: the first is skipped and its error printed, the second emitted. -/
theorem GetStructFixture_skips_failed_fields_witness :
    GetStructFixture emptyWorld (counterSource 1) 1
        ⟨"P", [⟨"F", .FuncType⟩, ⟨"X", .Ident "int" none⟩]⟩ [] false 1 ⟨4, []⟩ =
      (.ok ("" ++ structText "P" 1 [("X", "4")]), ⟨5, ["Can not generate field data"]⟩) :=
  (GetStructFixture_skips_failed_fields emptyWorld (counterSource 1) 1
    ⟨"P", [⟨"F", .FuncType⟩, ⟨"X", .Ident "int" none⟩]⟩ [] false 1 ⟨4, []⟩
    ⟨5, ["Can not generate field data"]⟩ [none, some "4"]
    (.skip rfl (.ok rfl (.nil _)))).1

/-- C8, as stated, fails: for `Node` with the field `Next *Node`, `GetStructFixture` at
indentation 1 returns no text at all, because synthesizing `Next` calls `GetStructFixture`
on `Node` again without end: no recursion budget suffices. -/
theorem GetStructFixture_node_never_returns :
    ¬ ∃ (fuel : Nat) (st : St Nat) (text : String),
      (GetStructFixture selfWorld (counterSource 1) fuel nodeStruct [] false 1 st).1 =
        .ok text := by
  have key : ∀ (fuel : Nat) (imps : Imports) (p : Bool) (ind : Int) (st : St Nat),
      (∃ st1, getValueFixture selfWorld (counterSource 1) fuel (.Ident "Node" (some 0)) imps p
        ind st = (.diverge, st1)) ∧
      (∃ st1, structFixtureWith (getValueFixture selfWorld (counterSource 1) fuel) nodeStruct
        imps p ind st = (.diverge, st1)) := by
    intro fuel
    induction fuel with
    | zero => intro imps p ind st; exact ⟨⟨_, rfl⟩, ⟨_, rfl⟩⟩
    | succ k ih =>
      intro imps p ind st
      refine ⟨(ih imps p ind st).2, ?_⟩
      obtain ⟨st1, h1⟩ := (ih imps true (ind + 1) st).1
      have h2 : getValueFixture selfWorld (counterSource 1) (k + 1) starNode imps p (ind + 1)
          st = (.diverge, st1) := h1
      exact ⟨st1, by simp only [structFixtureWith, nodeStruct, structLoop, h2]⟩
  rintro ⟨fuel, st, text, hok⟩
  obtain ⟨st1, h⟩ := (key fuel [] false 1 st).2
  rw [GetStructFixture, h] at hok
  exact absurd hok (by simp)

/-- C8, amended: for every struct model `s` whose field syntheses all return, a value or
an error, every indentation `n ≥ 1` and every random source, `GetStructFixture` with
`pointer = false` returns the name, an opening brace and a newline, then for each field
whose synthesis returned a value, in order, `n` tabs, the field name, `: `, the value, a
comma and a newline, then `n - 1` tabs and a closing brace. For `Point` with `X int` and
`Y int` at indentation 1 the text is `Point`, brace, newline, tab `X: a,` newline, tab
`Y: b,` newline, brace, with `a` and `b` decimal integers in `[0, 1000000)`. -/
theorem GetStructFixture_text {σ : Type} (W : World) (R : RandSource σ) :
    (∀ (fuel : Nat) (s : structType) (imps : Imports) (n : Nat) (st st1 : St σ)
        (os : List (Option String)), 1 ≤ n →
      FieldsRun (getValueFixture W R fuel) imps false (n : Int) st s.fields os st1 →
      GetStructFixture W R fuel s imps false (n : Int) st =
        (.ok (s.name ++ "\x7b\n" ++
          concatAll ((entriesOf s.fields os).map
            (fun e => tabs n ++ e.1 ++ ": " ++ e.2 ++ ",\n")) ++
          tabs (n - 1) ++ "\x7d"), st1)) ∧
    (∀ (fuel : Nat) (imps : Imports) (st : St σ), ∃ a b : Nat, a < 1000000 ∧ b < 1000000 ∧
      (GetStructFixture W R (fuel + 1) pointStruct imps false 1 st).1 =
        .ok ("Point\x7b\n\tX: " ++ toString a ++ ",\n\tY: " ++ toString b ++ ",\n\x7d")) := by
  constructor
  · intro fuel s imps n st st1 os _ hrun
    rw [GetStructFixture, structFixtureWith_of_run hrun]
    simp [structText]
  · intro fuel imps st
    refine ⟨(R.Intn maxInt st.rng).1,
      (R.Intn maxInt (R.Intn maxInt st.rng).2).1,
      R.Intn_lt _ _ (by decide), R.Intn_lt _ _ (by decide), ?_⟩
    have hf : FieldsRun (getValueFixture W R (fuel + 1)) imps false 1 st pointStruct.fields
        [some (toString (R.Intn maxInt st.rng).1),
          some (toString (R.Intn maxInt (R.Intn maxInt st.rng).2).1)]
        ⟨(R.Intn maxInt (R.Intn maxInt st.rng).2).2, st.stdout⟩ :=
      .ok (getValueFixture_int W R fuel imps false (1 + 1) st)
        (.ok (getValueFixture_int W R fuel imps false (1 + 1) _) (.nil _))
    rw [GetStructFixture, structFixtureWith_of_run hf]
    simp [structText, pointStruct, entriesOf, concatAll, tabs, String.append_assoc]
    rfl

/-- The theorem `GetStructFixture_text` at `Point` with the counter source started at 10,
indentation 2. -/
theorem GetStructFixture_text_witness :
    GetStructFixture emptyWorld (counterSource 1) 1 pointStruct [] false ((2 : Nat) : Int)
        ⟨10, []⟩ =
      (.ok (pointStruct.name ++ "\x7b\n" ++
        concatAll ((entriesOf pointStruct.fields [some "10", some "11"]).map
          (fun e => tabs 2 ++ e.1 ++ ": " ++ e.2 ++ ",\n")) ++
        tabs (2 - 1) ++ "\x7d"), ⟨12, []⟩) :=
  (GetStructFixture_text emptyWorld (counterSource 1)).1 1 pointStruct [] 2 ⟨10, []⟩ ⟨12, []⟩
    [some "10", some "11"] (by decide) (.ok rfl (.ok rfl (.nil _)))

/-! ## Declarations with several names, grouped and empty declarations -/

/-- C1, the code at `type P struct { X, Y int }`: `typeSpecToStructType` keeps the first
name of the field declaration only, and the literal has an entry for `X` and none for
`Y`. -/
theorem typeSpecToStructType_keeps_first_name_only :
    ∃ s, typeSpecToStructType xySpec = .ok s ∧ s.fields.map (fun f => f.name) = ["X"] ∧
      (GetStructFixture emptyWorld (counterSource 1) 1 s [] false 1 ⟨5, []⟩).1 =
        .ok "P\x7b\n\tX: 5,\n\x7d" :=
  ⟨_, rfl, rfl, by decide⟩

/-- C6, the code at a module holding `type ()`: no struct is declared, yet `GetStruct`
does not return the not-found error; indexing `genDecl.Specs[0]` panics, and `main`
ends in that panic with nothing printed. -/
theorem GetStruct_panics_on_empty_type_group :
    GetStruct emptyGroupWorld "." "X" = .panic "index out of range [0] with length 0" ∧
    (main emptyGroupWorld (counterSource 1) 1 "X" ⟨0, []⟩).1 =
      .panic "index out of range [0] with length 0" ∧
    (main emptyGroupWorld (counterSource 1) 1 "X" ⟨0, []⟩).2.stdout = [] :=
  ⟨rfl, rfl, rfl⟩

/-- C7, the code at a module holding `type ( A struct{}; B struct { X int } )`: asked for
`B`, the second specification of the group, `GetStruct` returns the not-found error; it
inspects `genDecl.Specs[0]` only, and finds `A`. -/
theorem GetStruct_misses_later_spec_of_group :
    GetStruct groupWorld "." "B" = .err "Struct B does not exist" ∧
    (∃ s, GetStruct groupWorld "." "A" = .ok s ∧ s.name = "A") :=
  ⟨rfl, _, rfl, rfl⟩

/-! ## typeSpecToStructType -/

theorem fieldsLoop_named : ∀ (fs : List Field) (acc : List structField),
    (∀ f ∈ fs, f.Names ≠ []) →
    fieldsLoop fs acc = .ok (acc ++ fs.map (fun f => ⟨f.Names.headD "", f.Typ⟩))
  | [], acc, _ => by simp [fieldsLoop]
  | f :: fs, acc, h => by
    have hf : f.Names ≠ [] := h f (by simp)
    obtain ⟨n0, ns, hn⟩ := List.exists_cons_of_ne_nil hf
    have ih := fieldsLoop_named fs (acc ++ [⟨n0, f.Typ⟩]) (fun g hg => h g (by simp [hg]))
    simp only [fieldsLoop, hn, ih, List.map_cons, List.headD_cons, List.append_assoc,
      List.singleton_append]

theorem fieldsLoop_unnamed : ∀ (fs : List Field) (acc : List structField),
    (∃ f ∈ fs, f.Names = []) →
    fieldsLoop fs acc = .panic "index out of range [0] with length 0"
  | [], _, h => by simp at h
  | f :: fs, acc, h => by
    cases hn : f.Names with
    | nil => simp only [fieldsLoop, hn]
    | cons n0 ns =>
      have h2 : ∃ g ∈ fs, g.Names = [] := by
        obtain ⟨g, hg, hg2⟩ := h
        rcases List.mem_cons.1 hg with rfl | hg
        · rw [hn] at hg2; exact absurd hg2 (by simp)
        · exact ⟨g, hg, hg2⟩
      simp only [fieldsLoop, hn, fieldsLoop_unnamed fs _ h2]

/-- C19: for a type specification whose type is a struct type in which every field
declaration carries at least one name, `typeSpecToStructType` returns the struct model
with the specification's name and one `structField` per field declaration, in order, with
the declaration's first name and its type expression; for a specification whose type is
not a struct type it returns the error `TypeSpec is not a struct`; and a field declaration
without a name makes the index `Names[0]` panic. -/
theorem typeSpecToStructType_spec (spec : TypeSpec) :
    (∀ fs : List Field, spec.Typ = .StructType fs → (∀ f ∈ fs, f.Names ≠ []) →
      typeSpecToStructType spec =
        .ok ⟨spec.Name, fs.map (fun f => ⟨f.Names.headD "", f.Typ⟩)⟩) ∧
    ((∀ fs : List Field, spec.Typ ≠ .StructType fs) →
      typeSpecToStructType spec = .err "TypeSpec is not a struct") ∧
    (∀ fs : List Field, spec.Typ = .StructType fs → (∃ f ∈ fs, f.Names = []) →
      typeSpecToStructType spec = .panic "index out of range [0] with length 0") := by
  refine ⟨?_, ?_, ?_⟩
  · intro fs hfs hall
    simp only [typeSpecToStructType, hfs, fieldsLoop_named fs [] hall, List.nil_append]
  · intro h
    unfold typeSpecToStructType
    split
    · rename_i fl heq; exact absurd heq (h fl)
    · rfl
  · intro fs hfs hex
    simp only [typeSpecToStructType, hfs, fieldsLoop_unnamed fs [] hex]


/-- The theorem `typeSpecToStructType_spec` at `type P struct { X, Y int }`: one field,
with the first name `X`. -/
theorem typeSpecToStructType_spec_witness :
    typeSpecToStructType xySpec =
      .ok ⟨xySpec.Name, [(⟨["X", "Y"], .Ident "int" none⟩ : Field)].map
        (fun f => ⟨f.Names.headD "", f.Typ⟩)⟩ :=
  (typeSpecToStructType_spec xySpec).1 _ rfl (by
    intro f hf
    rw [List.mem_singleton] at hf
    subst hf
    simp)

/-! ## getTypeName -/

theorem getTypeName_cases : ∀ e : Expr,
    (nameable e = true ∧ ∃ s, getTypeName e = .ok s) ∨
    (nameable e = false ∧ getTypeName e = .err "Can not generate type name")
  | .Ident n _ => .inl ⟨rfl, n, rfl⟩
  | .ArrayType _ Elt => by
    rcases getTypeName_cases Elt with ⟨h1, s, h2⟩ | ⟨h1, h2⟩
    · exact .inl ⟨by simpa [nameable] using h1, "[]" ++ s, by simp only [getTypeName, h2]⟩
    · exact .inr ⟨by simpa [nameable] using h1, by simp only [getTypeName, h2]⟩
  | .MapType Key Value => by
    rcases getTypeName_cases Key with ⟨h1, s, h2⟩ | ⟨h1, h2⟩
    · rcases getTypeName_cases Value with ⟨h3, t, h4⟩ | ⟨h3, h4⟩
      · exact .inl ⟨by simp [nameable, h1, h3], "map[" ++ s ++ "]" ++ t,
          by simp only [getTypeName, h2, h4]⟩
      · exact .inr ⟨by simp [nameable, h3], by simp only [getTypeName, h2, h4]⟩
    · exact .inr ⟨by simp [nameable, h1], by simp only [getTypeName, h2]⟩
  | .StarExpr X => by
    rcases getTypeName_cases X with ⟨h1, s, h2⟩ | ⟨h1, h2⟩
    · exact .inl ⟨by simpa [nameable] using h1, "*" ++ s, by simp only [getTypeName, h2]⟩
    · exact .inr ⟨by simpa [nameable] using h1, by simp only [getTypeName, h2]⟩
  | .SelectorExpr _ _ => .inr ⟨rfl, rfl⟩
  | .StructType _ => .inr ⟨rfl, rfl⟩
  | .FuncType => .inr ⟨rfl, rfl⟩
  | .ChanType _ => .inr ⟨rfl, rfl⟩
  | .InterfaceType => .inr ⟨rfl, rfl⟩
  | .ParenExpr _ => .inr ⟨rfl, rfl⟩

theorem not_nameable_of_mentions {e : Expr} (h : MentionsQualified e) : nameable e = false := by
  induction h with
  | here => rfl
  | array _ _ ih => simpa [nameable] using ih
  | mapKey _ _ ih => simp [nameable, ih]
  | mapValue _ _ ih => simp [nameable, ih]
  | star _ ih => simpa [nameable] using ih
  | chan _ _ => rfl
  | paren _ _ => rfl
  | field _ _ _ => rfl

/-- C17: `getTypeName` succeeds exactly on the type expressions built solely from
identifiers, arrays, maps and pointers, returning the identifier's name, `[]` and the
element's name, `map[` key `]` value, or `*` and the target's name; on every other
expression it returns the error `Can not generate type name`. Hence for an array or map
type in which a package-qualified type occurs anywhere, `getArrayFixture` and
`getMapFixture` return that error after the draw of the count alone: the state is the one
left by the draw and no element, key or value is synthesized. -/
theorem getTypeName_succeeds_iff {σ : Type} (W : World) (R : RandSource σ) :
    (∀ e : Expr, (∃ s, getTypeName e = .ok s) ↔ nameable e = true) ∧
    (∀ e : Expr, nameable e = false → getTypeName e = .err "Can not generate type name") ∧
    (∀ (n : String) (o : Option Nat), getTypeName (.Ident n o) = .ok n) ∧
    (∀ (l : Option String) (e : Expr) (s : String), getTypeName e = .ok s →
      getTypeName (.ArrayType l e) = .ok ("[]" ++ s)) ∧
    (∀ (k v : Expr) (s t : String), getTypeName k = .ok s → getTypeName v = .ok t →
      getTypeName (.MapType k v) = .ok ("map[" ++ s ++ "]" ++ t)) ∧
    (∀ (x : Expr) (s : String), getTypeName x = .ok s →
      getTypeName (.StarExpr x) = .ok ("*" ++ s)) ∧
    (∀ (fuel : Nat) (Len : Option String) (Elt : Expr) (imps : Imports) (pointer : Bool)
        (ind : Int) (st : St σ), MentionsQualified (.ArrayType Len Elt) →
      getArrayFixture W R fuel Len Elt imps pointer ind st =
        (.err "Can not generate type name", ⟨(R.Uint32 st.rng).2, st.stdout⟩)) ∧
    (∀ (fuel : Nat) (Key Value : Expr) (imps : Imports) (pointer : Bool)
        (ind : Int) (st : St σ), MentionsQualified (.MapType Key Value) →
      getMapFixture W R fuel Key Value imps pointer ind st =
        (.err "Can not generate type name", ⟨(R.Uint32 st.rng).2, st.stdout⟩)) ∧
    MentionsQualified (.ArrayType none pkgT) ∧
    MentionsQualified (.MapType (.Ident "string" none) (.StarExpr pkgT)) := by
  refine ⟨?_, ?_, fun _ _ => rfl, ?_, ?_, ?_, ?_, ?_, .array _ (.here _ _),
    .mapValue _ (.star (.here _ _))⟩
  · intro e
    rcases getTypeName_cases e with ⟨h1, h2⟩ | ⟨h1, h2⟩
    · exact ⟨fun _ => h1, fun _ => h2⟩
    · constructor
      · rintro ⟨s, hs⟩; rw [h2] at hs; exact absurd hs (by simp)
      · intro h; rw [h1] at h; exact absurd h (by simp)
  · intro e h
    rcases getTypeName_cases e with ⟨h1, _⟩ | ⟨_, h2⟩
    · rw [h] at h1; exact absurd h1 (by simp)
    · exact h2
  · intro l e s h; simp only [getTypeName, h]
  · intro k v s t h1 h2; simp only [getTypeName, h1, h2]
  · intro x s h; simp only [getTypeName, h]
  · intro fuel Len Elt imps pointer ind st h
    have := (getTypeName_cases (.ArrayType Len Elt)).resolve_left
      (by rw [not_nameable_of_mentions h]; simp)
    simp only [getArrayFixture, arrayFixtureWith, this.2]
  · intro fuel Key Value imps pointer ind st h
    have := (getTypeName_cases (.MapType Key Value)).resolve_left
      (by rw [not_nameable_of_mentions h]; simp)
    simp only [getMapFixture, mapFixtureWith, this.2]

/-- The theorem `getTypeName_succeeds_iff` at `[]pkg.T`: `getArrayFixture` returns the
error of `getTypeName` in the state left by the draw. -/
theorem getTypeName_succeeds_iff_witness :
    getArrayFixture pkgWorld (counterSource 1) 2 none pkgT pkgImports false 1 ⟨5, []⟩ =
      (.err "Can not generate type name", ⟨((counterSource 1).Uint32 5).2, []⟩) :=
  (getTypeName_succeeds_iff pkgWorld (counterSource 1)).2.2.2.2.2.2.1 2 none pkgT pkgImports
    false 1 ⟨5, []⟩ (.array _ (.here _ _))

/-! ## Signed integers -/

theorem toSigned_8 (r : Nat) :
    -128 ≤ toSigned 8 r ∧ toSigned 8 r ≤ 127 ∧ (toSigned 8 r - (r : Int)) % 256 = 0 := by
  have h1 : r % 256 < 256 := Nat.mod_lt _ (by norm_num)
  have h2 : (r : Int) = 256 * ((r / 256 : Nat) : Int) + ((r % 256 : Nat) : Int) := by
    exact_mod_cast (Nat.div_add_mod r 256).symm
  simp only [toSigned]
  norm_num
  split_ifs <;> refine ⟨by omega, by omega, ?_⟩ <;> omega

theorem toSigned_16 (r : Nat) :
    -32768 ≤ toSigned 16 r ∧ toSigned 16 r ≤ 32767 ∧
      (toSigned 16 r - (r : Int)) % 65536 = 0 := by
  have h1 : r % 65536 < 65536 := Nat.mod_lt _ (by norm_num)
  simp only [toSigned]
  norm_num
  split_ifs <;> refine ⟨by omega, by omega, ?_⟩ <;> omega

/-- C12: with `r` the draw in `[0, 1000000)`, `getRandomInt` prints `r`, `getRandomInt32`
and `getRandomInt64` print `int32(r)` and `int64(r)`, so the value is in `[0, 1000000)`;
`getRandomInt8` prints `int8(v)` with `v` in `[-128, 127]` congruent to `r` modulo `2^8`
and `getRandomInt16` prints `int16(v)` with `v` in `[-32768, 32767]` congruent to `r`
modulo `2^16`. Every printed value is within the bound of its kind and of magnitude below
1000000. -/
theorem signed_generators_in_bounds {σ : Type} (R : RandSource σ) (st : St σ) :
    (∃ r : Nat, r = (R.Intn maxInt st.rng).1 ∧ r < 1000000 ∧
      (getRandomInt R st).1 = toString r) ∧
    (∃ r : Nat, r = (R.Int31n maxInt st.rng).1 ∧ r < 1000000 ∧ r < 2 ^ 31 ∧
      (getRandomInt32 R st).1 = "int32(" ++ toString r ++ ")") ∧
    (∃ r : Nat, r = (R.Int63n maxInt st.rng).1 ∧ r < 1000000 ∧ r < 2 ^ 63 ∧
      (getRandomInt64 R st).1 = "int64(" ++ toString r ++ ")") ∧
    (∃ (r : Nat) (v : Int), r = (R.Intn maxInt st.rng).1 ∧ r < 1000000 ∧
      -128 ≤ v ∧ v ≤ 127 ∧ (v - (r : Int)) % 2 ^ 8 = 0 ∧ |v| < 1000000 ∧
      (getRandomInt8 R st).1 = "int8(" ++ toString v ++ ")") ∧
    (∃ (r : Nat) (v : Int), r = (R.Intn maxInt st.rng).1 ∧ r < 1000000 ∧
      -32768 ≤ v ∧ v ≤ 32767 ∧ (v - (r : Int)) % 2 ^ 16 = 0 ∧ |v| < 1000000 ∧
      (getRandomInt16 R st).1 = "int16(" ++ toString v ++ ")") := by
  have hn : (R.Intn maxInt st.rng).1 < 1000000 := R.Intn_lt _ _ (by decide)
  have h31 : (R.Int31n maxInt st.rng).1 < 1000000 := R.Int31n_lt _ _ (by decide)
  have h63 : (R.Int63n maxInt st.rng).1 < 1000000 := R.Int63n_lt _ _ (by decide)
  obtain ⟨a1, a2, a3⟩ := toSigned_8 (R.Intn maxInt st.rng).1
  obtain ⟨b1, b2, b3⟩ := toSigned_16 (R.Intn maxInt st.rng).1
  refine ⟨⟨_, rfl, hn, rfl⟩, ⟨_, rfl, h31, by omega, rfl⟩, ⟨_, rfl, h63, by omega, rfl⟩,
    ⟨_, _, rfl, hn, a1, a2, by simpa using a3, by rw [abs_lt]; omega, rfl⟩,
    ⟨_, _, rfl, hn, b1, b2, by simpa using b3, by rw [abs_lt]; omega, rfl⟩⟩

/-! ## Text of a map literal -/

/-- C14: for a map type whose name renders as `tn`, synthesized at indentation `i` with
the `n` pairs the draw asks for (1 to 3) synthesized successfully one after the other,
every key and value at indentation `i + 1`, `getMapFixture` returns `tn`, an opening brace
and a newline, then for every pair but the last `i` tabs, the key, `: `, the value, a comma
and a newline, then `i` tabs, the last key, `: `, the last value and the closing brace
directly after it. -/
theorem getMapFixture_text {σ : Type} (W : World) (R : RandSource σ) (fuel : Nat)
    (Key Value : Expr) (imps : Imports) (pointer : Bool) (i : Nat) (st st1 : St σ)
    (tn : String) (qs : List (String × String)) (kn vn : String)
    (htn : getTypeName (.MapType Key Value) = .ok tn)
    (hrun : PairRun (getValueFixture W R fuel Key imps pointer ((i : Int) + 1))
      (getValueFixture W R fuel Value imps pointer ((i : Int) + 1))
      ⟨(R.Uint32 st.rng).2, st.stdout⟩ (qs ++ [(kn, vn)]) st1)
    (hlen : (qs ++ [(kn, vn)]).length = elemCount (R.Uint32 st.rng).1) :
    getMapFixture W R fuel Key Value imps pointer (i : Int) st =
      (.ok (tn ++ "\x7b\n" ++
        concatAll (qs.map (fun q => tabs i ++ q.1 ++ ": " ++ q.2 ++ ",\n")) ++
        tabs i ++ kn ++ ": " ++ vn ++ "\x7d"), st1) ∧
    1 ≤ qs.length + 1 ∧ qs.length + 1 ≤ 3 := by
  have h := mapFixtureWith_of_run R htn hrun hlen
  have hl : qs.length + 1 = elemCount (R.Uint32 st.rng).1 := by simpa using hlen
  refine ⟨?_, hl ▸ elemCount_pos _, hl ▸ elemCount_le _⟩
  rw [getMapFixture, h, mapText, ← mapEntries_snoc]
  simp [String.append_assoc]

/-- The theorem `getMapFixture_text` at `map[int]bool`, indentation 1, with the counter
source started where the draw is 2: one line with a comma, then the last pair. -/
theorem getMapFixture_text_witness :
    getMapFixture emptyWorld (counterSource 1) 1 (.Ident "int" none) (.Ident "bool" none)
        [] false ((1 : Nat) : Int) ⟨2, []⟩ =
      (.ok ("map[int]bool" ++ "\x7b\n" ++
        concatAll ([("3", "true")].map (fun q => tabs 1 ++ q.1 ++ ": " ++ q.2 ++ ",\n")) ++
        tabs 1 ++ "5" ++ ": " ++ "false" ++ "\x7d"), ⟨7, []⟩) ∧
    1 ≤ [("3", "true")].length + 1 ∧ [("3", "true")].length + 1 ≤ 3 :=
  getMapFixture_text emptyWorld (counterSource 1) 1 (.Ident "int" none) (.Ident "bool" none)
    [] false 1 ⟨2, []⟩ ⟨7, []⟩ "map[int]bool" [("3", "true")] "5" "false" rfl
    (.cons rfl rfl (.cons rfl rfl (.nil _))) rfl

/-! ## Import table -/

theorem lookup_cons_eq (k a b : String) (es : Imports) (h : k = a) :
    List.lookup k ((a, b) :: es) = some b := by
  simp [List.lookup, h]

theorem lookup_cons_ne (k a b : String) (es : Imports) (h : k ≠ a) :
    List.lookup k ((a, b) :: es) = List.lookup k es := by
  have hk : (k == a) = false := by simpa using h
  simp [List.lookup, hk]

theorem lookup_replace_self (k v : String) : ∀ m : Imports,
    m.any (fun p => p.1 == k) = true →
    List.lookup k (m.map (fun p => if p.1 == k then (k, v) else p)) = some v
  | [], h => by simp at h
  | (a, b) :: m, h => by
    by_cases hp : a = k
    · subst hp
      simp only [List.map_cons, beq_self_eq_true, if_true]
      exact lookup_cons_eq _ _ _ _ rfl
    · have hb : (a == k) = false := by simpa using hp
      have h2 : m.any (fun p => p.1 == k) = true := by simpa [hb] using h
      simp only [List.map_cons, hb, Bool.false_eq_true, if_false]
      rw [lookup_cons_ne _ _ _ _ (fun h => hp h.symm)]
      exact lookup_replace_self k v m h2

theorem lookup_append_new (k v : String) : ∀ m : Imports,
    m.any (fun p => p.1 == k) = false → List.lookup k (m ++ [(k, v)]) = some v
  | [], _ => lookup_cons_eq _ _ _ _ rfl
  | (a, b) :: m, h => by
    have hp : a ≠ k := by
      intro hp; subst hp; simp at h
    have hb : (a == k) = false := by simpa using hp
    have h2 : m.any (fun p => p.1 == k) = false := by simpa [hb] using h
    rw [List.cons_append, lookup_cons_ne _ _ _ _ (fun h => hp h.symm)]
    exact lookup_append_new k v m h2

theorem lookup_replace_other (k v k1 : String) (hne : k1 ≠ k) : ∀ m : Imports,
    List.lookup k1 (m.map (fun p => if p.1 == k then (k, v) else p)) = List.lookup k1 m
  | [] => rfl
  | (a, b) :: m => by
    by_cases hp : a = k
    · have hb : (a == k) = true := by simpa using hp
      simp only [List.map_cons, hb, if_true]
      rw [lookup_cons_ne _ _ _ _ hne, lookup_cons_ne _ _ _ _ (hp ▸ hne)]
      exact lookup_replace_other k v k1 hne m
    · have hb : (a == k) = false := by simpa using hp
      simp only [List.map_cons, hb, Bool.false_eq_true, if_false]
      by_cases hq : k1 = a
      · rw [lookup_cons_eq _ _ _ _ hq, lookup_cons_eq _ _ _ _ hq]
      · rw [lookup_cons_ne _ _ _ _ hq, lookup_cons_ne _ _ _ _ hq]
        exact lookup_replace_other k v k1 hne m

theorem lookup_append_other (k v k1 : String) (hne : k1 ≠ k) : ∀ m : Imports,
    List.lookup k1 (m ++ [(k, v)]) = List.lookup k1 m
  | [] => by rw [List.nil_append, lookup_cons_ne _ _ _ _ hne]
  | (a, b) :: m => by
    rw [List.cons_append]
    by_cases hq : k1 = a
    · rw [lookup_cons_eq _ _ _ _ hq, lookup_cons_eq _ _ _ _ hq]
    · rw [lookup_cons_ne _ _ _ _ hq, lookup_cons_ne _ _ _ _ hq]
      exact lookup_append_other k v k1 hne m

theorem mapGet_mapSet_self (m : Imports) (k v : String) : mapGet (mapSet m k v) k = v := by
  unfold mapSet mapGet
  split_ifs with h
  · rw [lookup_replace_self k v m h]
  · rw [lookup_append_new k v m ((Bool.not_eq_true _).mp h)]

theorem mapGet_mapSet_other (m : Imports) (k v k1 : String) (hne : k1 ≠ k) :
    mapGet (mapSet m k v) k1 = mapGet m k1 := by
  unfold mapSet mapGet
  split_ifs with h
  · rw [lookup_replace_other k v k1 hne m]
  · rw [lookup_append_other k v k1 hne m]

theorem dropWhile_quotes_append (a Y : List Char) (ha : ∀ c ∈ a, c = '"') :
    (a ++ Y).dropWhile (fun c => c == '"') = Y.dropWhile (fun c => c == '"') := by
  induction a with
  | nil => rfl
  | cons x a ih =>
    have hx : x = '"' := ha x (by simp)
    subst hx
    simpa [List.dropWhile] using ih (fun c hc => ha c (by simp [hc]))

theorem dropWhile_quote_free (X : List Char) (h : '"' ∉ X) :
    X.dropWhile (fun c => c == '"') = X := by
  cases X with
  | nil => rfl
  | cons x X =>
    have hx : (x == '"') = false := by
      have : x ≠ '"' := fun hx => h (by simp [hx])
      simpa using this
    simp [List.dropWhile, hx]

theorem trim_core (a X b : List Char) (ha : ∀ c ∈ a, c = '"') (hb : ∀ c ∈ b, c = '"')
    (hX : '"' ∉ X) :
    (((a ++ (X ++ b)).dropWhile (fun c => c == '"')).reverse.dropWhile
      (fun c => c == '"')).reverse = X := by
  rw [dropWhile_quotes_append a _ ha]
  cases X with
  | nil =>
    have h0 : b.dropWhile (fun c => c == '"') = [] := by
      have := dropWhile_quotes_append b [] hb
      simpa using this
    simp [h0]
  | cons x X =>
    have hx : (x == '"') = false := by
      have : x ≠ '"' := fun hx => hX (by simp [hx])
      simpa using this
    have h1 : ((x :: X) ++ b).dropWhile (fun c => c == '"') = (x :: X) ++ b := by
      simp [List.dropWhile, hx]
    rw [h1, List.reverse_append,
      dropWhile_quotes_append b.reverse _ (fun c hc => hb c (List.mem_reverse.1 hc)),
      dropWhile_quote_free _ (fun h => hX (List.mem_reverse.1 h)), List.reverse_reverse]

theorem takeWhile_append_stop {p : Char → Bool} {x : Char} (hx : p x = false) :
    ∀ A B : List Char, (∀ c ∈ A, p c = true) → (A ++ x :: B).takeWhile p = A
  | [], B, _ => by simp [List.takeWhile, hx]
  | a :: A, B, h => by
    have ha : p a = true := h a (by simp)
    simp only [List.cons_append, List.takeWhile, ha]
    exact congrArg _ (takeWhile_append_stop hx A B (fun c hc => h c (by simp [hc])))

theorem takeWhile_all {p : Char → Bool} : ∀ A : List Char, (∀ c ∈ A, p c = true) →
    A.takeWhile p = A
  | [], _ => rfl
  | a :: A, h => by
    have ha : p a = true := h a (by simp)
    simp only [List.takeWhile, ha]
    rw [takeWhile_all A (fun c hc => h c (by simp [hc]))]

theorem takeWhile_append_all {p : Char → Bool} : ∀ A B : List Char, (∀ c ∈ A, p c = true) →
    (A ++ B).takeWhile p = A ++ B.takeWhile p
  | [], B, _ => rfl
  | a :: A, B, h => by
    have ha : p a = true := h a (by simp)
    simp only [List.cons_append, List.takeWhile, ha]
    exact congrArg _ (takeWhile_append_all A B (fun c hc => h c (by simp [hc])))

theorem afterLastSlash_no_slash (l : List Char) (h : '/' ∉ l) : afterLastSlash l = l := by
  unfold afterLastSlash
  rw [takeWhile_all _ (fun c hc => by
    have : c ≠ '/' := fun hc2 => h (hc2 ▸ List.mem_reverse.1 hc)
    simpa using this), List.reverse_reverse]

theorem afterLastSlash_append_no_slash (l r : List Char) (h : '/' ∉ r) :
    afterLastSlash (l ++ r) = afterLastSlash l ++ r := by
  unfold afterLastSlash
  rw [List.reverse_append, takeWhile_append_all _ _ (fun c hc => by
    have : c ≠ '/' := fun hc2 => h (hc2 ▸ List.mem_reverse.1 hc)
    simpa using this), List.reverse_append, List.reverse_reverse]

theorem afterLastSlash_mem (l : List Char) : ∀ c ∈ afterLastSlash l, c ∈ l := by
  intro c hc
  unfold afterLastSlash at hc
  exact List.mem_reverse.1 ((List.takeWhile_sublist _).subset (List.mem_reverse.1 hc))

theorem afterLastSlash_slash (l r : List Char) (h : '/' ∉ r) :
    afterLastSlash (l ++ '/' :: r) = r := by
  unfold afterLastSlash
  rw [List.reverse_append, List.reverse_cons, List.append_assoc, List.singleton_append,
    takeWhile_append_stop (by decide) _ _ (fun c hc => by
      have : c ≠ '/' := fun hc2 => h (hc2 ▸ List.mem_reverse.1 hc)
      simpa using this), List.reverse_reverse]

theorem exists_last_slash : ∀ l : List Char, '/' ∈ l →
    ∃ s t, l = s ++ '/' :: t ∧ '/' ∉ t
  | [], h => by simp at h
  | c :: l, h => by
    by_cases hl : '/' ∈ l
    · obtain ⟨s, t, h1, h2⟩ := exists_last_slash l hl
      exact ⟨c :: s, t, by rw [h1]; rfl, h2⟩
    · have hc : c = '/' := by
        rcases List.mem_cons.1 h with h | h
        · exact h.symm
        · exact absurd h hl
      exact ⟨[], l, by rw [hc]; rfl, hl⟩

theorem getLast?_cons_some {α : Type} (x y : α) : ∀ l : List α, l.getLast? = some y →
    (x :: l).getLast? = some y
  | [], h => by simp at h
  | _ :: _, h => by simpa [List.getLast?_cons_cons] using h

theorem splitLoop_getLast : ∀ (xs cur : List Char), '/' ∉ cur →
    (splitLoop '/' xs cur).getLast? = some ⟨afterLastSlash (cur.reverse ++ xs)⟩
  | [], cur, h => by
    simp [splitLoop, afterLastSlash_no_slash _ (fun hc => h (List.mem_reverse.1 hc))]
  | c :: cs, cur, h => by
    by_cases hc : c = '/'
    · subst hc
      have ih := splitLoop_getLast cs [] (by simp)
      simp only [splitLoop, beq_self_eq_true, if_true]
      rw [getLast?_cons_some _ _ _ ih]
      obtain hcs | hcs := Classical.em ('/' ∈ cs)
      · obtain ⟨s, t, h1, h2⟩ := exists_last_slash cs hcs
        have e1 : cur.reverse ++ '/' :: cs = (cur.reverse ++ '/' :: s) ++ '/' :: t := by
          rw [h1]; simp
        rw [e1, afterLastSlash_slash _ _ h2, List.reverse_nil, List.nil_append, h1,
          afterLastSlash_slash _ _ h2]
      · rw [afterLastSlash_slash _ _ hcs, List.reverse_nil, List.nil_append,
          afterLastSlash_no_slash _ hcs]
    · have hb : (c == '/') = false := by simpa using hc
      have ih := splitLoop_getLast cs (c :: cur) (by
        intro hm
        rcases List.mem_cons.1 hm with hm | hm
        · exact hc hm.symm
        · exact h hm)
      simp only [splitLoop, hb, Bool.false_eq_true, if_false]
      rw [ih]
      simp

theorem splitSlash_last (s : String) : (splitSlash s).getLastD "" = lastSegment s := by
  have h := splitLoop_getLast s.data [] (by simp)
  rw [List.getLastD_eq_getLast?, splitSlash, h]
  simp [lastSegment]

theorem unquote_raw (lit : String) (h : '"' ∉ lit.data) : unquote lit = lit := by
  unfold unquote
  split
  · rename_i rest heq
    exact absurd (by rw [heq]; simp) h
  · rfl

theorem unquote_quoted (lit : String) (p : List Char) (h : lit.data = '"' :: (p ++ ['"'])) :
    unquote lit = ⟨p⟩ := by
  unfold unquote
  split
  · rename_i rest heq
    have hr : rest = p ++ ['"'] := by
      rw [h] at heq
      exact (List.cons.inj heq).2.symm
    subst hr
    simp
  · rename_i hne
    exact absurd h (hne _)

theorem trimQuotes_data (s : String) :
    (trimQuotes s).data = ((s.data.dropWhile (fun c => c == '"')).reverse.dropWhile
      (fun c => c == '"')).reverse := rfl

theorem trimQuotes_eq_unquote (lit : String) (h : QuotedPath lit) :
    trimQuotes lit = unquote lit := by
  rcases h with h | ⟨p, hp, hq⟩
  · rw [unquote_raw lit h]
    apply String.ext
    rw [trimQuotes_data]
    simpa using trim_core [] lit.data [] (by simp) (by simp) h
  · rw [unquote_quoted lit p hp]
    apply String.ext
    rw [trimQuotes_data, hp]
    simpa using trim_core ['"'] p ['"'] (by simp) (by simp) hq

theorem afterLastSlash_quote_cons (p : List Char) :
    ∃ a : List Char, (∀ c ∈ a, c = '"') ∧ afterLastSlash ('"' :: p) = a ++ afterLastSlash p := by
  obtain hp | hp := Classical.em ('/' ∈ p)
  · obtain ⟨s, t, h1, h2⟩ := exists_last_slash p hp
    refine ⟨[], by simp, ?_⟩
    have e1 : '"' :: p = ('"' :: s) ++ '/' :: t := by rw [h1]; rfl
    rw [e1, afterLastSlash_slash _ _ h2, h1, afterLastSlash_slash _ _ h2]
    rfl
  · refine ⟨['"'], by simp, ?_⟩
    rw [afterLastSlash_no_slash p hp, afterLastSlash_no_slash]
    · rfl
    · intro hm
      rcases List.mem_cons.1 hm with hm | hm
      · exact absurd hm (by decide)
      · exact hp hm

theorem trimQuotes_lastSegment (lit : String) (h : QuotedPath lit) :
    trimQuotes (lastSegment lit) = lastSegment (unquote lit) := by
  rcases h with h | ⟨p, hp, hq⟩
  · rw [unquote_raw lit h]
    apply String.ext
    rw [trimQuotes_data]
    have hfree : '"' ∉ afterLastSlash lit.data := fun hm => h (afterLastSlash_mem _ _ hm)
    simpa [lastSegment] using trim_core [] (afterLastSlash lit.data) [] (by simp) (by simp) hfree
  · rw [unquote_quoted lit p hp]
    apply String.ext
    rw [trimQuotes_data]
    obtain ⟨a, ha, hcons⟩ := afterLastSlash_quote_cons p
    have hfree : '"' ∉ afterLastSlash p := fun hm => hq (afterLastSlash_mem _ _ hm)
    have e1 : (lastSegment lit).data = a ++ (afterLastSlash p ++ ['"']) := by
      show afterLastSlash lit.data = _
      rw [hp, ← List.cons_append, afterLastSlash_append_no_slash _ _ (by decide), hcons,
        List.append_assoc]
    rw [e1]
    simpa [lastSegment] using trim_core a (afterLastSlash p) ['"'] ha (by simp) hfree

theorem importStep_eq (m : Imports) (imp : ImportSpec) (h : QuotedPath imp.Path) :
    mapSet m (importKey imp) (importValue imp) = importStep m imp := by
  symm
  unfold importStep importKey importValue
  cases imp.Name with
  | some a => simp only [trimQuotes_eq_unquote _ h]
  | none =>
    simp only [splitSlash_last, trimQuotes_lastSegment _ h, trimQuotes_eq_unquote _ h]

theorem foldl_importStep (l : List ImportSpec) (h : ∀ imp ∈ l, QuotedPath imp.Path) :
    ∀ m : Imports, l.foldl importStep m =
      l.foldl (fun m imp => mapSet m (importKey imp) (importValue imp)) m := by
  induction l with
  | nil => intro m; rfl
  | cons imp l ih =>
    intro m
    simp only [List.foldl_cons]
    rw [← importStep_eq m imp (h imp (by simp)), ih (fun j hj => h j (by simp [hj]))]

theorem foldl_files (fs : List File) : ∀ m : Imports,
    fs.foldl (fun m fileAST => fileAST.Imports.foldl importStep m) m =
      (fileImports fs).foldl importStep m := by
  induction fs with
  | nil => intro m; rfl
  | cons f fs ih => intro m; simp only [List.foldl_cons, fileImports, List.foldl_append, ih]

theorem foldl_packages (ps : List Package) : ∀ m : Imports,
    ps.foldl (fun m packageAST => packageAST.Files.foldl
      (fun m fileAST => fileAST.Imports.foldl importStep m) m) m =
      (scanImports ps).foldl importStep m := by
  induction ps with
  | nil => intro m; rfl
  | cons p ps ih =>
    intro m
    rw [List.foldl_cons, ih, scanImports, List.foldl_append, foldl_files]

theorem foldl_mapSet_keep (k : String) (l : List ImportSpec)
    (h : ∀ j ∈ l, importKey j ≠ k) : ∀ m : Imports,
    mapGet (l.foldl (fun m imp => mapSet m (importKey imp) (importValue imp)) m) k =
      mapGet m k := by
  induction l with
  | nil => intro m; rfl
  | cons j l ih =>
    intro m
    simp only [List.foldl_cons]
    rw [ih (fun x hx => h x (by simp [hx])),
      mapGet_mapSet_other _ _ _ _ (fun e => h j (by simp) e.symm)]

/-- The table of the code: when the module parses and every path literal has its double
quotes, if any, around it and none inside, `GetImports` returns the table obtained by
inserting, for each import in scan order, the key `importKey` with the value
`importValue`; an insertion overwrites the value of an equal key, so for an import after
which no import has the same key the table holds that import's value; and no error is
raised. -/
theorem GetImports_fold (W : World) (dirPath : String) (pkgs : List Package)
    (hparse : W.parseDir dirPath = .ok pkgs)
    (hq : ∀ imp ∈ scanImports pkgs, QuotedPath imp.Path) :
    GetImports W dirPath =
      .ok ((scanImports pkgs).foldl
        (fun m imp => mapSet m (importKey imp) (importValue imp)) []) ∧
    (∀ (m : Imports) (k v : String), mapGet (mapSet m k v) k = v) ∧
    (∀ (m : Imports) (k v k1 : String), k1 ≠ k → mapGet (mapSet m k v) k1 = mapGet m k1) ∧
    (∀ (before after : List ImportSpec) (imp : ImportSpec),
      scanImports pkgs = before ++ imp :: after →
      (∀ j ∈ after, importKey j ≠ importKey imp) →
      ∃ T, GetImports W dirPath = .ok T ∧ mapGet T (importKey imp) = importValue imp) := by
  have hmain : GetImports W dirPath =
      .ok ((scanImports pkgs).foldl
        (fun m imp => mapSet m (importKey imp) (importValue imp)) []) := by
    simp only [GetImports, hparse, foldl_packages, foldl_importStep _ hq]
  refine ⟨hmain, mapGet_mapSet_self, mapGet_mapSet_other, ?_⟩
  intro before after imp hsplit hlater
  refine ⟨_, hmain, ?_⟩
  rw [hsplit, List.foldl_append, List.foldl_cons, foldl_mapSet_keep _ _ hlater,
    mapGet_mapSet_self]


theorem specImportPath_interpreted (lit : String) (p : List Char)
    (h : lit.data = '"' :: (p ++ ['"'])) : specImportPath lit = ⟨p⟩ := by
  unfold specImportPath
  rw [h]
  simp

theorem spec_of_interpreted (imp : ImportSpec) (h : Interpreted imp.Path) :
    specImportKey imp = importKey imp ∧ specImportValue imp = importValue imp := by
  obtain ⟨p, hp, _⟩ := h
  unfold importKey importValue specImportKey specImportValue
  rw [unquote_quoted _ p hp, specImportPath_interpreted _ p hp]
  exact ⟨rfl, rfl⟩

/-- For a module that parses and whose import paths are all written as interpreted string
literals, `GetImports` returns the import table of the specification. -/
theorem GetImports_interpreted (W : World) (dirPath : String) (pkgs : List Package)
    (hparse : W.parseDir dirPath = .ok pkgs)
    (hq : ∀ imp ∈ scanImports pkgs, Interpreted imp.Path) :
    GetImports W dirPath = .ok (specImports (scanImports pkgs)) := by
  rw [(GetImports_fold W dirPath pkgs hparse
    (fun imp himp => .inr (hq imp himp))).1]
  unfold specImports
  congr 1
  apply List.foldl_ext
  intro m imp himp
  rw [← (spec_of_interpreted imp (hq imp himp)).1, ← (spec_of_interpreted imp (hq imp himp)).2]

/-- The theorem `GetImports_interpreted` at a file importing `fmt`, `encoding/json` under
the alias `j`, and `example.com/x/fmt`: the key `fmt` holds the path of the later
import. -/
theorem GetImports_interpreted_example :
    GetImports importWorld "." =
      .ok [("fmt", "example.com/x/fmt"), ("j", "encoding/json")] := by
  decide

/-- C11, the code at a file whose import is written with the raw string literal of the
path `encoding/json`: `GetImports` trims double quotes only, so the table it returns has
the key and the value with the backquotes of the literal; the key is not the last segment
`json` of the import path and the value is not the import path `encoding/json`, which the
table of the specification holds, and a lookup of `json` in the returned table finds
nothing. -/
theorem GetImports_keeps_backquotes_of_raw_path :
    GetImports rawImportWorld "." = .ok [("json\x60", "\x60encoding/json\x60")] ∧
    (∃ pkgs, rawImportWorld.parseDir "." = .ok pkgs ∧
      specImports (scanImports pkgs) = [("json", "encoding/json")]) ∧
    mapGet [("json\x60", "\x60encoding/json\x60")] "json" = "" := by
  refine ⟨by decide, ⟨_, rfl, by decide⟩, by decide⟩

/-! ## The pointer flag and the text -/

section Pointer
variable {σ : Type}

theorem eraseAmp_append (a b : String) : eraseAmp (a ++ b) = eraseAmp a ++ eraseAmp b := by
  apply String.ext
  simp [eraseAmp]

theorem ampRel_refl (r : Res String × St σ) : AmpRel r r := by
  obtain ⟨a, s⟩ := r
  cases a <;> simp [AmpRel]

theorem ampRel_cases {r1 r2 : Res String × St σ} (h : AmpRel r1 r2) :
    (∃ a b s, r1 = (.ok a, s) ∧ r2 = (.ok b, s) ∧ eraseAmp a = eraseAmp b) ∨
    (∃ e s, r1 = (.err e, s) ∧ r2 = (.err e, s)) ∨
    (∃ e s, r1 = (.panic e, s) ∧ r2 = (.panic e, s)) ∨
    (∃ s, r1 = (.diverge, s) ∧ r2 = (.diverge, s)) := by
  obtain ⟨a1, s1⟩ := r1
  obtain ⟨a2, s2⟩ := r2
  obtain ⟨hs, hr⟩ := h
  simp only at hs
  subst hs
  cases a1 <;> cases a2 <;> simp only [AmpRel] at hr <;> first
    | exact absurd hr id
    | exact .inl ⟨_, _, _, rfl, rfl, hr⟩
    | exact .inr (.inl ⟨_, _, rfl, by rw [hr]⟩)
    | exact .inr (.inr (.inl ⟨_, _, rfl, by rw [hr]⟩))
    | exact .inr (.inr (.inr ⟨_, rfl, rfl⟩))

theorem ampRel_ok {a b : String} {s : St σ} (h : eraseAmp a = eraseAmp b) :
    AmpRel ((.ok a, s) : Res String × St σ) (.ok b, s) := ⟨rfl, h⟩

theorem structLoop_ampRel {gv : Synth σ} {p1 p2 : Bool} (H : FlagInsensitive gv p1 p2)
    (imps : Imports) (ind : Int) : ∀ (fs : List structField) (acc1 acc2 : String) (st : St σ),
    eraseAmp acc1 = eraseAmp acc2 →
    AmpRel (structLoop gv imps p1 ind fs acc1 st) (structLoop gv imps p2 ind fs acc2 st)
  | [], acc1, acc2, st, h => ampRel_ok h
  | f :: fs, acc1, acc2, st, h => by
    rcases ampRel_cases (H f.goType imps (ind + 1) st) with
      ⟨a, b, s, h1, h2, hab⟩ | ⟨e, s, h1, h2⟩ | ⟨e, s, h1, h2⟩ | ⟨s, h1, h2⟩
    · simp only [structLoop, h1, h2]
      exact structLoop_ampRel H imps ind fs _ _ s (by simp only [eraseAmp_append, h, hab])
    · simp only [structLoop, h1, h2]
      exact structLoop_ampRel H imps ind fs _ _ _ h
    · simp only [structLoop, h1, h2]; exact ampRel_refl _
    · simp only [structLoop, h1, h2]; exact ampRel_refl _

theorem structFixtureWith_ampRel {gv : Synth σ} {p1 p2 : Bool} (H : FlagInsensitive gv p1 p2)
    (s : structType) (imps : Imports) (ind : Int) (st : St σ) :
    AmpRel (structFixtureWith gv s imps p1 ind st) (structFixtureWith gv s imps p2 ind st) := by
  have h0 : eraseAmp (if p1 then "&" ++ s.name ++ "\x7b\n" else s.name ++ "\x7b\n") =
      eraseAmp (if p2 then "&" ++ s.name ++ "\x7b\n" else s.name ++ "\x7b\n") := by
    have e : eraseAmp "&" = "" := by decide
    cases p1 <;> cases p2 <;> simp [eraseAmp_append, e]
  rcases ampRel_cases (structLoop_ampRel H imps ind s.fields _ _ st h0) with
    ⟨a, b, s1, h1, h2, hab⟩ | ⟨e, s1, h1, h2⟩ | ⟨e, s1, h1, h2⟩ | ⟨s1, h1, h2⟩
  · simp only [structFixtureWith, h1, h2]
    exact ampRel_ok (by simp only [eraseAmp_append, hab])
  · simp only [structFixtureWith, h1, h2]; exact ampRel_refl _
  · simp only [structFixtureWith, h1, h2]; exact ampRel_refl _
  · simp only [structFixtureWith, h1, h2]; exact ampRel_refl _

theorem arrayLoop_ampRel {gv : Synth σ} {p1 p2 : Bool} (H : FlagInsensitive gv p1 p2)
    (Elt : Expr) (imps : Imports) (ind : Int) : ∀ (n : Nat) (acc1 acc2 : String) (st : St σ),
    eraseAmp acc1 = eraseAmp acc2 →
    AmpRel (arrayLoop gv Elt imps p1 ind n acc1 st) (arrayLoop gv Elt imps p2 ind n acc2 st)
  | 0, acc1, acc2, st, h => ampRel_ok h
  | n + 1, acc1, acc2, st, h => by
    rcases ampRel_cases (H Elt imps ind st) with
      ⟨a, b, s, h1, h2, hab⟩ | ⟨e, s, h1, h2⟩ | ⟨e, s, h1, h2⟩ | ⟨s, h1, h2⟩
    · simp only [arrayLoop, h1, h2]
      exact arrayLoop_ampRel H Elt imps ind n _ _ s (by simp only [eraseAmp_append, h, hab])
    · simp only [arrayLoop, h1, h2]; exact ampRel_refl _
    · simp only [arrayLoop, h1, h2]; exact ampRel_refl _
    · simp only [arrayLoop, h1, h2]; exact ampRel_refl _

theorem arrayFixtureWith_ampRel (R : RandSource σ) {gv : Synth σ} {p1 p2 : Bool}
    (H : FlagInsensitive gv p1 p2) (Len : Option String) (Elt : Expr) (imps : Imports)
    (ind : Int) (st : St σ) :
    AmpRel (arrayFixtureWith R gv Len Elt imps p1 ind st)
      (arrayFixtureWith R gv Len Elt imps p2 ind st) := by
  cases htn : getTypeName (.ArrayType Len Elt) with
  | ok tn =>
    rcases ampRel_cases (arrayLoop_ampRel H Elt imps ind
        (listCount (R.Uint32 st.rng).1 - 1).toNat (tn ++ "\x7b") (tn ++ "\x7b")
        ⟨(R.Uint32 st.rng).2, st.stdout⟩ rfl) with
      ⟨a, b, s1, h1, h2, hab⟩ | ⟨e, s1, h1, h2⟩ | ⟨e, s1, h1, h2⟩ | ⟨s1, h1, h2⟩
    · rcases ampRel_cases (H Elt imps ind s1) with
        ⟨c, d, s2, h3, h4, hcd⟩ | ⟨e, s2, h3, h4⟩ | ⟨e, s2, h3, h4⟩ | ⟨s2, h3, h4⟩
      · simp only [arrayFixtureWith, htn, h1, h2, h3, h4]
        exact ampRel_ok (by simp only [eraseAmp_append, hab, hcd])
      · simp only [arrayFixtureWith, htn, h1, h2, h3, h4]; exact ampRel_refl _
      · simp only [arrayFixtureWith, htn, h1, h2, h3, h4]; exact ampRel_refl _
      · simp only [arrayFixtureWith, htn, h1, h2, h3, h4]; exact ampRel_refl _
    · simp only [arrayFixtureWith, htn, h1, h2]; exact ampRel_refl _
    · simp only [arrayFixtureWith, htn, h1, h2]; exact ampRel_refl _
    · simp only [arrayFixtureWith, htn, h1, h2]; exact ampRel_refl _
  | err e => simp only [arrayFixtureWith, htn]; exact ampRel_refl _
  | panic e => simp only [arrayFixtureWith, htn]; exact ampRel_refl _
  | diverge => simp only [arrayFixtureWith, htn]; exact ampRel_refl _

theorem mapLoop_ampRel {gv : Synth σ} {p1 p2 : Bool} (H : FlagInsensitive gv p1 p2)
    (Key Value : Expr) (imps : Imports) (ind : Int) :
    ∀ (n : Nat) (acc1 acc2 : String) (st : St σ), eraseAmp acc1 = eraseAmp acc2 →
    AmpRel (mapLoop gv Key Value imps p1 ind n acc1 st)
      (mapLoop gv Key Value imps p2 ind n acc2 st)
  | 0, acc1, acc2, st, h => ampRel_ok h
  | n + 1, acc1, acc2, st, h => by
    rcases ampRel_cases (H Key imps (ind + 1) st) with
      ⟨a, b, s, h1, h2, hab⟩ | ⟨e, s, h1, h2⟩ | ⟨e, s, h1, h2⟩ | ⟨s, h1, h2⟩
    · rcases ampRel_cases (H Value imps (ind + 1) s) with
        ⟨c, d, s2, h3, h4, hcd⟩ | ⟨e, s2, h3, h4⟩ | ⟨e, s2, h3, h4⟩ | ⟨s2, h3, h4⟩
      · simp only [mapLoop, h1, h2, h3, h4]
        exact mapLoop_ampRel H Key Value imps ind n _ _ s2
          (by simp only [eraseAmp_append, h, hab, hcd])
      · simp only [mapLoop, h1, h2, h3, h4]; exact ampRel_refl _
      · simp only [mapLoop, h1, h2, h3, h4]; exact ampRel_refl _
      · simp only [mapLoop, h1, h2, h3, h4]; exact ampRel_refl _
    · simp only [mapLoop, h1, h2]; exact ampRel_refl _
    · simp only [mapLoop, h1, h2]; exact ampRel_refl _
    · simp only [mapLoop, h1, h2]; exact ampRel_refl _

theorem mapFixtureWith_ampRel (R : RandSource σ) {gv : Synth σ} {p1 p2 : Bool}
    (H : FlagInsensitive gv p1 p2) (Key Value : Expr) (imps : Imports)
    (ind : Int) (st : St σ) :
    AmpRel (mapFixtureWith R gv Key Value imps p1 ind st)
      (mapFixtureWith R gv Key Value imps p2 ind st) := by
  cases htn : getTypeName (.MapType Key Value) with
  | ok tn =>
    rcases ampRel_cases (mapLoop_ampRel H Key Value imps ind
        (listCount (R.Uint32 st.rng).1 - 1).toNat (tn ++ "\x7b\n") (tn ++ "\x7b\n")
        ⟨(R.Uint32 st.rng).2, st.stdout⟩ rfl) with
      ⟨a, b, s1, h1, h2, hab⟩ | ⟨e, s1, h1, h2⟩ | ⟨e, s1, h1, h2⟩ | ⟨s1, h1, h2⟩
    · rcases ampRel_cases (H Key imps (ind + 1) s1) with
        ⟨c, d, s2, h3, h4, hcd⟩ | ⟨e, s2, h3, h4⟩ | ⟨e, s2, h3, h4⟩ | ⟨s2, h3, h4⟩
      · rcases ampRel_cases (H Value imps (ind + 1) s2) with
          ⟨x, y, s3, h5, h6, hxy⟩ | ⟨e, s3, h5, h6⟩ | ⟨e, s3, h5, h6⟩ | ⟨s3, h5, h6⟩
        · simp only [mapFixtureWith, htn, h1, h2, h3, h4, h5, h6]
          exact ampRel_ok (by simp only [eraseAmp_append, hab, hcd, hxy])
        · simp only [mapFixtureWith, htn, h1, h2, h3, h4, h5, h6]; exact ampRel_refl _
        · simp only [mapFixtureWith, htn, h1, h2, h3, h4, h5, h6]; exact ampRel_refl _
        · simp only [mapFixtureWith, htn, h1, h2, h3, h4, h5, h6]; exact ampRel_refl _
      · simp only [mapFixtureWith, htn, h1, h2, h3, h4]; exact ampRel_refl _
      · simp only [mapFixtureWith, htn, h1, h2, h3, h4]; exact ampRel_refl _
      · simp only [mapFixtureWith, htn, h1, h2, h3, h4]; exact ampRel_refl _
    · simp only [mapFixtureWith, htn, h1, h2]; exact ampRel_refl _
    · simp only [mapFixtureWith, htn, h1, h2]; exact ampRel_refl _
    · simp only [mapFixtureWith, htn, h1, h2]; exact ampRel_refl _
  | err e => simp only [mapFixtureWith, htn]; exact ampRel_refl _
  | panic e => simp only [mapFixtureWith, htn]; exact ampRel_refl _
  | diverge => simp only [mapFixtureWith, htn]; exact ampRel_refl _

theorem structFieldFixtureWith_ampRel (W : World) {gv : Synth σ} {p1 p2 : Bool}
    (H : FlagInsensitive gv p1 p2) (object : Nat) (imps : Imports) (ind : Int) (st : St σ) :
    AmpRel (structFieldFixtureWith W gv object imps p1 ind st)
      (structFieldFixtureWith W gv object imps p2 ind st) := by
  cases hobj : W.objects object with
  | other => simp only [structFieldFixtureWith, hobj]; exact ampRel_refl _
  | typeSpec spec =>
    cases hs : typeSpecToStructType spec with
    | ok s =>
      simp only [structFieldFixtureWith, hobj, hs]
      exact structFixtureWith_ampRel H s imps ind st
    | err e => simp only [structFieldFixtureWith, hobj, hs]; exact ampRel_refl _
    | panic e => simp only [structFieldFixtureWith, hobj, hs]; exact ampRel_refl _
    | diverge => simp only [structFieldFixtureWith, hobj, hs]; exact ampRel_refl _

theorem externalStructFieldFixtureWith_ampRel (W : World) {gv : Synth σ} {p1 p2 : Bool}
    (H : FlagInsensitive gv p1 p2) (X : Expr) (Sel : String) (imps : Imports) (ind : Int)
    (st : St σ) :
    AmpRel (externalStructFieldFixtureWith W gv X Sel imps p1 ind st)
      (externalStructFieldFixtureWith W gv X Sel imps p2 ind st) := by
  cases X with
  | Ident Name Obj =>
    cases hs : GetStruct W (getPackagePath W (mapGet imps Name)) Sel with
    | ok s =>
      cases hi : GetImports W (getPackagePath W (mapGet imps Name)) with
      | ok newImports =>
        simp only [externalStructFieldFixtureWith, hs, hi]
        exact structFixtureWith_ampRel H s newImports ind st
      | err e => simp only [externalStructFieldFixtureWith, hs, hi]; exact ampRel_refl _
      | panic e => simp only [externalStructFieldFixtureWith, hs, hi]; exact ampRel_refl _
      | diverge => simp only [externalStructFieldFixtureWith, hs, hi]; exact ampRel_refl _
    | err e => simp only [externalStructFieldFixtureWith, hs]; exact ampRel_refl _
    | panic e => simp only [externalStructFieldFixtureWith, hs]; exact ampRel_refl _
    | diverge => simp only [externalStructFieldFixtureWith, hs]; exact ampRel_refl _
  | _ => exact ampRel_refl _

theorem getValueFixture_flagInsensitive (W : World) (R : RandSource σ) :
    ∀ (fuel : Nat) (p1 p2 : Bool), FlagInsensitive (getValueFixture W R fuel) p1 p2
  | 0, _, _ => fun _ _ _ _ => ampRel_refl _
  | fuel + 1, p1, p2 => by
    intro e imps ind st
    have H := getValueFixture_flagInsensitive W R fuel p1 p2
    cases e with
    | Ident Name Obj =>
      cases Obj with
      | some object => exact structFieldFixtureWith_ampRel W H object imps ind st
      | none => exact ampRel_refl _
    | ArrayType Len Elt => exact arrayFixtureWith_ampRel R H Len Elt imps ind st
    | MapType Key Value => exact mapFixtureWith_ampRel R H Key Value imps ind st
    | SelectorExpr X Sel => exact externalStructFieldFixtureWith_ampRel W H X Sel imps ind st
    | StarExpr X => exact ampRel_refl _
    | _ => exact ampRel_refl _

end Pointer

/-! ## Termination -/

section Termination
variable {σ : Type}

theorem structLoop_returns {gv : Synth σ} (imps : Imports) (p : Bool) (ind : Int) :
    ∀ (fs : List structField), (∀ f ∈ fs, Returns (gv f.goType imps p (ind + 1))) →
    ∀ (acc : String), Returns (structLoop gv imps p ind fs acc)
  | [], _, acc => fun st => by simp [structLoop]
  | f :: fs, h, acc => by
    intro st
    have hf := h f (by simp) st
    have ih := structLoop_returns imps p ind fs (fun g hg => h g (by simp [hg]))
    rcases hr : gv f.goType imps p (ind + 1) st with ⟨a, s⟩
    rw [hr] at hf
    cases a with
    | ok v => simp only [structLoop, hr]; exact ih _ _
    | err e => simp only [structLoop, hr]; exact ih _ _
    | panic e => simp [structLoop, hr]
    | diverge => exact absurd rfl hf

theorem structFixtureWith_returns {gv : Synth σ} (s : structType) (imps : Imports) (p : Bool)
    (ind : Int) (h : ∀ f ∈ s.fields, Returns (gv f.goType imps p (ind + 1))) :
    Returns (structFixtureWith gv s imps p ind) := by
  intro st
  have h1 := structLoop_returns imps p ind s.fields h
    (if p then "&" ++ s.name ++ "\x7b\n" else s.name ++ "\x7b\n") st
  rcases hr : structLoop gv imps p ind s.fields
    (if p then "&" ++ s.name ++ "\x7b\n" else s.name ++ "\x7b\n") st with ⟨a, s1⟩
  rw [hr] at h1
  cases a with
  | ok v => simp [structFixtureWith, hr]
  | err e => simp [structFixtureWith, hr]
  | panic e => simp [structFixtureWith, hr]
  | diverge => exact absurd rfl h1

theorem arrayLoop_returns {gv : Synth σ} (Elt : Expr) (imps : Imports) (p : Bool) (ind : Int)
    (h : Returns (gv Elt imps p ind)) :
    ∀ (n : Nat) (acc : String), Returns (arrayLoop gv Elt imps p ind n acc)
  | 0, acc => fun st => by simp [arrayLoop]
  | n + 1, acc => by
    intro st
    have hf := h st
    rcases hr : gv Elt imps p ind st with ⟨a, s⟩
    rw [hr] at hf
    cases a with
    | ok v => simp only [arrayLoop, hr]; exact arrayLoop_returns Elt imps p ind h n _ _
    | err e => simp [arrayLoop, hr]
    | panic e => simp [arrayLoop, hr]
    | diverge => exact absurd rfl hf

theorem getTypeName_ne_diverge (e : Expr) : getTypeName e ≠ .diverge := by
  rcases getTypeName_cases e with ⟨_, s, h⟩ | ⟨_, h⟩ <;> rw [h] <;> simp

theorem getTypeName_ne_panic (e : Expr) (m : String) : getTypeName e ≠ .panic m := by
  rcases getTypeName_cases e with ⟨_, s, h⟩ | ⟨_, h⟩ <;> rw [h] <;> simp

theorem arrayFixtureWith_returns (R : RandSource σ) {gv : Synth σ} (Len : Option String)
    (Elt : Expr) (imps : Imports) (p : Bool) (ind : Int) (h : Returns (gv Elt imps p ind)) :
    Returns (arrayFixtureWith R gv Len Elt imps p ind) := by
  intro st
  cases htn : getTypeName (.ArrayType Len Elt) with
  | ok tn =>
    have h1 := arrayLoop_returns Elt imps p ind h (listCount (R.Uint32 st.rng).1 - 1).toNat
      (tn ++ "\x7b") ⟨(R.Uint32 st.rng).2, st.stdout⟩
    rcases hr : arrayLoop gv Elt imps p ind (listCount (R.Uint32 st.rng).1 - 1).toNat
      (tn ++ "\x7b") ⟨(R.Uint32 st.rng).2, st.stdout⟩ with ⟨a, s1⟩
    rw [hr] at h1
    cases a with
    | ok v =>
      have h2 := h s1
      rcases hr2 : gv Elt imps p ind s1 with ⟨b, s2⟩
      rw [hr2] at h2
      cases b with
      | ok w => simp only [arrayFixtureWith, htn, hr, hr2]; simp
      | err e => simp only [arrayFixtureWith, htn, hr, hr2]; simp
      | panic e => simp only [arrayFixtureWith, htn, hr, hr2]; simp
      | diverge => exact absurd rfl h2
    | err e => simp only [arrayFixtureWith, htn, hr]; simp
    | panic e => simp only [arrayFixtureWith, htn, hr]; simp
    | diverge => exact absurd rfl h1
  | err e => simp only [arrayFixtureWith, htn]; simp
  | panic e => simp only [arrayFixtureWith, htn]; simp
  | diverge => exact absurd htn (getTypeName_ne_diverge _)

theorem mapLoop_returns {gv : Synth σ} (Key Value : Expr) (imps : Imports) (p : Bool)
    (ind : Int) (hk : Returns (gv Key imps p (ind + 1)))
    (hv : Returns (gv Value imps p (ind + 1))) :
    ∀ (n : Nat) (acc : String), Returns (mapLoop gv Key Value imps p ind n acc)
  | 0, acc => fun st => by simp [mapLoop]
  | n + 1, acc => by
    intro st
    have hf := hk st
    rcases hr : gv Key imps p (ind + 1) st with ⟨a, s⟩
    rw [hr] at hf
    cases a with
    | ok k =>
      have hg := hv s
      rcases hr2 : gv Value imps p (ind + 1) s with ⟨b, s2⟩
      rw [hr2] at hg
      cases b with
      | ok v =>
        simp only [mapLoop, hr, hr2]
        exact mapLoop_returns Key Value imps p ind hk hv n _ _
      | err e => simp [mapLoop, hr, hr2]
      | panic e => simp [mapLoop, hr, hr2]
      | diverge => exact absurd rfl hg
    | err e => simp [mapLoop, hr]
    | panic e => simp [mapLoop, hr]
    | diverge => exact absurd rfl hf

theorem mapFixtureWith_returns (R : RandSource σ) {gv : Synth σ} (Key Value : Expr)
    (imps : Imports) (p : Bool) (ind : Int) (hk : Returns (gv Key imps p (ind + 1)))
    (hv : Returns (gv Value imps p (ind + 1))) :
    Returns (mapFixtureWith R gv Key Value imps p ind) := by
  intro st
  cases htn : getTypeName (.MapType Key Value) with
  | ok tn =>
    have h1 := mapLoop_returns Key Value imps p ind hk hv
      (listCount (R.Uint32 st.rng).1 - 1).toNat (tn ++ "\x7b\n")
      ⟨(R.Uint32 st.rng).2, st.stdout⟩
    rcases hr : mapLoop gv Key Value imps p ind (listCount (R.Uint32 st.rng).1 - 1).toNat
      (tn ++ "\x7b\n") ⟨(R.Uint32 st.rng).2, st.stdout⟩ with ⟨a, s1⟩
    rw [hr] at h1
    cases a with
    | ok v =>
      have h2 := hk s1
      rcases hr2 : gv Key imps p (ind + 1) s1 with ⟨b, s2⟩
      rw [hr2] at h2
      cases b with
      | ok w =>
        have h3 := hv s2
        rcases hr3 : gv Value imps p (ind + 1) s2 with ⟨c, s3⟩
        rw [hr3] at h3
        cases c with
        | ok x => simp only [mapFixtureWith, htn, hr, hr2, hr3]; simp
        | err e => simp only [mapFixtureWith, htn, hr, hr2, hr3]; simp
        | panic e => simp only [mapFixtureWith, htn, hr, hr2, hr3]; simp
        | diverge => exact absurd rfl h3
      | err e => simp only [mapFixtureWith, htn, hr, hr2]; simp
      | panic e => simp only [mapFixtureWith, htn, hr, hr2]; simp
      | diverge => exact absurd rfl h2
    | err e => simp only [mapFixtureWith, htn, hr]; simp
    | panic e => simp only [mapFixtureWith, htn, hr]; simp
    | diverge => exact absurd rfl h1
  | err e => simp only [mapFixtureWith, htn]; simp
  | panic e => simp only [mapFixtureWith, htn]; simp
  | diverge => exact absurd htn (getTypeName_ne_diverge _)

theorem fieldsLoop_ok_fields : ∀ (fs : List Field) (acc res : List structField),
    fieldsLoop fs acc = .ok res →
    ∀ g ∈ res, g ∈ acc ∨ ∃ f ∈ fs, g.goType = f.Typ
  | [], acc, res, h, g, hg => by
    simp only [fieldsLoop, Res.ok.injEq] at h
    subst h
    exact .inl hg
  | f :: fs, acc, res, h, g, hg => by
    cases hn : f.Names with
    | nil => simp [fieldsLoop, hn] at h
    | cons n0 ns =>
      simp only [fieldsLoop, hn] at h
      rcases fieldsLoop_ok_fields fs _ res h g hg with h1 | ⟨f1, hf1, h2⟩
      · rcases List.mem_append.1 h1 with h1 | h1
        · exact .inl h1
        · rw [List.mem_singleton] at h1
          exact .inr ⟨f, by simp, by rw [h1]⟩
      · exact .inr ⟨f1, by simp [hf1], h2⟩

theorem fieldsLoop_ne_diverge : ∀ (fs : List Field) (acc : List structField),
    fieldsLoop fs acc ≠ .diverge
  | [], acc => by simp [fieldsLoop]
  | f :: fs, acc => by
    cases hn : f.Names with
    | nil => simp [fieldsLoop, hn]
    | cons n0 ns =>
      simp only [fieldsLoop, hn]
      exact fieldsLoop_ne_diverge fs _

theorem typeSpecToStructType_ne_diverge (spec : TypeSpec) :
    typeSpecToStructType spec ≠ .diverge := by
  unfold typeSpecToStructType
  split
  · rename_i fl _
    have := fieldsLoop_ne_diverge fl []
    split <;> simp_all
  · simp

theorem typeSpecToStructType_ok_fields (spec : TypeSpec) (s : structType)
    (h : typeSpecToStructType spec = .ok s) :
    ∃ fs, spec.Typ = .StructType fs ∧ ∀ g ∈ s.fields, ∃ f ∈ fs, g.goType = f.Typ := by
  unfold typeSpecToStructType at h
  split at h
  · rename_i fl heq
    refine ⟨fl, heq, ?_⟩
    cases hf : fieldsLoop fl [] with
    | ok res =>
      rw [hf] at h
      simp only [Res.ok.injEq] at h
      subst h
      intro g hg
      rcases fieldsLoop_ok_fields fl [] res hf g hg with h1 | h1
      · simp at h1
      · exact h1
    | err e => rw [hf] at h; simp at h
    | panic e => rw [hf] at h; simp at h
    | diverge => rw [hf] at h; simp at h
  · simp at h

theorem getSimpleTypeFixture_returns (R : RandSource σ) (name : String) :
    Returns (getSimpleTypeFixture R name) := by
  intro st
  by_cases h : name ∈ scalarKinds
  · obtain ⟨v, st1, hv, _⟩ := getSimpleTypeFixture_supported R name st h
    rw [hv]; simp
  · rw [getSimpleTypeFixture_unsupported R name st h]; simp

theorem exists_common_bound {α : Type} (Q : α → Nat → Prop) : ∀ l : List α,
    (∀ x ∈ l, ∃ N, ∀ fuel, N ≤ fuel → Q x fuel) →
    ∃ N, ∀ fuel, N ≤ fuel → ∀ x ∈ l, Q x fuel
  | [], _ => ⟨0, fun _ _ x hx => by simp at hx⟩
  | a :: l, h => by
    obtain ⟨N1, h1⟩ := h a (by simp)
    obtain ⟨N2, h2⟩ := exists_common_bound Q l (fun x hx => h x (by simp [hx]))
    refine ⟨max N1 N2, fun fuel hf x hx => ?_⟩
    rcases List.mem_cons.1 hx with rfl | hx
    · exact h1 fuel (le_trans (le_max_left _ _) hf)
    · exact h2 fuel (le_trans (le_max_right _ _) hf) x hx

theorem typeSpecToStructType_fieldTypesAt (W : World) (a : Nat) (spec : TypeSpec)
    (s : structType) (hobj : W.objects a = .typeSpec spec)
    (hts : typeSpecToStructType spec = .ok s) :
    ∀ g ∈ s.fields, g.goType ∈ fieldTypesAt W a := by
  obtain ⟨fs, hfs, hfields⟩ := typeSpecToStructType_ok_fields spec s hts
  intro g hg
  obtain ⟨f, hf, hgf⟩ := hfields g hg
  simp only [fieldTypesAt, hobj, hfs, List.mem_map]
  exact ⟨f, hf, hgf.symm⟩

theorem getValueFixture_returns_fallsThrough (W : World) (R : RandSource σ) (e : Expr)
    (hft : fallsThrough e = true) :
    ∃ N, ∀ fuel, N ≤ fuel → ∀ (imps : Imports) (p : Bool) (ind : Int),
      Returns (getValueFixture W R fuel e imps p ind) := by
  refine ⟨1, fun fuel hf imps p ind st => ?_⟩
  obtain ⟨k, rfl⟩ : ∃ k, fuel = k + 1 := ⟨fuel - 1, by omega⟩
  rw [getValueFixture_fallsThrough W R k e imps p ind st hft]
  simp

/-- A type expression that refers to no external type returns once every local record it
refers to does. -/
theorem getValueFixture_returns_of_refs (W : World) (R : RandSource σ) :
    ∀ e : Expr, ¬ RefersExternal e →
    (∀ b, Refers e b → ∃ N, ∀ fuel, N ≤ fuel → ∀ (n : String) (imps : Imports) (p : Bool)
      (ind : Int), Returns (getValueFixture W R fuel (.Ident n (some b)) imps p ind)) →
    ∃ N, ∀ fuel, N ≤ fuel → ∀ (imps : Imports) (p : Bool) (ind : Int),
      Returns (getValueFixture W R fuel e imps p ind)
  | .Ident n none, _, _ => by
    refine ⟨1, fun fuel hf imps p ind => ?_⟩
    obtain ⟨k, rfl⟩ : ∃ k, fuel = k + 1 := ⟨fuel - 1, by omega⟩
    exact getSimpleTypeFixture_returns R n
  | .Ident n (some a), _, h => by
    obtain ⟨N, hN⟩ := h a (.object n a)
    exact ⟨N, fun fuel hf imps p ind => hN fuel hf n imps p ind⟩
  | .ArrayType l e, hx, h => by
    obtain ⟨N, hN⟩ := getValueFixture_returns_of_refs W R e (fun c => hx (.array l c))
      (fun b hb => h b (.array l hb))
    refine ⟨N + 1, fun fuel hf imps p ind => ?_⟩
    obtain ⟨k, rfl⟩ : ∃ k, fuel = k + 1 := ⟨fuel - 1, by omega⟩
    exact arrayFixtureWith_returns R l _ imps p ind (hN k (by omega) imps p ind)
  | .MapType k v, hx, h => by
    obtain ⟨N1, hN1⟩ := getValueFixture_returns_of_refs W R k (fun c => hx (.mapKey v c))
      (fun b hb => h b (.mapKey v hb))
    obtain ⟨N2, hN2⟩ := getValueFixture_returns_of_refs W R v (fun c => hx (.mapValue k c))
      (fun b hb => h b (.mapValue k hb))
    refine ⟨max N1 N2 + 1, fun fuel hf imps p ind => ?_⟩
    obtain ⟨j, rfl⟩ : ∃ j, fuel = j + 1 := ⟨fuel - 1, by omega⟩
    have h1 : N1 ≤ j := le_trans (le_max_left N1 N2) (by omega)
    have h2 : N2 ≤ j := le_trans (le_max_right N1 N2) (by omega)
    exact mapFixtureWith_returns R _ _ imps p ind (hN1 j h1 imps p (ind + 1))
      (hN2 j h2 imps p (ind + 1))
  | .StarExpr x, hx, h => by
    obtain ⟨N, hN⟩ := getValueFixture_returns_of_refs W R x (fun c => hx (.star c))
      (fun b hb => h b (.star hb))
    refine ⟨N + 1, fun fuel hf imps p ind => ?_⟩
    obtain ⟨k, rfl⟩ : ∃ k, fuel = k + 1 := ⟨fuel - 1, by omega⟩
    exact hN k (by omega) imps true ind
  | .SelectorExpr X Sel, hx, _ => absurd (.here X Sel) hx
  | .StructType fs, _, _ => getValueFixture_returns_fallsThrough W R (.StructType fs) rfl
  | .FuncType, _, _ => getValueFixture_returns_fallsThrough W R .FuncType rfl
  | .ChanType x, _, _ => getValueFixture_returns_fallsThrough W R (.ChanType x) rfl
  | .InterfaceType, _, _ => getValueFixture_returns_fallsThrough W R .InterfaceType rfl
  | .ParenExpr x, _, _ => getValueFixture_returns_fallsThrough W R (.ParenExpr x) rfl

/-- A local record returns once every record its fields refer to does and none of its
fields refers to an external type. -/
theorem getValueFixture_returns_of_fields (W : World) (R : RandSource σ) (a : Nat)
    (hx : ∀ t ∈ fieldTypesAt W a, ¬ RefersExternal t)
    (h : ∀ b, FieldRef W a b → ∃ N, ∀ fuel, N ≤ fuel → ∀ (n : String) (imps : Imports)
      (p : Bool) (ind : Int),
      Returns (getValueFixture W R fuel (.Ident n (some b)) imps p ind)) :
    ∃ N, ∀ fuel, N ≤ fuel → ∀ (n : String) (imps : Imports) (p : Bool) (ind : Int),
      Returns (getValueFixture W R fuel (.Ident n (some a)) imps p ind) := by
  cases hobj : W.objects a with
  | other =>
    refine ⟨1, fun fuel hf n imps p ind st => ?_⟩
    obtain ⟨k, rfl⟩ : ∃ k, fuel = k + 1 := ⟨fuel - 1, by omega⟩
    simp [getValueFixture, structFieldFixtureWith, hobj]
  | typeSpec spec =>
    cases hts : typeSpecToStructType spec with
    | ok s =>
      have hmem := typeSpecToStructType_fieldTypesAt W a spec s hobj hts
      have hall : ∀ g ∈ s.fields, ∃ N, ∀ fuel, N ≤ fuel →
          ∀ (imps : Imports) (p : Bool) (ind : Int),
            Returns (getValueFixture W R fuel g.goType imps p ind) := fun g hg =>
        getValueFixture_returns_of_refs W R g.goType (hx _ (hmem g hg))
          (fun b hb => h b ⟨g.goType, hmem g hg, hb⟩)
      obtain ⟨N, hN⟩ := exists_common_bound
        (fun (g : structField) fuel => ∀ (imps : Imports) (p : Bool) (ind : Int),
          Returns (getValueFixture W R fuel g.goType imps p ind)) s.fields hall
      refine ⟨N + 1, fun fuel hf n imps p ind st => ?_⟩
      obtain ⟨k, rfl⟩ : ∃ k, fuel = k + 1 := ⟨fuel - 1, by omega⟩
      have := structFixtureWith_returns s imps p ind
        (fun g hg => hN k (by omega) g hg imps p (ind + 1)) st
      simpa [getValueFixture, structFieldFixtureWith, hobj, hts] using this
    | err m =>
      refine ⟨1, fun fuel hf n imps p ind st => ?_⟩
      obtain ⟨k, rfl⟩ : ∃ k, fuel = k + 1 := ⟨fuel - 1, by omega⟩
      simp [getValueFixture, structFieldFixtureWith, hobj, hts]
    | panic m =>
      refine ⟨1, fun fuel hf n imps p ind st => ?_⟩
      obtain ⟨k, rfl⟩ : ∃ k, fuel = k + 1 := ⟨fuel - 1, by omega⟩
      simp [getValueFixture, structFieldFixtureWith, hobj, hts]
    | diverge => exact absurd hts (typeSpecToStructType_ne_diverge spec)

/-- Among finitely many records none of which reaches itself, the edges of the declaration
graph are well founded. -/
theorem fieldRef_acc (W : World) (S : Nat → Prop) (L : List Nat) (hL : ∀ a, S a → a ∈ L)
    (hclosed : ∀ a b, S a → FieldRef W a b → S b)
    (hirr : ∀ a, S a → ¬ Relation.TransGen (FieldRef W) a a) :
    ∀ a, S a → Acc (fun b a => S a ∧ FieldRef W a b) a := by
  have hfin : Finite {a // S a} :=
    Finite.of_injective (fun x : {a // S a} => (⟨x.1, List.mem_toFinset.2 (hL x.1 x.2)⟩ :
      {a // a ∈ L.toFinset})) (fun x y hxy => Subtype.ext (by
        have := congrArg Subtype.val hxy
        exact this))
  let r : {a // S a} → {a // S a} → Prop := fun b a => Relation.TransGen (FieldRef W) a.1 b.1
  have htrans : IsTrans {a // S a} r := ⟨fun _ _ _ hab hbc => Relation.TransGen.trans hbc hab⟩
  have hirrefl : IsIrrefl {a // S a} r := ⟨fun a => hirr a.1 a.2⟩
  have hwf : WellFounded r := Finite.wellFounded_of_trans_of_irrefl r
  intro a ha
  have key : ∀ x : {a // S a}, Acc (fun b a => S a ∧ FieldRef W a b) x.1 := by
    intro x
    induction x using hwf.induction with
    | _ x ih =>
      refine Acc.intro _ (fun b hb => ?_)
      exact ih ⟨b, hclosed _ _ hb.1 hb.2⟩ (Relation.TransGen.single hb.2)
  exact key ⟨a, ha⟩

theorem reaches_closed (W : World) (e : Expr) (a b : Nat) (ha : Reaches W e a)
    (hab : FieldRef W a b) : Reaches W e b := .step ha hab

/-- Every record reachable from a type expression that satisfies the precondition
returns. -/
theorem getValueFixture_returns_record (W : World) (R : RandSource σ) (e : Expr)
    (h : NoCycleFrom W e) : ∀ a, Reaches W e a →
    ∃ N, ∀ fuel, N ≤ fuel → ∀ (n : String) (imps : Imports) (p : Bool) (ind : Int),
      Returns (getValueFixture W R fuel (.Ident n (some a)) imps p ind) := by
  obtain ⟨⟨L, hL⟩, hirr, _, hx⟩ := h
  intro a ha
  have hacc := fieldRef_acc W (Reaches W e) L hL (reaches_closed W e) hirr a ha
  induction hacc with
  | intro a _ ih =>
    exact getValueFixture_returns_of_fields W R a (hx a ha)
      (fun b hb => ih b ⟨ha, hb⟩ (.step ha hb))

theorem getValueFixture_returns (W : World) (R : RandSource σ) (e : Expr)
    (h : NoCycleFrom W e) :
    ∃ N, ∀ fuel, N ≤ fuel → ∀ (imps : Imports) (p : Bool) (ind : Int),
      Returns (getValueFixture W R fuel e imps p ind) :=
  getValueFixture_returns_of_refs W R e h.2.2.1
    (fun b hb => getValueFixture_returns_record W R e h b (.direct hb))

end Termination

theorem refers_scalar_false {n : String} {a : Nat} (h : Refers (.Ident n none) a) : False := by
  cases h

theorem mixedWorld_fieldRef (a b : Nat) (ha : a = 0 ∨ a = 1)
    (h : FieldRef mixedWorld a b) : a = 1 ∧ b = 0 := by
  obtain ⟨t, ht, hr⟩ := h
  rcases ha with rfl | rfl
  · have e : fieldTypesAt mixedWorld 0 = [.Ident "int" none] := rfl
    rw [e, List.mem_singleton] at ht
    subst ht
    cases hr
  · have e : fieldTypesAt mixedWorld 1 = [.Ident "Inner" (some 0),
        .ArrayType none (.StarExpr (.Ident "Inner" (some 0)))] := rfl
    rw [e] at ht
    simp only [List.mem_cons, List.mem_singleton, List.not_mem_nil, or_false] at ht
    rcases ht with rfl | rfl
    · cases hr; exact ⟨rfl, rfl⟩
    · cases hr with
      | array _ h1 =>
        cases h1 with
        | star h2 => cases h2; exact ⟨rfl, rfl⟩

theorem mixedWorld_reaches (a : Nat) (h : Reaches mixedWorld (.Ident "Outer" (some 1)) a) :
    a = 0 ∨ a = 1 := by
  induction h with
  | direct hr => cases hr; exact .inr rfl
  | step _ hab ih => exact .inl (mixedWorld_fieldRef _ _ ih hab).2

theorem mixedWorld_transGen (a b : Nat) (ha : a = 0 ∨ a = 1)
    (h : Relation.TransGen (FieldRef mixedWorld) a b) : a = 1 ∧ b = 0 := by
  induction h with
  | single hab => exact mixedWorld_fieldRef _ _ ha hab
  | tail _ hbc ih =>
    have := mixedWorld_fieldRef _ _ (.inl ih.2) hbc
    omega

/-- In `mixedWorld` the record `Outer` satisfies the precondition, whatever the records
`Node` and `Stamp` declared beside it are. -/
theorem mixedWorld_outer : NoCycleFrom mixedWorld (.Ident "Outer" (some 1)) := by
  refine ⟨⟨[0, 1], fun a ha => ?_⟩, fun a ha hc => ?_, fun hx => ?_, fun a ha t ht hx => ?_⟩
  · rcases mixedWorld_reaches a ha with rfl | rfl <;> simp
  · have := mixedWorld_transGen a a (mixedWorld_reaches a ha) hc
    omega
  · cases hx
  · rcases mixedWorld_reaches a ha with rfl | rfl
    · have e : fieldTypesAt mixedWorld 0 = [.Ident "int" none] := rfl
      rw [e, List.mem_singleton] at ht
      subst ht
      cases hx
    · have e : fieldTypesAt mixedWorld 1 = [.Ident "Inner" (some 0),
          .ArrayType none (.StarExpr (.Ident "Inner" (some 0)))] := rfl
      rw [e] at ht
      simp only [List.mem_cons, List.mem_singleton, List.not_mem_nil, or_false] at ht
      rcases ht with rfl | rfl
      · cases hx
      · cases hx with
        | array _ h1 =>
          cases h1 with
          | star h2 => cases h2

/-- C16: for every type expression, and every record, whose reachable local records
contain no cycle (they are finitely many and none reaches itself through fields, arrays,
maps or pointers) and that refers to no type of an external module, `getValueFixture` and
`GetStructFixture` terminate for every random source: from some recursion budget on they
return, a value, an error or a panic, from every state and for every import table, flag
and indentation. The precondition looks only at the records reachable from the one
synthesized. The proof is by well-founded induction along the declaration graph and,
within a record, on the type expression. The self-referential `Node` falls outside the
precondition. -/
theorem fixture_synthesis_terminates {σ : Type} (W : World) (R : RandSource σ) :
    (∀ e : Expr, NoCycleFrom W e →
      ∃ N, ∀ fuel, N ≤ fuel → ∀ (imps : Imports) (p : Bool) (ind : Int) (st : St σ),
        (getValueFixture W R fuel e imps p ind st).1 ≠ .diverge) ∧
    (∀ s : structType, (∀ f ∈ s.fields, NoCycleFrom W f.goType) →
      ∃ N, ∀ fuel, N ≤ fuel → ∀ (imps : Imports) (p : Bool) (ind : Int) (st : St σ),
        (GetStructFixture W R fuel s imps p ind st).1 ≠ .diverge) ∧
    ¬ NoCycleFrom selfWorld starNode := by
  refine ⟨fun e he => getValueFixture_returns W R e he, ?_, ?_⟩
  · intro s hs
    obtain ⟨N, hN⟩ := exists_common_bound
      (fun (g : structField) fuel => ∀ (imps : Imports) (p : Bool) (ind : Int),
        Returns (getValueFixture W R fuel g.goType imps p ind)) s.fields
      (fun g hg => getValueFixture_returns W R g.goType (hs g hg))
    exact ⟨N, fun fuel hf imps p ind st => structFixtureWith_returns s imps p ind
      (fun g hg => hN fuel hf g hg imps p (ind + 1)) st⟩
  · intro h
    have hr : Refers starNode 0 := .star (.object _ _)
    exact h.2.1 0 (.direct hr) (.single ⟨starNode, by simp [fieldTypesAt, selfWorld], hr⟩)

/-- The theorem `fixture_synthesis_terminates` at `Outer` in `mixedWorld`, whose fields
refer to `Inner` directly and through `[]*Inner`; the cyclic `Node` and the record `Stamp`
with a field of an external type are declared beside it and not reachable from it. -/
theorem fixture_synthesis_terminates_witness :
    ∃ N, ∀ fuel, N ≤ fuel → ∀ (imps : Imports) (p : Bool) (ind : Int) (st : St Nat),
      (getValueFixture mixedWorld (counterSource 1) fuel (.Ident "Outer" (some 1)) imps p ind
        st).1 ≠ .diverge :=
  (fixture_synthesis_terminates mixedWorld (counterSource 1)).1 (.Ident "Outer" (some 1))
    mixedWorld_outer

/-! ## From a returned text back to the run that produced it -/

section Inversion
variable {σ : Type}

theorem entriesOf_eq_map : ∀ (fs : List structField) (os : List (Option String)),
    entriesOf fs os = (fieldValues fs os).map (fun q => (q.1.name, q.2))
  | [], _ => by simp [entriesOf, fieldValues]
  | _ :: _, [] => by simp [entriesOf, fieldValues]
  | f :: fs, some v :: os => by simp [entriesOf, fieldValues, entriesOf_eq_map fs os]
  | f :: fs, none :: os => by simp [entriesOf, fieldValues, entriesOf_eq_map fs os]

theorem fieldsRun_mem {gv : Synth σ} {imps : Imports} {pointer : Bool} {ind : Int}
    {st st1 : St σ} {fs : List structField} {os : List (Option String)}
    (h : FieldsRun gv imps pointer ind st fs os st1) :
    ∀ q ∈ fieldValues fs os, q.1 ∈ fs ∧
      ∃ s s1, gv q.1.goType imps pointer (ind + 1) s = (.ok q.2, s1) := by
  induction h with
  | nil st => intro q hq; simp [fieldValues] at hq
  | ok hg _ ih =>
    intro q hq
    simp only [fieldValues, List.mem_cons] at hq
    rcases hq with rfl | hq
    · exact ⟨by simp, _, _, hg⟩
    · exact ⟨by simp [(ih q hq).1], (ih q hq).2⟩
  | skip _ _ ih =>
    intro q hq
    simp only [fieldValues] at hq
    exact ⟨by simp [(ih q hq).1], (ih q hq).2⟩

theorem synthRun_mem {g : St σ → Res String × St σ} {st st1 : St σ} {vs : List String}
    (h : SynthRun g st vs st1) : ∀ v ∈ vs, ∃ s s1, g s = (.ok v, s1) := by
  induction h with
  | nil st => intro v hv; simp at hv
  | cons hg _ ih =>
    intro v hv
    rcases List.mem_cons.1 hv with rfl | hv
    · exact ⟨_, _, hg⟩
    · exact ih v hv

theorem pairRun_mem {gk gv : St σ → Res String × St σ} {st st1 : St σ}
    {ps : List (String × String)} (h : PairRun gk gv st ps st1) :
    ∀ q ∈ ps, (∃ s s1, gk s = (.ok q.1, s1)) ∧ (∃ s s1, gv s = (.ok q.2, s1)) := by
  induction h with
  | nil st => intro q hq; simp at hq
  | cons hk hv _ ih =>
    intro q hq
    rcases List.mem_cons.1 hq with rfl | hq
    · exact ⟨⟨_, _, hk⟩, ⟨_, _, hv⟩⟩
    · exact ih q hq

theorem pairRun_snoc {gk gv : St σ → Res String × St σ} {st st1 : St σ}
    {ps : List (String × String)} (h : PairRun gk gv st ps st1) :
    ∀ {k v : String} {st2 st3 : St σ}, gk st1 = (.ok k, st2) → gv st2 = (.ok v, st3) →
      PairRun gk gv st (ps ++ [(k, v)]) st3 := by
  induction h with
  | nil st => intro k v st2 st3 hk hv; exact .cons hk hv (.nil _)
  | cons hk0 hv0 _ ih => intro k v st2 st3 hk hv; exact .cons hk0 hv0 (ih hk hv)

theorem structLoop_ok_inv {gv : Synth σ} (imps : Imports) (p : Bool) (ind : Int) :
    ∀ (fs : List structField) (acc : String) (st st1 : St σ) (out : String),
    structLoop gv imps p ind fs acc st = (.ok out, st1) →
    ∃ os, FieldsRun gv imps p ind st fs os st1
  | [], acc, st, st1, out, h => by
    simp only [structLoop, Prod.mk.injEq] at h
    exact ⟨[], h.2 ▸ .nil _⟩
  | f :: fs, acc, st, st1, out, h => by
    rcases hr : gv f.goType imps p (ind + 1) st with ⟨a, s⟩
    cases a with
    | ok v =>
      simp only [structLoop, hr] at h
      obtain ⟨os, hos⟩ := structLoop_ok_inv imps p ind fs _ _ _ _ h
      exact ⟨some v :: os, .ok hr hos⟩
    | err e =>
      simp only [structLoop, hr] at h
      obtain ⟨os, hos⟩ := structLoop_ok_inv imps p ind fs _ _ _ _ h
      exact ⟨none :: os, .skip hr hos⟩
    | panic e => simp [structLoop, hr] at h
    | diverge => simp [structLoop, hr] at h

theorem structFixtureWith_ok_inv {gv : Synth σ} {s : structType} {imps : Imports} {p : Bool}
    {ind : Int} {st st1 : St σ} {v : String}
    (h : structFixtureWith gv s imps p ind st = (.ok v, st1)) :
    ∃ os, FieldsRun gv imps p ind st s.fields os st1 ∧
      v = (if p then "&" else "") ++ structText s.name ind.toNat (entriesOf s.fields os) := by
  rcases hr : structLoop gv imps p ind s.fields
    (if p then "&" ++ s.name ++ "\x7b\n" else s.name ++ "\x7b\n") st with ⟨a, s1⟩
  cases a with
  | ok out =>
    obtain ⟨os, hos⟩ := structLoop_ok_inv imps p ind s.fields _ _ _ _ hr
    have h2 := structFixtureWith_of_run hos
    rw [h2] at h
    simp only [Prod.mk.injEq, Res.ok.injEq] at h
    exact ⟨os, h.2 ▸ hos, h.1.symm⟩
  | err e => simp [structFixtureWith, hr] at h
  | panic e => simp [structFixtureWith, hr] at h
  | diverge => simp [structFixtureWith, hr] at h

theorem arrayLoop_ok_inv {gv : Synth σ} (Elt : Expr) (imps : Imports) (p : Bool) (ind : Int) :
    ∀ (n : Nat) (acc : String) (st st1 : St σ) (out : String),
    arrayLoop gv Elt imps p ind n acc st = (.ok out, st1) →
    ∃ vs, SynthRun (gv Elt imps p ind) st vs st1 ∧ vs.length = n
  | 0, acc, st, st1, out, h => by
    simp only [arrayLoop, Prod.mk.injEq] at h
    exact ⟨[], h.2 ▸ .nil _, rfl⟩
  | n + 1, acc, st, st1, out, h => by
    rcases hr : gv Elt imps p ind st with ⟨a, s⟩
    cases a with
    | ok v =>
      simp only [arrayLoop, hr] at h
      obtain ⟨vs, hvs, hl⟩ := arrayLoop_ok_inv Elt imps p ind n _ _ _ _ h
      exact ⟨v :: vs, .cons hr hvs, by simp [hl]⟩
    | err e => simp [arrayLoop, hr] at h
    | panic e => simp [arrayLoop, hr] at h
    | diverge => simp [arrayLoop, hr] at h

theorem listCount_toNat (R : RandSource σ) (st : St σ) :
    (listCount (R.Uint32 st.rng).1 - 1).toNat + 1 = elemCount (R.Uint32 st.rng).1 := by
  have := elemCount_pos (R.Uint32 st.rng).1
  rw [listCount_eq _ (R.Uint32_lt _)]
  omega

theorem arrayFixtureWith_ok_inv (R : RandSource σ) {gv : Synth σ} {Len : Option String}
    {Elt : Expr} {imps : Imports} {p : Bool} {ind : Int} {st st1 : St σ} {v : String}
    (h : arrayFixtureWith R gv Len Elt imps p ind st = (.ok v, st1)) :
    ∃ tn vs, getTypeName (.ArrayType Len Elt) = .ok tn ∧
      SynthRun (gv Elt imps p ind) ⟨(R.Uint32 st.rng).2, st.stdout⟩ vs st1 ∧
      vs.length = elemCount (R.Uint32 st.rng).1 ∧ v = arrayText tn vs := by
  cases htn : getTypeName (.ArrayType Len Elt) with
  | ok tn =>
    rcases hr : arrayLoop gv Elt imps p ind (listCount (R.Uint32 st.rng).1 - 1).toNat
      (tn ++ "\x7b") ⟨(R.Uint32 st.rng).2, st.stdout⟩ with ⟨a, s1⟩
    cases a with
    | ok out =>
      obtain ⟨ws, hws, hl⟩ := arrayLoop_ok_inv Elt imps p ind _ _ _ _ _ hr
      rcases hr2 : gv Elt imps p ind s1 with ⟨b, s2⟩
      cases b with
      | ok w =>
        have hrun := synthRun_snoc hws hr2
        have hlen : (ws ++ [w]).length = elemCount (R.Uint32 st.rng).1 := by
          rw [List.length_append, hl]; exact listCount_toNat R st
        have h2 := arrayFixtureWith_of_run R htn hrun hlen
        rw [h2] at h
        simp only [Prod.mk.injEq, Res.ok.injEq] at h
        exact ⟨tn, ws ++ [w], rfl, h.2 ▸ hrun, hlen, h.1.symm⟩
      | err e => simp only [arrayFixtureWith, htn, hr, hr2] at h; simp at h
      | panic e => simp only [arrayFixtureWith, htn, hr, hr2] at h; simp at h
      | diverge => simp only [arrayFixtureWith, htn, hr, hr2] at h; simp at h
    | err e => simp only [arrayFixtureWith, htn, hr] at h; simp at h
    | panic e => simp only [arrayFixtureWith, htn, hr] at h; simp at h
    | diverge => simp only [arrayFixtureWith, htn, hr] at h; simp at h
  | err e => simp only [arrayFixtureWith, htn] at h; simp at h
  | panic e => simp only [arrayFixtureWith, htn] at h; simp at h
  | diverge => simp only [arrayFixtureWith, htn] at h; simp at h

theorem mapLoop_ok_inv {gv : Synth σ} (Key Value : Expr) (imps : Imports) (p : Bool)
    (ind : Int) : ∀ (n : Nat) (acc : String) (st st1 : St σ) (out : String),
    mapLoop gv Key Value imps p ind n acc st = (.ok out, st1) →
    ∃ ps, PairRun (gv Key imps p (ind + 1)) (gv Value imps p (ind + 1)) st ps st1 ∧
      ps.length = n
  | 0, acc, st, st1, out, h => by
    simp only [mapLoop, Prod.mk.injEq] at h
    exact ⟨[], h.2 ▸ .nil _, rfl⟩
  | n + 1, acc, st, st1, out, h => by
    rcases hr : gv Key imps p (ind + 1) st with ⟨a, s⟩
    cases a with
    | ok k =>
      rcases hr2 : gv Value imps p (ind + 1) s with ⟨b, s2⟩
      cases b with
      | ok v =>
        simp only [mapLoop, hr, hr2] at h
        obtain ⟨ps, hps, hl⟩ := mapLoop_ok_inv Key Value imps p ind n _ _ _ _ h
        exact ⟨(k, v) :: ps, .cons hr hr2 hps, by simp [hl]⟩
      | err e => simp [mapLoop, hr, hr2] at h
      | panic e => simp [mapLoop, hr, hr2] at h
      | diverge => simp [mapLoop, hr, hr2] at h
    | err e => simp [mapLoop, hr] at h
    | panic e => simp [mapLoop, hr] at h
    | diverge => simp [mapLoop, hr] at h

theorem mapFixtureWith_ok_inv (R : RandSource σ) {gv : Synth σ} {Key Value : Expr}
    {imps : Imports} {p : Bool} {ind : Int} {st st1 : St σ} {v : String}
    (h : mapFixtureWith R gv Key Value imps p ind st = (.ok v, st1)) :
    ∃ tn ps, getTypeName (.MapType Key Value) = .ok tn ∧
      PairRun (gv Key imps p (ind + 1)) (gv Value imps p (ind + 1))
        ⟨(R.Uint32 st.rng).2, st.stdout⟩ ps st1 ∧
      ps.length = elemCount (R.Uint32 st.rng).1 ∧ v = mapText tn ind.toNat ps := by
  cases htn : getTypeName (.MapType Key Value) with
  | ok tn =>
    rcases hr : mapLoop gv Key Value imps p ind (listCount (R.Uint32 st.rng).1 - 1).toNat
      (tn ++ "\x7b\n") ⟨(R.Uint32 st.rng).2, st.stdout⟩ with ⟨a, s1⟩
    cases a with
    | ok out =>
      obtain ⟨qs, hqs, hl⟩ := mapLoop_ok_inv Key Value imps p ind _ _ _ _ _ hr
      rcases hr2 : gv Key imps p (ind + 1) s1 with ⟨b, s2⟩
      cases b with
      | ok k =>
        rcases hr3 : gv Value imps p (ind + 1) s2 with ⟨c, s3⟩
        cases c with
        | ok w =>
          have hrun := pairRun_snoc hqs hr2 hr3
          have hlen : (qs ++ [(k, w)]).length = elemCount (R.Uint32 st.rng).1 := by
            rw [List.length_append, hl]; exact listCount_toNat R st
          have h2 := mapFixtureWith_of_run R htn hrun hlen
          rw [h2] at h
          simp only [Prod.mk.injEq, Res.ok.injEq] at h
          exact ⟨tn, qs ++ [(k, w)], rfl, h.2 ▸ hrun, hlen, h.1.symm⟩
        | err e => simp only [mapFixtureWith, htn, hr, hr2, hr3] at h; simp at h
        | panic e => simp only [mapFixtureWith, htn, hr, hr2, hr3] at h; simp at h
        | diverge => simp only [mapFixtureWith, htn, hr, hr2, hr3] at h; simp at h
      | err e => simp only [mapFixtureWith, htn, hr, hr2] at h; simp at h
      | panic e => simp only [mapFixtureWith, htn, hr, hr2] at h; simp at h
      | diverge => simp only [mapFixtureWith, htn, hr, hr2] at h; simp at h
    | err e => simp only [mapFixtureWith, htn, hr] at h; simp at h
    | panic e => simp only [mapFixtureWith, htn, hr] at h; simp at h
    | diverge => simp only [mapFixtureWith, htn, hr] at h; simp at h
  | err e => simp only [mapFixtureWith, htn] at h; simp at h
  | panic e => simp only [mapFixtureWith, htn] at h; simp at h
  | diverge => simp only [mapFixtureWith, htn] at h; simp at h

end Inversion

/-! ## The pointer flag along the recursion -/

theorem getValueFixture_emits {σ : Type} (W : World) (R : RandSource σ) :
    ∀ (fuel : Nat) (e : Expr) (imps : Imports) (p : Bool) (ind : Int) (st st1 : St σ)
      (v : String),
    getValueFixture W R fuel e imps p ind st = (.ok v, st1) → Emits W p e v
  | 0, e, imps, p, ind, st, st1, v, h => by simp [getValueFixture] at h
  | fuel + 1, e, imps, p, ind, st, st1, v, h => by
    have IH := getValueFixture_emits W R fuel
    cases e with
    | Ident n Obj =>
      cases Obj with
      | none => exact .scalar _ _ _
      | some a =>
        simp only [getValueFixture] at h
        cases hobj : W.objects a with
        | other => simp [structFieldFixtureWith, hobj] at h
        | typeSpec spec =>
          cases hts : typeSpecToStructType spec with
          | ok s =>
            simp only [structFieldFixtureWith, hobj, hts] at h
            obtain ⟨os, hrun, hv⟩ := structFixtureWith_ok_inv h
            rw [hv]
            refine .record p n a spec s _ os hobj hts (fun q hq => ?_)
            obtain ⟨_, s0, s1, hq2⟩ := fieldsRun_mem hrun q hq
            exact IH _ _ _ _ _ _ _ hq2
          | err m => simp [structFieldFixtureWith, hobj, hts] at h
          | panic m => simp [structFieldFixtureWith, hobj, hts] at h
          | diverge => simp [structFieldFixtureWith, hobj, hts] at h
    | ArrayType l elt =>
      simp only [getValueFixture] at h
      obtain ⟨tn, vs, _, hrun, _, hv⟩ := arrayFixtureWith_ok_inv R h
      rw [hv]
      refine .array p l elt tn vs (fun w hw => ?_)
      obtain ⟨s0, s1, hw2⟩ := synthRun_mem hrun w hw
      exact IH _ _ _ _ _ _ _ hw2
    | MapType k w =>
      simp only [getValueFixture] at h
      obtain ⟨tn, ps, _, hrun, _, hv⟩ := mapFixtureWith_ok_inv R h
      rw [hv]
      refine .map p k w tn _ ps (fun q hq => ?_) (fun q hq => ?_)
      · obtain ⟨⟨s0, s1, hq2⟩, _⟩ := pairRun_mem hrun q hq
        exact IH _ _ _ _ _ _ _ hq2
      · obtain ⟨_, ⟨s0, s1, hq2⟩⟩ := pairRun_mem hrun q hq
        exact IH _ _ _ _ _ _ _ hq2
    | SelectorExpr X Sel =>
      simp only [getValueFixture] at h
      cases X with
      | Ident Name Obj =>
        cases hs : GetStruct W (getPackagePath W (mapGet imps Name)) Sel with
        | ok s =>
          cases hi : GetImports W (getPackagePath W (mapGet imps Name)) with
          | ok newImports =>
            simp only [externalStructFieldFixtureWith, hs, hi] at h
            obtain ⟨os, hrun, hv⟩ := structFixtureWith_ok_inv h
            rw [hv]
            refine .external p _ Sel _ s _ os hs (fun q hq => ?_)
            obtain ⟨_, s0, s1, hq2⟩ := fieldsRun_mem hrun q hq
            exact IH _ _ _ _ _ _ _ hq2
          | err m => simp [externalStructFieldFixtureWith, hs, hi] at h
          | panic m => simp [externalStructFieldFixtureWith, hs, hi] at h
          | diverge => simp [externalStructFieldFixtureWith, hs, hi] at h
        | err m => simp [externalStructFieldFixtureWith, hs] at h
        | panic m => simp [externalStructFieldFixtureWith, hs] at h
        | diverge => simp [externalStructFieldFixtureWith, hs] at h
      | _ => simp [externalStructFieldFixtureWith] at h
    | StarExpr x =>
      simp only [getValueFixture] at h
      exact .star p x v (IH _ _ _ _ _ _ _ h)
    | _ => simp [getValueFixture] at h

/-- C18: a pointer type expression sets the flag for the call beneath it whatever it was
(first part); every value returned by `getValueFixture` under the flag `p` is built as
`Emits` describes: the flag is handed down unchanged to the fields of a record, the
elements of an array and the keys and values of a map, is true beneath a pointer type and
is never reset, and a record literal has the prefix `&` exactly when the flag is true at
it (second part); so in the text of `GetStructFixture` called with `pointer = false` a
record literal lacks the prefix exactly when no pointer type lies on the path to it (third
part). For `*Outer` the field `In Inner`, not itself a pointer, is emitted as `&Inner`. -/
theorem pointer_flag_monotone {σ : Type} (W : World) (R : RandSource σ) :
    (∀ (fuel : Nat) (x : Expr) (imps : Imports) (p : Bool) (ind : Int) (st : St σ),
      getValueFixture W R (fuel + 1) (.StarExpr x) imps p ind st =
        getValueFixture W R fuel x imps true ind st) ∧
    (∀ (fuel : Nat) (e : Expr) (imps : Imports) (p : Bool) (ind : Int) (st st1 : St σ)
        (v : String),
      getValueFixture W R fuel e imps p ind st = (.ok v, st1) → Emits W p e v) ∧
    (∀ (fuel : Nat) (s : structType) (imps : Imports) (p : Bool) (ind : Int)
        (st st1 : St σ) (text : String),
      GetStructFixture W R fuel s imps p ind st = (.ok text, st1) →
      ∃ os, text = (if p then "&" else "") ++
          structText s.name ind.toNat (entriesOf s.fields os) ∧
        ∀ q ∈ fieldValues s.fields os, Emits W p q.1.goType q.2) ∧
    (getValueFixture nestWorld (counterSource 1) 6 (.StarExpr (.Ident "Outer" (some 1))) []
      false 1 ⟨1, []⟩).1 =
      .ok ("&Outer\x7b\n\tIn: &Inner\x7b\n\t\tA: 1,\n\t\x7d,\n\tPs: []*Inner\x7b&Inner\x7b" ++
        "\n\t\tA: 3,\n\t\x7d, &Inner\x7b\n\t\tA: 4,\n\t\x7d\x7d,\n\x7d") := by
  refine ⟨fun _ _ _ _ _ _ => rfl, getValueFixture_emits W R, ?_, by decide⟩
  intro fuel s imps p ind st st1 text h
  obtain ⟨os, hrun, hv⟩ := structFixtureWith_ok_inv h
  refine ⟨os, hv, fun q hq => ?_⟩
  obtain ⟨_, s0, s1, hq2⟩ := fieldsRun_mem hrun q hq
  exact getValueFixture_emits W R _ _ _ _ _ _ _ _ hq2

/-- The theorem `pointer_flag_monotone` at `*Outer` called with `pointer = false`: the
returned text is built with the flag true beneath the pointer. -/
theorem pointer_flag_monotone_witness :
    Emits nestWorld false (.StarExpr (.Ident "Outer" (some 1)))
      ("&Outer\x7b\n\tIn: &Inner\x7b\n\t\tA: 1,\n\t\x7d,\n\tPs: []*Inner\x7b&Inner\x7b" ++
        "\n\t\tA: 3,\n\t\x7d, &Inner\x7b\n\t\tA: 4,\n\t\x7d\x7d,\n\x7d") :=
  (pointer_flag_monotone nestWorld (counterSource 1)).2.1 6
    (.StarExpr (.Ident "Outer" (some 1))) [] false 1 ⟨1, []⟩ ⟨5, []⟩ _ rfl

/-! ## The pointer flag changes the markers only -/

section Marks
variable {σ : Type}

theorem ampRel_ok_ok {a b : String} {s1 s2 : St σ}
    (h : AmpRel ((.ok a, s1) : Res String × St σ) (.ok b, s2)) : s1 = s2 := h.1

theorem ampRel_ok_err {a e : String} {s1 s2 : St σ}
    (h : AmpRel ((.ok a, s1) : Res String × St σ) (.err e, s2)) : False := h.2

theorem ampRel_err_ok {a e : String} {s1 s2 : St σ}
    (h : AmpRel ((.err e, s1) : Res String × St σ) (.ok a, s2)) : False := h.2

theorem ampRel_err_err {e1 e2 : String} {s1 s2 : St σ}
    (h : AmpRel ((.err e1, s1) : Res String × St σ) (.err e2, s2)) : s1 = s2 ∧ e1 = e2 :=
  ⟨h.1, h.2⟩

/-- Two passes over the fields of a struct from the same state, with the flag false and
true, skip the same fields and return values related in turn. -/
theorem fieldsRun_lockstep (W : World) {gv : Synth σ} (H : FlagInsensitive gv false true)
    (IH : ∀ (e : Expr) (imps : Imports) (ind : Int) (st s1 s2 : St σ) (a b : String),
      gv e imps false ind st = (.ok a, s1) → gv e imps true ind st = (.ok b, s2) →
      OnlyMarks W e a b)
    {imps : Imports} {ind : Int} {st st1 : St σ} {fs : List structField}
    {os1 : List (Option String)} (h1 : FieldsRun gv imps false ind st fs os1 st1) :
    ∀ {os2 : List (Option String)} {st2 : St σ}, FieldsRun gv imps true ind st fs os2 st2 →
    ∃ ops : List (Option (String × String)), os1 = ops.map (Option.map Prod.fst) ∧
      os2 = ops.map (Option.map Prod.snd) ∧
      ∀ q ∈ fieldPairs fs ops, OnlyMarks W q.1.goType q.2.1 q.2.2 := by
  induction h1 with
  | nil st =>
    intro os2 st2 h2
    cases h2
    exact ⟨[], rfl, rfl, fun q hq => by simp [fieldPairs] at hq⟩
  | @ok st sa sb f fs v os hg hrest ih =>
    intro os2 st2 h2
    cases h2 with
    | @ok _ sc _ _ _ v2 os3 hg2 hrest2 =>
      have hrel := H f.goType imps (ind + 1) st
      rw [hg, hg2] at hrel
      have hs : sa = sc := ampRel_ok_ok hrel
      subst hs
      obtain ⟨ops, e1, e2, hall⟩ := ih hrest2
      refine ⟨some (v, v2) :: ops, by simp [e1], by simp [e2], fun q hq => ?_⟩
      simp only [fieldPairs, List.mem_cons] at hq
      rcases hq with rfl | hq
      · exact IH _ _ _ _ _ _ _ _ hg hg2
      · exact hall q hq
    | @skip _ sc _ _ _ e2 os3 hg2 hrest2 =>
      have hrel := H f.goType imps (ind + 1) st
      rw [hg, hg2] at hrel
      exact (ampRel_ok_err hrel).elim
  | @skip st sa sb f fs e os hg hrest ih =>
    intro os2 st2 h2
    cases h2 with
    | @ok _ sc _ _ _ v2 os3 hg2 hrest2 =>
      have hrel := H f.goType imps (ind + 1) st
      rw [hg, hg2] at hrel
      exact (ampRel_err_ok hrel).elim
    | @skip _ sc _ _ _ e2 os3 hg2 hrest2 =>
      have hrel := H f.goType imps (ind + 1) st
      rw [hg, hg2] at hrel
      obtain ⟨hs, he⟩ := ampRel_err_err hrel
      subst hs
      subst he
      obtain ⟨ops, e1, e2, hall⟩ := ih hrest2
      exact ⟨none :: ops, by simp [e1], by simp [e2], fun q hq => by
        simp only [fieldPairs] at hq
        exact hall q hq⟩

/-- Two runs of as many element syntheses from the same state, with the flag false and
true, return values related in turn. -/
theorem synthRun_lockstep {g1 g2 : St σ → Res String × St σ} {P : String → String → Prop}
    (H : ∀ st, AmpRel (g1 st) (g2 st))
    (IH : ∀ (st s1 s2 : St σ) (a b : String), g1 st = (.ok a, s1) → g2 st = (.ok b, s2) →
      P a b)
    {st st1 : St σ} {vs1 : List String} (h1 : SynthRun g1 st vs1 st1) :
    ∀ {vs2 : List String} {st2 : St σ}, SynthRun g2 st vs2 st2 → vs1.length = vs2.length →
    ∃ vs : List (String × String), vs1 = vs.map Prod.fst ∧ vs2 = vs.map Prod.snd ∧
      ∀ v ∈ vs, P v.1 v.2 := by
  induction h1 with
  | nil st =>
    intro vs2 st2 h2 hl
    cases h2 with
    | nil => exact ⟨[], rfl, rfl, fun v hv => by simp at hv⟩
    | cons _ _ => simp at hl
  | @cons st sa sb v vs hg hrest ih =>
    intro vs2 st2 h2 hl
    cases h2 with
    | nil => simp at hl
    | @cons _ sc _ v2 vs3 hg2 hrest2 =>
      have hrel := H st
      rw [hg, hg2] at hrel
      have hs : sa = sc := ampRel_ok_ok hrel
      subst hs
      obtain ⟨ws, e1, e2, hall⟩ := ih hrest2 (by simpa using hl)
      refine ⟨(v, v2) :: ws, by simp [e1], by simp [e2], fun q hq => ?_⟩
      rcases List.mem_cons.1 hq with rfl | hq
      · exact IH _ _ _ _ _ hg hg2
      · exact hall q hq

/-- Two runs of as many key and value syntheses from the same state, with the flag false
and true, return keys and values related in turn. -/
theorem pairRun_lockstep {k1 k2 v1 v2 : St σ → Res String × St σ}
    {P Q : String → String → Prop}
    (Hk : ∀ st, AmpRel (k1 st) (k2 st)) (Hv : ∀ st, AmpRel (v1 st) (v2 st))
    (IHk : ∀ (st s1 s2 : St σ) (a b : String), k1 st = (.ok a, s1) → k2 st = (.ok b, s2) →
      P a b)
    (IHv : ∀ (st s1 s2 : St σ) (a b : String), v1 st = (.ok a, s1) → v2 st = (.ok b, s2) →
      Q a b)
    {st st1 : St σ} {ps1 : List (String × String)} (h1 : PairRun k1 v1 st ps1 st1) :
    ∀ {ps2 : List (String × String)} {st2 : St σ}, PairRun k2 v2 st ps2 st2 →
    ps1.length = ps2.length →
    ∃ ps : List ((String × String) × (String × String)), ps1 = ps.map Prod.fst ∧
      ps2 = ps.map Prod.snd ∧ (∀ q ∈ ps, P q.1.1 q.2.1) ∧ (∀ q ∈ ps, Q q.1.2 q.2.2) := by
  induction h1 with
  | nil st =>
    intro ps2 st2 h2 hl
    cases h2 with
    | nil => exact ⟨[], rfl, rfl, fun v hv => by simp at hv, fun v hv => by simp at hv⟩
    | cons _ _ _ => simp at hl
  | @cons st sa sb sc k v ps hk hv hrest ih =>
    intro ps2 st2 h2 hl
    cases h2 with
    | nil => simp at hl
    | @cons _ sd se _ k2 w2 ps3 hk2 hv2 hrest2 =>
      have hrel := Hk st
      rw [hk, hk2] at hrel
      have hs : sa = sd := ampRel_ok_ok hrel
      subst hs
      have hrel2 := Hv sa
      rw [hv, hv2] at hrel2
      have hs2 : sb = se := ampRel_ok_ok hrel2
      subst hs2
      obtain ⟨ws, e1, e2, hallk, hallv⟩ := ih hrest2 (by simpa using hl)
      refine ⟨((k, v), (k2, w2)) :: ws, by simp [e1], by simp [e2], fun q hq => ?_,
        fun q hq => ?_⟩
      · rcases List.mem_cons.1 hq with rfl | hq
        · exact IHk _ _ _ _ _ hk hk2
        · exact hallk q hq
      · rcases List.mem_cons.1 hq with rfl | hq
        · exact IHv _ _ _ _ _ hv hv2
        · exact hallv q hq

theorem structFixtureWith_onlyMarks (W : World) {gv : Synth σ}
    (H : FlagInsensitive gv false true)
    (IH : ∀ (e : Expr) (imps : Imports) (ind : Int) (st s1 s2 : St σ) (a b : String),
      gv e imps false ind st = (.ok a, s1) → gv e imps true ind st = (.ok b, s2) →
      OnlyMarks W e a b)
    {s : structType} {imps : Imports} {ind : Int} {st s1 s2 : St σ} {a b : String}
    (h1 : structFixtureWith gv s imps false ind st = (.ok a, s1))
    (h2 : structFixtureWith gv s imps true ind st = (.ok b, s2)) :
    ∃ ops : List (Option (String × String)),
      a = structText s.name ind.toNat (entriesOf s.fields (ops.map (Option.map Prod.fst))) ∧
      b = "&" ++
        structText s.name ind.toNat (entriesOf s.fields (ops.map (Option.map Prod.snd))) ∧
      ∀ q ∈ fieldPairs s.fields ops, OnlyMarks W q.1.goType q.2.1 q.2.2 := by
  obtain ⟨os1, hrun1, hv1⟩ := structFixtureWith_ok_inv h1
  obtain ⟨os2, hrun2, hv2⟩ := structFixtureWith_ok_inv h2
  obtain ⟨ops, e1, e2, hall⟩ := fieldsRun_lockstep W H IH hrun1 hrun2
  refine ⟨ops, ?_, ?_, hall⟩
  · rw [hv1, e1]; simp
  · rw [hv2, e2]; simp

/-- The values `getValueFixture` returns with the flag false and with the flag true, from
the same state, differ only in the markers before record literals. -/
theorem getValueFixture_onlyMarks (W : World) (R : RandSource σ) :
    ∀ (fuel : Nat) (e : Expr) (imps : Imports) (ind : Int) (st s1 s2 : St σ) (a b : String),
    getValueFixture W R fuel e imps false ind st = (.ok a, s1) →
    getValueFixture W R fuel e imps true ind st = (.ok b, s2) → OnlyMarks W e a b
  | 0, e, imps, ind, st, s1, s2, a, b, h1, _ => by simp [getValueFixture] at h1
  | fuel + 1, e, imps, ind, st, s1, s2, a, b, h1, h2 => by
    have IH := getValueFixture_onlyMarks W R fuel
    have H := getValueFixture_flagInsensitive W R fuel false true
    cases e with
    | Ident n Obj =>
      cases Obj with
      | none =>
        simp only [getValueFixture] at h1 h2
        rw [h1] at h2
        simp only [Prod.mk.injEq, Res.ok.injEq] at h2
        rw [h2.1]
        exact .same _ _
      | some o =>
        simp only [getValueFixture] at h1 h2
        cases hobj : W.objects o with
        | other => simp [structFieldFixtureWith, hobj] at h1
        | typeSpec spec =>
          cases hts : typeSpecToStructType spec with
          | ok s =>
            simp only [structFieldFixtureWith, hobj, hts] at h1 h2
            obtain ⟨ops, e1, e2, hall⟩ := structFixtureWith_onlyMarks W H IH h1 h2
            rw [e1, e2]
            exact .record n o spec s _ ops hobj hts hall
          | err m => simp [structFieldFixtureWith, hobj, hts] at h1
          | panic m => simp [structFieldFixtureWith, hobj, hts] at h1
          | diverge => simp [structFieldFixtureWith, hobj, hts] at h1
    | ArrayType l elt =>
      simp only [getValueFixture] at h1 h2
      obtain ⟨tn1, vs1, htn1, hrun1, hl1, hv1⟩ := arrayFixtureWith_ok_inv R h1
      obtain ⟨tn2, vs2, htn2, hrun2, hl2, hv2⟩ := arrayFixtureWith_ok_inv R h2
      rw [htn1] at htn2
      simp only [Res.ok.injEq] at htn2
      subst htn2
      obtain ⟨vs, e1, e2, hall⟩ := synthRun_lockstep (fun st => H elt imps ind st)
        (fun st s1 s2 a b => IH elt imps ind st s1 s2 a b) hrun1 hrun2 (by rw [hl1, hl2])
      rw [hv1, hv2, e1, e2]
      exact .array l elt tn1 vs hall
    | MapType k w =>
      simp only [getValueFixture] at h1 h2
      obtain ⟨tn1, ps1, htn1, hrun1, hl1, hv1⟩ := mapFixtureWith_ok_inv R h1
      obtain ⟨tn2, ps2, htn2, hrun2, hl2, hv2⟩ := mapFixtureWith_ok_inv R h2
      rw [htn1] at htn2
      simp only [Res.ok.injEq] at htn2
      subst htn2
      obtain ⟨ps, e1, e2, hallk, hallv⟩ := pairRun_lockstep
        (fun st => H k imps (ind + 1) st) (fun st => H w imps (ind + 1) st)
        (fun st s1 s2 a b => IH k imps (ind + 1) st s1 s2 a b)
        (fun st s1 s2 a b => IH w imps (ind + 1) st s1 s2 a b) hrun1 hrun2 (by rw [hl1, hl2])
      rw [hv1, hv2, e1, e2]
      exact .map k w tn1 _ ps hallk hallv
    | SelectorExpr X Sel =>
      simp only [getValueFixture] at h1 h2
      cases X with
      | Ident Name Obj =>
        cases hs : GetStruct W (getPackagePath W (mapGet imps Name)) Sel with
        | ok s =>
          cases hi : GetImports W (getPackagePath W (mapGet imps Name)) with
          | ok newImports =>
            simp only [externalStructFieldFixtureWith, hs, hi] at h1 h2
            obtain ⟨ops, e1, e2, hall⟩ := structFixtureWith_onlyMarks W H IH h1 h2
            rw [e1, e2]
            exact .external _ Sel _ s _ ops hs hall
          | err m => simp [externalStructFieldFixtureWith, hs, hi] at h1
          | panic m => simp [externalStructFieldFixtureWith, hs, hi] at h1
          | diverge => simp [externalStructFieldFixtureWith, hs, hi] at h1
        | err m => simp [externalStructFieldFixtureWith, hs] at h1
        | panic m => simp [externalStructFieldFixtureWith, hs] at h1
        | diverge => simp [externalStructFieldFixtureWith, hs] at h1
      | _ => simp [externalStructFieldFixtureWith] at h1
    | StarExpr x =>
      simp only [getValueFixture] at h1 h2
      rw [h1] at h2
      simp only [Prod.mk.injEq, Res.ok.injEq] at h2
      rw [h2.1]
      exact .same _ _
    | _ => simp [getValueFixture] at h1

end Marks

/-- C13: for every type expression, import table, indentation and state of the random
source, `getValueFixture` with `pointer = false` and with `pointer = true` leave the same
state and either both return a value, or both return the same error, or both panic alike,
or neither returns. When both return a value, the value `b` under the flag true is the
value `a` under the flag false with the marker `&` put before record literals and nothing
else changed (`OnlyMarks`: same record names, same field names, same type names of arrays
and maps, as many entries and elements, the same scalar leaves, and no marker before an
array, a map or a scalar), and the two are equal once the markers are deleted. -/
theorem getValueFixture_pointer_flag_only_marks_records {σ : Type} (W : World)
    (R : RandSource σ) (fuel : Nat) (e : Expr) (imps : Imports) (ind : Int) (st : St σ) :
    (getValueFixture W R fuel e imps false ind st).2 =
      (getValueFixture W R fuel e imps true ind st).2 ∧
    ((∃ a b, (getValueFixture W R fuel e imps false ind st).1 = .ok a ∧
        (getValueFixture W R fuel e imps true ind st).1 = .ok b ∧
        OnlyMarks W e a b ∧ eraseAmp a = eraseAmp b) ∨
      ((∀ a, (getValueFixture W R fuel e imps false ind st).1 ≠ .ok a) ∧
        (getValueFixture W R fuel e imps false ind st).1 =
          (getValueFixture W R fuel e imps true ind st).1)) := by
  rcases ampRel_cases (getValueFixture_flagInsensitive W R fuel false true e imps ind st) with
    ⟨a, b, s, h1, h2, hab⟩ | ⟨e, s, h1, h2⟩ | ⟨e, s, h1, h2⟩ | ⟨s, h1, h2⟩
  · exact ⟨by rw [h1, h2], .inl ⟨a, b, by rw [h1], by rw [h2],
      getValueFixture_onlyMarks W R fuel _ imps ind st s s a b h1 h2, hab⟩⟩
  · exact ⟨by rw [h1, h2], .inr ⟨by rw [h1]; simp, by rw [h1, h2]⟩⟩
  · exact ⟨by rw [h1, h2], .inr ⟨by rw [h1]; simp, by rw [h1, h2]⟩⟩
  · exact ⟨by rw [h1, h2], .inr ⟨by rw [h1]; simp, by rw [h1, h2]⟩⟩

/-! ## Braces -/

theorem braceScan_append : ∀ (a b : List Char) (d : Nat),
    braceScan (a ++ b) d = (braceScan a d).bind (braceScan b)
  | [], b, d => rfl
  | c :: a, b, d => by
    simp only [List.cons_append, braceScan]
    split_ifs
    · exact braceScan_append a b _
    · cases d with
      | zero => rfl
      | succ k => exact braceScan_append a b _
    · exact braceScan_append a b _

theorem braceScan_noBrace : ∀ (a : List Char) (d : Nat), lbrace ∉ a → rbrace ∉ a →
    braceScan a d = some d
  | [], d, _, _ => rfl
  | c :: a, d, h1, h2 => by
    have c1 : c ≠ lbrace := fun h => h1 (by simp [h])
    have c2 : c ≠ rbrace := fun h => h2 (by simp [h])
    simp only [braceScan, c1, c2, if_false]
    exact braceScan_noBrace a d (fun h => h1 (by simp [h])) (fun h => h2 (by simp [h]))

theorem level_of_noBrace {s : String} (h : NoBrace s) : Level s :=
  fun d => braceScan_noBrace s.data d h.1 h.2

theorem level_append {a b : String} (ha : Level a) (hb : Level b) : Level (a ++ b) := by
  intro d
  rw [String.data_append, braceScan_append, ha d]
  exact hb d

theorem level_braces {a : String} (ha : Level a) : Level ("\x7b" ++ a ++ "\x7d") := by
  intro d
  have e1 : ("\x7b" ++ a ++ "\x7d").data = lbrace :: (a.data ++ [rbrace]) := rfl
  rw [e1]
  have : braceScan (lbrace :: (a.data ++ [rbrace])) d =
      braceScan (a.data ++ [rbrace]) (d + 1) := by simp [braceScan]
  rw [this, braceScan_append, ha (d + 1)]
  have c1 : rbrace ≠ lbrace := by decide
  simp [braceScan, c1]

theorem level_concatAll : ∀ l : List String, (∀ x ∈ l, Level x) → Level (concatAll l)
  | [], _ => fun d => rfl
  | x :: l, h => by
    simp only [concatAll]
    exact level_append (h x (by simp)) (level_concatAll l (fun y hy => h y (by simp [hy])))

theorem noBrace_append {a b : String} (ha : NoBrace a) (hb : NoBrace b) : NoBrace (a ++ b) := by
  constructor <;> simp only [String.data_append, List.mem_append, not_or]
  · exact ⟨ha.1, hb.1⟩
  · exact ⟨ha.2, hb.2⟩

theorem noBrace_tabs (k : Nat) : NoBrace (tabs k) := by
  constructor <;> simp only [tabs] <;> intro h <;>
    exact absurd (List.eq_of_mem_replicate h) (by decide)

theorem digitChar_noBrace (k : Nat) (hk : k < 10) :
    Nat.digitChar k ≠ lbrace ∧ Nat.digitChar k ≠ rbrace := by
  interval_cases k <;> decide

theorem toDigitsCore_noBrace : ∀ (fuel n : Nat) (ds : List Char),
    lbrace ∉ ds → rbrace ∉ ds →
    lbrace ∉ Nat.toDigitsCore 10 fuel n ds ∧ rbrace ∉ Nat.toDigitsCore 10 fuel n ds
  | 0, n, ds, h1, h2 => by simp [Nat.toDigitsCore, h1, h2]
  | fuel + 1, n, ds, h1, h2 => by
    have hd := digitChar_noBrace (n % 10) (Nat.mod_lt _ (by decide))
    have g1 : lbrace ∉ Nat.digitChar (n % 10) :: ds := by
      intro h; rcases List.mem_cons.1 h with h | h
      · exact hd.1 h.symm
      · exact h1 h
    have g2 : rbrace ∉ Nat.digitChar (n % 10) :: ds := by
      intro h; rcases List.mem_cons.1 h with h | h
      · exact hd.2 h.symm
      · exact h2 h
    simp only [Nat.toDigitsCore]
    split_ifs
    · exact ⟨g1, g2⟩
    · exact toDigitsCore_noBrace fuel _ _ g1 g2

theorem noBrace_natRepr (n : Nat) : NoBrace (toString n) := by
  have := toDigitsCore_noBrace (n + 1) n [] (by simp) (by simp)
  exact this

theorem noBrace_intRepr (z : Int) : NoBrace (toString z) := by
  cases z with
  | ofNat n => exact noBrace_natRepr n
  | negSucc n =>
    have h : toString (Int.negSucc n) = "-" ++ toString (n + 1) := rfl
    rw [h]
    exact noBrace_append (by constructor <;> decide) (noBrace_natRepr _)

/-! ## The returned text is a literal -/

section Literal
variable {σ : Type}

theorem fieldsLoop_ok_names : ∀ (fs : List Field) (acc res : List structField),
    fieldsLoop fs acc = .ok res →
    ∀ g ∈ res, g ∈ acc ∨ ∃ f ∈ fs, g.goType = f.Typ ∧ g.name ∈ f.Names
  | [], acc, res, h, g, hg => by
    simp only [fieldsLoop, Res.ok.injEq] at h
    subst h
    exact .inl hg
  | f :: fs, acc, res, h, g, hg => by
    cases hn : f.Names with
    | nil => simp [fieldsLoop, hn] at h
    | cons n0 ns =>
      simp only [fieldsLoop, hn] at h
      rcases fieldsLoop_ok_names fs _ res h g hg with h1 | ⟨f1, hf1, h2⟩
      · rcases List.mem_append.1 h1 with h1 | h1
        · exact .inl h1
        · rw [List.mem_singleton] at h1
          exact .inr ⟨f, by simp, by rw [h1], by rw [h1, hn]; simp⟩
      · exact .inr ⟨f1, by simp [hf1], h2⟩

theorem typeSpecToStructType_structOK {N : String → Prop} (spec : TypeSpec) (s : structType)
    (hspec : SpecOK N spec) (h : typeSpecToStructType spec = .ok s) : StructOK N s := by
  unfold typeSpecToStructType at h
  split at h
  · rename_i fl heq
    cases hf : fieldsLoop fl [] with
    | ok res =>
      rw [hf] at h
      simp only [Res.ok.injEq] at h
      subst h
      refine ⟨hspec.1, fun g hg => ?_⟩
      rcases fieldsLoop_ok_names fl [] res hf g hg with h1 | ⟨f, hfm, h2, h3⟩
      · simp at h1
      · have := hspec.2 fl heq f hfm
        exact ⟨this.1 _ h3, h2 ▸ this.2⟩
    | err e => rw [hf] at h; simp at h
    | panic e => rw [hf] at h; simp at h
    | diverge => rw [hf] at h; simp at h
  · simp at h

theorem declsLoop_ok_inv (name : String) : ∀ (decls : List Decl) (s : structType),
    declsLoop name decls = some (.ok s) →
    ∃ (tok : Token) (specs : List Spec) (spec : TypeSpec),
      Decl.GenDecl tok specs ∈ decls ∧ Spec.typeSpec spec ∈ specs ∧
        typeSpecToStructType spec = .ok s
  | [], s, h => by simp [declsLoop] at h
  | d :: decls, s, h => by
    have lift : (∃ (tok : Token) (specs : List Spec) (spec : TypeSpec),
        Decl.GenDecl tok specs ∈ decls ∧ Spec.typeSpec spec ∈ specs ∧
          typeSpecToStructType spec = .ok s) →
        ∃ (tok : Token) (specs : List Spec) (spec : TypeSpec),
          Decl.GenDecl tok specs ∈ d :: decls ∧ Spec.typeSpec spec ∈ specs ∧
            typeSpecToStructType spec = .ok s := by
      rintro ⟨tok, specs, spec, h1, h2, h3⟩
      exact ⟨tok, specs, spec, by simp [h1], h2, h3⟩
    unfold declsLoop at h
    split at h
    · rename_i Tok Specs
      split_ifs at h with ht
      · exact lift (declsLoop_ok_inv name decls s h)
      · split at h
        · simp at h
        · rename_i spec rest
          split at h
          · split_ifs at h with hn
            · exact lift (declsLoop_ok_inv name decls s h)
            · exact ⟨Tok, Spec.typeSpec spec :: rest, spec, List.mem_cons_self _ _,
                List.mem_cons_self _ _, Option.some.inj h⟩
          · exact lift (declsLoop_ok_inv name decls s h)
        · simp at h
    · exact lift (declsLoop_ok_inv name decls s h)

theorem filesLoop_ok_inv (name : String) : ∀ (files : List File) (s : structType),
    filesLoop name files = some (.ok s) →
    ∃ file ∈ files, declsLoop name file.Decls = some (.ok s)
  | [], s, h => by simp [filesLoop] at h
  | f :: files, s, h => by
    unfold filesLoop at h
    split at h
    · rename_i r hr
      exact ⟨f, by simp, by rw [hr, Option.some.inj h]⟩
    · obtain ⟨file, hf, hd⟩ := filesLoop_ok_inv name files s h
      exact ⟨file, by simp [hf], hd⟩

theorem packagesLoop_ok_inv (name : String) : ∀ (pkgs : List Package) (s : structType),
    packagesLoop name pkgs = some (.ok s) →
    ∃ pkg ∈ pkgs, filesLoop name pkg.Files = some (.ok s)
  | [], s, h => by simp [packagesLoop] at h
  | p :: pkgs, s, h => by
    unfold packagesLoop at h
    split at h
    · rename_i r hr
      exact ⟨p, by simp, by rw [hr, Option.some.inj h]⟩
    · obtain ⟨pkg, hp, hd⟩ := packagesLoop_ok_inv name pkgs s h
      exact ⟨pkg, by simp [hp], hd⟩

theorem GetStruct_structOK {N : String → Prop} (W : World) (hW : WorldOK N W)
    (dir name : String) (s : structType) (h : GetStruct W dir name = .ok s) :
    StructOK N s := by
  unfold GetStruct at h
  cases hp : W.parseDir dir with
  | error e => rw [hp] at h; simp at h
  | ok pkgs =>
    rw [hp] at h
    simp only at h
    cases hl : packagesLoop name pkgs with
    | none => rw [hl] at h; simp at h
    | some r =>
      rw [hl] at h
      simp only at h
      subst h
      obtain ⟨pkg, hpkg, hf⟩ := packagesLoop_ok_inv name pkgs s hl
      obtain ⟨file, hfile, hd⟩ := filesLoop_ok_inv name pkg.Files s hf
      obtain ⟨tok, specs, spec, h1, h2, h3⟩ := declsLoop_ok_inv name file.Decls s hd
      exact typeSpecToStructType_structOK spec s
        (hW.2 dir pkgs hp pkg hpkg file hfile tok specs h1 spec h2) h3

theorem level_mapEntries (i : Nat) : ∀ ps : List (String × String),
    (∀ q ∈ ps, Level q.1) → (∀ q ∈ ps, Level q.2) → Level (mapEntries i ps)
  | [], _, _ => fun d => rfl
  | [q], h1, h2 => by
    simp only [mapEntries]
    exact level_append (level_append (level_append (level_of_noBrace (noBrace_tabs i))
      (h1 q (by simp))) (level_of_noBrace (by constructor <;> decide))) (h2 q (by simp))
  | q :: r :: ps, h1, h2 => by
    simp only [mapEntries]
    exact level_append (level_append (level_append (level_append (level_append
      (level_of_noBrace (noBrace_tabs i)) (h1 q (by simp)))
      (level_of_noBrace (by constructor <;> decide))) (h2 q (by simp)))
      (level_of_noBrace (by constructor <;> decide)))
      (level_mapEntries i (r :: ps) (fun x hx => h1 x (by simp [hx]))
        (fun x hx => h2 x (by simp [hx])))

theorem level_joinSep : ∀ vs : List String, (∀ v ∈ vs, Level v) → Level (joinSep ", " vs)
  | [], _ => fun d => rfl
  | [v], h => by simp only [joinSep]; exact h v (by simp)
  | v :: w :: vs, h => by
    simp only [joinSep]
    exact level_append (level_append (h v (by simp))
      (level_of_noBrace (by constructor <;> decide)))
      (level_joinSep (w :: vs) (fun x hx => h x (by simp [hx])))

theorem level_in_braces {a b c : String} (ha : Level a) (hb : Level b) :
    c = a ++ "\x7b" ++ b ++ "\x7d" → Level c := by
  intro hc
  rw [hc, String.append_assoc, String.append_assoc]
  exact level_append ha (by
    have := level_braces hb
    rwa [String.append_assoc] at this)

theorem noBrace_letters (t : List Char) (h : ∀ c ∈ t, c ∈ letterRunes) :
    NoBrace (String.mk t) := by
  have key : ∀ c ∈ letterRunes, c ≠ lbrace ∧ c ≠ rbrace := by decide
  constructor
  · intro hm; exact (key _ (h _ hm)).1 rfl
  · intro hm; exact (key _ (h _ hm)).2 rfl

theorem noBrace_formatF (q : Nat) : NoBrace (formatF q) := by
  unfold formatF
  refine noBrace_append (noBrace_append (noBrace_append (noBrace_natRepr _)
    (by constructor <;> decide)) ?_) (noBrace_natRepr _)
  constructor <;> intro h <;> exact absurd (List.eq_of_mem_replicate h) (by decide)

end Literal

/-! ## Identifiers, types and scalar literals -/

theorem goIdent_of_ascii (U : Unicode) (s : String) (h : asciiIdent s = true) :
    GoIdent U s := by
  unfold asciiIdent at h
  split at h
  · simp at h
  · rename_i c cs heq
    simp only [Bool.and_eq_true, Bool.or_eq_true, beq_iff_eq, List.all_eq_true,
      Bool.not_eq_true', List.contains_eq_any_beq, List.any_eq_false] at h
    obtain ⟨⟨hc, hcs⟩, hk⟩ := h
    refine ⟨⟨c, cs, heq, ?_, fun d hd => ?_⟩, ?_⟩
    · rcases hc with hc | hc
      · exact .inl hc
      · exact .inr (.inl hc)
    · rcases hcs d hd with (hd1 | hd1) | hd1
      · exact .inl (.inl hd1)
      · exact .inl (.inr (.inl hd1))
      · exact .inr (.inl hd1)
    · intro hm
      have := hk s hm
      simp at this

theorem isLetterOrDigit_noBrace (U : Unicode) (c : Char) (h : isLetterOrDigit U c) :
    c ≠ lbrace ∧ c ≠ rbrace := by
  constructor <;> intro hc <;> subst hc <;>
    rcases h with (h | h | h) | h | h <;> first
      | exact absurd h (by decide)
      | exact absurd h.1 (by decide)

theorem goIdent_noBrace (U : Unicode) (s : String) (h : GoIdent U s) : NoBrace s := by
  obtain ⟨⟨c, cs, heq, hc, hcs⟩, _⟩ := h
  have key : ∀ d ∈ s.data, d ≠ lbrace ∧ d ≠ rbrace := by
    intro d hd
    rw [heq] at hd
    rcases List.mem_cons.1 hd with rfl | hd
    · exact isLetterOrDigit_noBrace U _ (.inl hc)
    · exact isLetterOrDigit_noBrace U _ (hcs d hd)
  exact ⟨fun hm => (key _ hm).1 rfl, fun hm => (key _ hm).2 rfl⟩

theorem goType_noBrace (U : Unicode) (s : String) (h : GoType U s) : NoBrace s := by
  induction h with
  | name n hn => exact goIdent_noBrace U n hn
  | slice t _ ih => exact noBrace_append (by constructor <;> decide) ih
  | map k v _ _ ihk ihv =>
    exact noBrace_append (noBrace_append (noBrace_append (by constructor <;> decide) ihk)
      (by constructor <;> decide)) ihv
  | pointer t _ ih => exact noBrace_append (by constructor <;> decide) ih

theorem goLitType_noBrace (U : Unicode) (s : String) (h : GoLitType U s) : NoBrace s := by
  cases h with
  | name _ hn => exact goIdent_noBrace U _ hn
  | slice t ht => exact noBrace_append (by constructor <;> decide) (goType_noBrace U t ht)
  | map k v hk hv =>
    exact noBrace_append (noBrace_append (noBrace_append (by constructor <;> decide)
      (goType_noBrace U k hk)) (by constructor <;> decide)) (goType_noBrace U v hv)

theorem digitChar_isDigit (k : Nat) (hk : k < 10) :
    (Nat.digitChar k).isDigit = true ∧ (k ≠ 0 → Nat.digitChar k ≠ '0') := by
  interval_cases k <;> decide

/-- The digits `Nat.toDigits` puts before `ds`: at least one, all decimal, the first one
not zero for a positive number. -/
theorem toDigitsCore_digits : ∀ (fuel n : Nat) (ds : List Char), n < fuel →
    ∃ (c : Char) (rest : List Char), Nat.toDigitsCore 10 fuel n ds = c :: (rest ++ ds) ∧
      c.isDigit = true ∧ (∀ x ∈ rest, x.isDigit = true) ∧ (n ≠ 0 → c ≠ '0') ∧
      (n = 0 → rest = [])
  | 0, n, ds, h => by omega
  | fuel + 1, n, ds, h => by
    have hd := digitChar_isDigit (n % 10) (Nat.mod_lt _ (by decide))
    simp only [Nat.toDigitsCore]
    split_ifs with h0
    · refine ⟨Nat.digitChar (n % 10), [], rfl, hd.1, by simp, fun hn => hd.2 ?_, fun _ => rfl⟩
      omega
    · have hlt : n / 10 < fuel := by omega
      obtain ⟨c, rest, e, hc, hrest, hne, _⟩ :=
        toDigitsCore_digits fuel (n / 10) (Nat.digitChar (n % 10) :: ds) hlt
      refine ⟨c, rest ++ [Nat.digitChar (n % 10)], by rw [e]; simp, hc, ?_,
        fun _ => hne h0, fun hn => ?_⟩
      · intro x hx
        rcases List.mem_append.1 hx with hx | hx
        · exact hrest x hx
        · rw [List.mem_singleton] at hx
          rw [hx]; exact hd.1
      · subst hn; simp at h0

theorem decimalLit_natRepr (n : Nat) : DecimalLit (toString n) := by
  obtain ⟨c, rest, e, hc, hrest, hne, hz⟩ := toDigitsCore_digits (n + 1) n [] (by omega)
  have hdata : (toString n).data = c :: rest := by
    have : (toString n).data = Nat.toDigitsCore 10 (n + 1) n [] := rfl
    rw [this, e, List.append_nil]
  refine ⟨by rw [hdata]; simp, ?_, ?_⟩
  · intro x hx
    rw [hdata] at hx
    rcases List.mem_cons.1 hx with rfl | hx
    · exact hc
    · exact hrest x hx
  · intro h0
    rw [hdata] at h0 ⊢
    simp only [List.head?_cons, Option.some.injEq] at h0
    by_cases hn : n = 0
    · rw [hz hn, h0]
    · exact absurd h0 (hne hn)

theorem digits_natRepr (n : Nat) :
    (toString n).data ≠ [] ∧ ∀ c ∈ (toString n).data, c.isDigit = true :=
  ⟨(decimalLit_natRepr n).1, (decimalLit_natRepr n).2.1⟩

theorem floatLit_formatF (q : Nat) : FloatLit (formatF q) := by
  refine ⟨(toString (q / 1000000)).data,
    List.replicate (6 - (toString (q % 1000000)).length) '0' ++ (toString (q % 1000000)).data,
    ?_, (digits_natRepr _).1, ?_, (digits_natRepr _).2, ?_⟩
  · simp only [formatF, String.data_append, List.append_assoc]
    rfl
  · intro h
    exact (digits_natRepr (q % 1000000)).1 (List.append_eq_nil.1 h).2
  · intro c hc
    rcases List.mem_append.1 hc with hc | hc
    · rw [List.eq_of_mem_replicate hc]; decide
    · exact (digits_natRepr _).2 c hc

theorem stringLit_letters (t : List Char) (h : ∀ c ∈ t, c ∈ letterRunes) :
    StringLit ("\"" ++ String.mk t ++ "\"") := by
  have key : ∀ c ∈ letterRunes, c ≠ '"' ∧ c ≠ '\\' ∧ c ≠ '\n' := by decide
  exact ⟨t, rfl, fun c hc => key c (h c hc)⟩

theorem go_intRepr (U : Unicode) (z : Int) : Go U .expr (toString z) := by
  cases z with
  | ofNat n => exact .int _ (decimalLit_natRepr n)
  | negSucc n =>
    have h : toString (Int.negSucc n) = "-" ++ toString (n + 1) := rfl
    rw [h]
    exact .neg _ (decimalLit_natRepr _)

/-! ## White space -/

theorem isSpace_append {a b : String} (ha : isSpace a) (hb : isSpace b) : isSpace (a ++ b) := by
  intro c hc
  rw [String.data_append] at hc
  rcases List.mem_append.1 hc with hc | hc
  · exact ha c hc
  · exact hb c hc

theorem isSpace_tabs (k : Nat) : isSpace (tabs k) := by
  intro c hc
  exact .inr (.inl (List.eq_of_mem_replicate hc))

theorem isSpace_newline : isSpace "\n" := by
  intro c hc
  have : c = '\n' := by simpa using hc
  exact .inr (.inr this)

theorem isSpace_blank : isSpace " " := by
  intro c hc
  have : c = ' ' := by simpa using hc
  exact .inl this

theorem isSpace_empty : isSpace "" := by
  intro c hc
  simp at hc

theorem isBlank_empty : isBlank "" := by
  intro c hc
  simp at hc

theorem isBlank_blank : isBlank " " := by
  intro c hc
  have : c = ' ' := by simpa using hc
  exact .inl this

/-! ## The texts the synthesizer builds are texts of the grammar -/

section Grammar
variable {σ : Type}

theorem wellFormed_call (U : Unicode) (f a : String) (hf : asciiIdent f = true)
    (ha : Go U .expr a) (hb : NoBrace a) : WellFormed U (f ++ "(" ++ a ++ ")") :=
  ⟨.call f a (goIdent_of_ascii U f hf) ha,
    level_of_noBrace (noBrace_append (noBrace_append (noBrace_append
      (goIdent_noBrace U f (goIdent_of_ascii U f hf)) (by constructor <;> decide)) hb)
      (by constructor <;> decide))⟩

theorem wellFormed_callNat (U : Unicode) (f : String) (n : Nat) (hf : asciiIdent f = true) :
    WellFormed U (f ++ "(" ++ toString n ++ ")") :=
  wellFormed_call U f _ hf (.int _ (decimalLit_natRepr n)) (noBrace_natRepr n)

theorem wellFormed_callInt (U : Unicode) (f : String) (z : Int) (hf : asciiIdent f = true) :
    WellFormed U (f ++ "(" ++ toString z ++ ")") :=
  wellFormed_call U f _ hf (go_intRepr U z) (noBrace_intRepr z)

theorem wellFormed_callFloat (U : Unicode) (f : String) (q : Nat)
    (hf : asciiIdent f = true) : WellFormed U (f ++ "(" ++ formatF q ++ ")") :=
  wellFormed_call U f _ hf (.float _ (floatLit_formatF q)) (noBrace_formatF q)

/-- Every value of `getSimpleTypeFixture` is a scalar expression of the grammar. -/
theorem getSimpleTypeFixture_wellFormed (U : Unicode) (R : RandSource σ) (name : String)
    (st st1 : St σ) (v : String) (h : getSimpleTypeFixture R name st = (.ok v, st1)) :
    WellFormed U v := by
  by_cases hk : name ∈ scalarKinds
  · simp only [scalarKinds, List.mem_cons, List.mem_singleton, List.not_mem_nil,
      or_false] at hk
    rcases hk with rfl | rfl | rfl | rfl | rfl | rfl | rfl | rfl | rfl | rfl | rfl | rfl |
      rfl | rfl
    · have hv : Res.ok (toString (R.Intn maxInt st.rng).1) = Res.ok v := congrArg Prod.fst h
      rw [← Res.ok.inj hv]
      exact ⟨.int _ (decimalLit_natRepr _), level_of_noBrace (noBrace_natRepr _)⟩
    · have hv : Res.ok ("int8" ++ "(" ++ toString (toSigned 8 (R.Intn maxInt st.rng).1) ++ ")")
          = Res.ok v := congrArg Prod.fst h
      rw [← Res.ok.inj hv]; exact wellFormed_callInt U _ _ (by decide)
    · have hv : Res.ok ("int16" ++ "(" ++ toString (toSigned 16 (R.Intn maxInt st.rng).1) ++
          ")") = Res.ok v := congrArg Prod.fst h
      rw [← Res.ok.inj hv]; exact wellFormed_callInt U _ _ (by decide)
    · have hv : Res.ok ("int32" ++ "(" ++ toString (R.Int31n maxInt st.rng).1 ++ ")")
          = Res.ok v := congrArg Prod.fst h
      rw [← Res.ok.inj hv]; exact wellFormed_callNat U _ _ (by decide)
    · have hv : Res.ok ("int64" ++ "(" ++ toString (R.Int63n maxInt st.rng).1 ++ ")")
          = Res.ok v := congrArg Prod.fst h
      rw [← Res.ok.inj hv]; exact wellFormed_callNat U _ _ (by decide)
    · have hv : Res.ok ("uint" ++ "(" ++ toString ((R.Uint32 st.rng).1 % 2 ^ 64) ++ ")")
          = Res.ok v := congrArg Prod.fst h
      rw [← Res.ok.inj hv]; exact wellFormed_callNat U _ _ (by decide)
    · have hv : Res.ok ("uint8" ++ "(" ++ toString ((R.Uint32 st.rng).1 % 2 ^ 8) ++ ")")
          = Res.ok v := congrArg Prod.fst h
      rw [← Res.ok.inj hv]; exact wellFormed_callNat U _ _ (by decide)
    · have hv : Res.ok ("uint16" ++ "(" ++ toString ((R.Uint32 st.rng).1 % 2 ^ 16) ++ ")")
          = Res.ok v := congrArg Prod.fst h
      rw [← Res.ok.inj hv]; exact wellFormed_callNat U _ _ (by decide)
    · have hv : Res.ok ("uint32" ++ "(" ++ toString (R.Uint32 st.rng).1 ++ ")")
          = Res.ok v := congrArg Prod.fst h
      rw [← Res.ok.inj hv]; exact wellFormed_callNat U _ _ (by decide)
    · have hv : Res.ok ("uint64" ++ "(" ++ toString (R.Uint64 st.rng).1 ++ ")")
          = Res.ok v := congrArg Prod.fst h
      rw [← Res.ok.inj hv]; exact wellFormed_callNat U _ _ (by decide)
    · have hv : Res.ok ("float32" ++ "(" ++ formatF (R.Float32 st.rng).1 ++ ")")
          = Res.ok v := congrArg Prod.fst h
      rw [← Res.ok.inj hv]; exact wellFormed_callFloat U _ _ (by decide)
    · have hv : Res.ok ("float64" ++ "(" ++ formatF (R.Float64 st.rng).1 ++ ")")
          = Res.ok v := congrArg Prod.fst h
      rw [← Res.ok.inj hv]; exact wellFormed_callFloat U _ _ (by decide)
    · obtain ⟨t, st2, ht, _, hl, _⟩ := getRandomString_ok R st
      have h2 : getRandomString R st = (.ok v, st1) := h
      rw [ht] at h2
      rw [← Res.ok.inj (congrArg Prod.fst h2)]
      exact ⟨.str _ (stringLit_letters t hl),
        level_of_noBrace (noBrace_append (noBrace_append (by constructor <;> decide)
          (noBrace_letters t hl)) (by constructor <;> decide))⟩
    · have hv : Res.ok (if (R.Intn 10 st.rng).1 < 5 then "true" else "false")
          = Res.ok v := congrArg Prod.fst h
      rw [← Res.ok.inj hv]
      by_cases hb : (R.Intn 10 st.rng).1 < 5
      · rw [if_pos hb]
        exact ⟨.name _ (goIdent_of_ascii U _ (by decide)),
          level_of_noBrace (by constructor <;> decide)⟩
      · rw [if_neg hb]
        exact ⟨.name _ (goIdent_of_ascii U _ (by decide)),
          level_of_noBrace (by constructor <;> decide)⟩
  · rw [getSimpleTypeFixture_unsupported R name st hk] at h
    simp at h

/-- The type name rendered from a field type whose identifiers are identifiers of Go is a
type of Go. -/
theorem typeOK_goType (U : Unicode) : ∀ (e : Expr) (tn : String),
    TypeOK (GoIdent U) e → getTypeName e = .ok tn → GoType U tn
  | .Ident n o, tn, h, htn => by
    simp only [getTypeName, Res.ok.injEq] at htn
    subst htn
    cases h with
    | ident _ _ hn => exact .name _ hn
    | other hf => simp [fallsThrough] at hf
  | .ArrayType l e, tn, h, htn => by
    cases he : getTypeName e with
    | ok s =>
      simp only [getTypeName, he, Res.ok.injEq] at htn
      subst htn
      cases h with
      | array _ h1 => exact .slice _ (typeOK_goType U e s h1 he)
      | other hf => simp [fallsThrough] at hf
    | err m => simp [getTypeName, he] at htn
    | panic m => simp [getTypeName, he] at htn
    | diverge => simp [getTypeName, he] at htn
  | .MapType k v, tn, h, htn => by
    cases hk : getTypeName k with
    | ok s =>
      cases hv : getTypeName v with
      | ok t =>
        simp only [getTypeName, hk, hv, Res.ok.injEq] at htn
        subst htn
        cases h with
        | map h1 h2 =>
          exact .map _ _ (typeOK_goType U k s h1 hk) (typeOK_goType U v t h2 hv)
        | other hf => simp [fallsThrough] at hf
      | err m => simp [getTypeName, hk, hv] at htn
      | panic m => simp [getTypeName, hk, hv] at htn
      | diverge => simp [getTypeName, hk, hv] at htn
    | err m => simp [getTypeName, hk] at htn
    | panic m => simp [getTypeName, hk] at htn
    | diverge => simp [getTypeName, hk] at htn
  | .StarExpr x, tn, h, htn => by
    cases hx : getTypeName x with
    | ok s =>
      simp only [getTypeName, hx, Res.ok.injEq] at htn
      subst htn
      cases h with
      | star h1 => exact .pointer _ (typeOK_goType U x s h1 hx)
      | other hf => simp [fallsThrough] at hf
    | err m => simp [getTypeName, hx] at htn
    | panic m => simp [getTypeName, hx] at htn
    | diverge => simp [getTypeName, hx] at htn
  | .SelectorExpr _ _, tn, _, htn => by simp [getTypeName] at htn
  | .StructType _, tn, _, htn => by simp [getTypeName] at htn
  | .FuncType, tn, _, htn => by simp [getTypeName] at htn
  | .ChanType _, tn, _, htn => by simp [getTypeName] at htn
  | .InterfaceType, tn, _, htn => by simp [getTypeName] at htn
  | .ParenExpr _, tn, _, htn => by simp [getTypeName] at htn

/-- The type name of an array or a map type may stand before the braces of a literal. -/
theorem typeOK_goLitType (U : Unicode) (e : Expr) (tn : String)
    (he : (∃ l x, e = .ArrayType l x) ∨ (∃ k v, e = .MapType k v))
    (h : TypeOK (GoIdent U) e) (htn : getTypeName e = .ok tn) : GoLitType U tn := by
  have ht := typeOK_goType U e tn h htn
  rcases he with ⟨l, x, rfl⟩ | ⟨k, v, rfl⟩
  · cases hx : getTypeName x with
    | ok s =>
      simp only [getTypeName, hx, Res.ok.injEq] at htn
      subst htn
      cases h with
      | array _ h1 => exact .slice _ (typeOK_goType U x s h1 hx)
      | other hf => simp [fallsThrough] at hf
    | err m => simp [getTypeName, hx] at htn
    | panic m => simp [getTypeName, hx] at htn
    | diverge => simp [getTypeName, hx] at htn
  · cases hk : getTypeName k with
    | ok s =>
      cases hv : getTypeName v with
      | ok t =>
        simp only [getTypeName, hk, hv, Res.ok.injEq] at htn
        subst htn
        cases h with
        | map h1 h2 =>
          exact .map _ _ (typeOK_goType U k s h1 hk) (typeOK_goType U v t h2 hv)
        | other hf => simp [fallsThrough] at hf
      | err m => simp [getTypeName, hk, hv] at htn
      | panic m => simp [getTypeName, hk, hv] at htn
      | diverge => simp [getTypeName, hk, hv] at htn
    | err m => simp [getTypeName, hk] at htn
    | panic m => simp [getTypeName, hk] at htn
    | diverge => simp [getTypeName, hk] at htn

/-- The lines of a struct literal form an element list: each line is `name: value` after
white space and is followed by a comma, the last comma by white space. -/
theorem go_structEntries (U : Unicode) (n : Nat) : ∀ (es : List (String × String))
    (w t : String), isSpace w → isSpace t →
    (∀ e ∈ es, GoIdent U e.1 ∧ Go U .expr e.2) →
    Go U .elems (w ++ (concatAll (es.map (fun e => tabs n ++ e.1 ++ ": " ++ e.2 ++ ",\n"))
      ++ t))
  | [], w, t, hw, ht, _ => by
    have e : w ++ (concatAll (([] : List (String × String)).map
        (fun e => tabs n ++ e.1 ++ ": " ++ e.2 ++ ",\n")) ++ t) = w ++ t := by
      simp [concatAll]
    rw [e]
    exact .none _ (isSpace_append hw ht)
  | e :: es, w, t, hw, ht, h => by
    have hrest := go_structEntries U n es "\n" t isSpace_newline ht
      (fun x hx => h x (by simp [hx]))
    have hthis := Go.more (w ++ tabs n) (e.1 ++ ":" ++ " " ++ e.2) "" _
      (isSpace_append hw (isSpace_tabs n))
      (.keyed e.1 " " e.2 (.name _ (h e (by simp)).1) isBlank_blank (h e (by simp)).2)
      isBlank_empty hrest
    have eq : w ++ (concatAll ((e :: es).map
        (fun e => tabs n ++ e.1 ++ ": " ++ e.2 ++ ",\n")) ++ t) =
        w ++ tabs n ++ (e.1 ++ ":" ++ " " ++ e.2) ++ "" ++ "," ++
          ("\n" ++ (concatAll (es.map (fun e => tabs n ++ e.1 ++ ": " ++ e.2 ++ ",\n"))
            ++ t)) := by
      simp only [List.map, concatAll, String.append_assoc]
      rfl
    rw [eq]
    exact hthis

theorem go_arrayElems (U : Unicode) : ∀ (vs : List String) (w : String), vs ≠ [] →
    isSpace w → (∀ v ∈ vs, Go U .expr v) → Go U .elems (w ++ joinSep ", " vs)
  | [], _, h, _, _ => absurd rfl h
  | [v], w, _, hw, h => by
    have := Go.last w v "" hw (.value v (h v (by simp))) isBlank_empty
    have eq : w ++ joinSep ", " [v] = w ++ v ++ "" := by
      simp only [joinSep, String.append_empty]
    rw [eq]
    exact this
  | v :: u :: vs, w, _, hw, h => by
    have hrest := go_arrayElems U (u :: vs) " " (by simp) isSpace_blank
      (fun x hx => h x (by simp [hx]))
    have := Go.more w v "" _ hw (.value v (h v (by simp))) isBlank_empty hrest
    have eq : w ++ joinSep ", " (v :: u :: vs) =
        w ++ v ++ "" ++ "," ++ (" " ++ joinSep ", " (u :: vs)) := by
      simp only [joinSep, String.append_assoc]
      rfl
    rw [eq]
    exact this

theorem go_mapElems (U : Unicode) (i : Nat) : ∀ (ps : List (String × String)) (w : String),
    ps ≠ [] → isSpace w → (∀ q ∈ ps, Go U .expr q.1 ∧ Go U .expr q.2) →
    Go U .elems (w ++ mapEntries i ps)
  | [], _, h, _, _ => absurd rfl h
  | [q], w, _, hw, h => by
    have := Go.last (w ++ tabs i) (q.1 ++ ":" ++ " " ++ q.2) ""
      (isSpace_append hw (isSpace_tabs i))
      (.keyed q.1 " " q.2 (h q (by simp)).1 isBlank_blank (h q (by simp)).2) isBlank_empty
    have eq : w ++ mapEntries i [q] = w ++ tabs i ++ (q.1 ++ ":" ++ " " ++ q.2) ++ "" := by
      simp only [mapEntries, String.append_empty, String.append_assoc]
      rfl
    rw [eq]
    exact this
  | q :: r :: ps, w, _, hw, h => by
    have hrest := go_mapElems U i (r :: ps) "\n" (by simp) isSpace_newline
      (fun x hx => h x (by simp [hx]))
    have := Go.more (w ++ tabs i) (q.1 ++ ":" ++ " " ++ q.2) "" _
      (isSpace_append hw (isSpace_tabs i))
      (.keyed q.1 " " q.2 (h q (by simp)).1 isBlank_blank (h q (by simp)).2) isBlank_empty
      hrest
    have eq : w ++ mapEntries i (q :: r :: ps) =
        w ++ tabs i ++ (q.1 ++ ":" ++ " " ++ q.2) ++ "" ++ "," ++
          ("\n" ++ mapEntries i (r :: ps)) := by
      simp only [mapEntries, String.append_assoc]
      rfl
    rw [eq]
    exact this

theorem wellFormed_record (U : Unicode) (amp : Bool) (name : String) (i : Nat)
    (es : List (String × String)) (hname : GoIdent U name)
    (hes : ∀ e ∈ es, GoIdent U e.1 ∧ WellFormed U e.2) :
    WellFormed U ((if amp then "&" else "") ++ structText name i es) := by
  have hbody := go_structEntries U i es "\n" (tabs (i - 1)) isSpace_newline (isSpace_tabs _)
    (fun e he => ⟨(hes e he).1, (hes e he).2.1⟩)
  constructor
  · cases amp
    · have eq : (if false = true then "&" else "") ++ structText name i es =
          name ++ "\x7b" ++ ("\n" ++ (concatAll (es.map
            (fun e => tabs i ++ e.1 ++ ": " ++ e.2 ++ ",\n")) ++ tabs (i - 1))) ++ "\x7d" := by
        simp only [structText, String.append_assoc]
        rfl
      rw [eq]
      exact .composite _ _ (.name _ hname) hbody
    · have eq : (if true = true then "&" else "") ++ structText name i es =
          "&" ++ name ++ "\x7b" ++ ("\n" ++ (concatAll (es.map
            (fun e => tabs i ++ e.1 ++ ": " ++ e.2 ++ ",\n")) ++ tabs (i - 1))) ++ "\x7d" := by
        simp only [structText, String.append_assoc]
        rfl
      rw [eq]
      exact .addr _ _ (.name _ hname) hbody
  · have hentries : Level (concatAll (es.map
        (fun e => tabs i ++ e.1 ++ ": " ++ e.2 ++ ",\n")) ++ tabs (i - 1)) := by
      refine level_append (level_concatAll _ ?_) (level_of_noBrace (noBrace_tabs _))
      intro x hx
      obtain ⟨e, he, rfl⟩ := List.mem_map.1 hx
      exact level_append (level_append (level_append (level_append
        (level_of_noBrace (noBrace_tabs i))
        (level_of_noBrace (goIdent_noBrace U _ (hes e he).1)))
        (level_of_noBrace (by constructor <;> decide))) (hes e he).2.2)
        (level_of_noBrace (by constructor <;> decide))
    have hpre : Level ((if amp then "&" else "") ++ name) := by
      cases amp
      · exact level_append (level_of_noBrace (by constructor <;> decide))
          (level_of_noBrace (goIdent_noBrace U _ hname))
      · exact level_append (level_of_noBrace (by constructor <;> decide))
          (level_of_noBrace (goIdent_noBrace U _ hname))
    have hin : Level ("\n" ++ (concatAll (es.map
        (fun e => tabs i ++ e.1 ++ ": " ++ e.2 ++ ",\n")) ++ tabs (i - 1))) :=
      level_append (level_of_noBrace (by constructor <;> decide)) hentries
    refine level_in_braces hpre hin ?_
    simp only [structText, String.append_assoc]
    rfl

theorem wellFormed_array (U : Unicode) (tn : String) (vs : List String)
    (htn : GoLitType U tn) (hne : vs ≠ []) (hvs : ∀ v ∈ vs, WellFormed U v) :
    WellFormed U (arrayText tn vs) := by
  constructor
  · have hbody := go_arrayElems U vs "" hne isSpace_empty (fun v hv => (hvs v hv).1)
    have eq : arrayText tn vs = tn ++ "\x7b" ++ ("" ++ joinSep ", " vs) ++ "\x7d" := by
      simp only [arrayText, String.empty_append]
    rw [eq]
    exact .composite _ _ htn hbody
  · exact level_in_braces (level_of_noBrace (goLitType_noBrace U tn htn))
      (level_joinSep vs (fun v hv => (hvs v hv).2)) rfl

theorem wellFormed_map (U : Unicode) (tn : String) (i : Nat) (ps : List (String × String))
    (htn : GoLitType U tn) (hne : ps ≠ [])
    (hps : ∀ q ∈ ps, WellFormed U q.1 ∧ WellFormed U q.2) :
    WellFormed U (mapText tn i ps) := by
  constructor
  · have hbody := go_mapElems U i ps "\n" hne isSpace_newline
      (fun q hq => ⟨(hps q hq).1.1, (hps q hq).2.1⟩)
    have eq : mapText tn i ps = tn ++ "\x7b" ++ ("\n" ++ mapEntries i ps) ++ "\x7d" := by
      simp only [mapText, String.append_assoc]
      rfl
    rw [eq]
    exact .composite _ _ htn hbody
  · have hin : Level ("\n" ++ mapEntries i ps) :=
      level_append (level_of_noBrace (by constructor <;> decide))
        (level_mapEntries i ps (fun q hq => (hps q hq).1.2) (fun q hq => (hps q hq).2.2))
    refine level_in_braces (level_of_noBrace (goLitType_noBrace U tn htn)) hin ?_
    simp only [mapText, String.append_assoc]
    rfl

theorem structFixture_wellFormed (U : Unicode) {gv : Synth σ} {imps : Imports} {p : Bool}
    {ind : Int} {st st1 : St σ} {s : structType} {os : List (Option String)}
    (hs : StructOK (GoIdent U) s) (hrun : FieldsRun gv imps p ind st s.fields os st1)
    (IH : ∀ (e : Expr) (s0 s1 : St σ) (v : String), TypeOK (GoIdent U) e →
      gv e imps p (ind + 1) s0 = (.ok v, s1) → WellFormed U v) :
    WellFormed U ((if p then "&" else "") ++
      structText s.name ind.toNat (entriesOf s.fields os)) := by
  refine wellFormed_record U p s.name _ _ hs.1 (fun e he => ?_)
  rw [entriesOf_eq_map] at he
  obtain ⟨q, hq, rfl⟩ := List.mem_map.1 he
  obtain ⟨hmem, s0, s1, hq2⟩ := fieldsRun_mem hrun q hq
  exact ⟨(hs.2 q.1 hmem).1, IH _ _ _ _ (hs.2 q.1 hmem).2 hq2⟩

/-- Every value `getValueFixture` returns for a field type whose identifiers are
identifiers of Go, in a world whose declarations are so, is an expression of the grammar
with matching braces. -/
theorem getValueFixture_wellFormed (U : Unicode) (W : World)
    (hW : WorldOK (GoIdent U) W) (R : RandSource σ) :
    ∀ (fuel : Nat) (e : Expr) (imps : Imports) (p : Bool) (ind : Int) (st st1 : St σ)
      (v : String), TypeOK (GoIdent U) e →
    getValueFixture W R fuel e imps p ind st = (.ok v, st1) → WellFormed U v
  | 0, e, imps, p, ind, st, st1, v, _, h => by simp [getValueFixture] at h
  | fuel + 1, e, imps, p, ind, st, st1, v, hok, h => by
    have IH := getValueFixture_wellFormed U W hW R fuel
    cases e with
    | Ident n Obj =>
      cases Obj with
      | none => exact getSimpleTypeFixture_wellFormed U R n st st1 v h
      | some a =>
        simp only [getValueFixture] at h
        cases hobj : W.objects a with
        | other => simp [structFieldFixtureWith, hobj] at h
        | typeSpec spec =>
          cases hts : typeSpecToStructType spec with
          | ok s =>
            simp only [structFieldFixtureWith, hobj, hts] at h
            obtain ⟨os, hrun, hv⟩ := structFixtureWith_ok_inv h
            rw [hv]
            exact structFixture_wellFormed U
              (typeSpecToStructType_structOK spec s (hW.1 a spec hobj) hts)
              hrun (fun e s0 s1 v he hg => IH e imps p (ind + 1) s0 s1 v he hg)
          | err m => simp [structFieldFixtureWith, hobj, hts] at h
          | panic m => simp [structFieldFixtureWith, hobj, hts] at h
          | diverge => simp [structFieldFixtureWith, hobj, hts] at h
    | ArrayType l elt =>
      simp only [getValueFixture] at h
      obtain ⟨tn, vs, htn, hrun, hlen, hv⟩ := arrayFixtureWith_ok_inv R h
      rw [hv]
      have helt : TypeOK (GoIdent U) elt := by
        cases hok with
        | array _ h1 => exact h1
        | other hf => simp [fallsThrough] at hf
      refine wellFormed_array U tn vs
        (typeOK_goLitType U _ tn (.inl ⟨l, elt, rfl⟩) hok htn) ?_ (fun w hw => ?_)
      · intro hnil
        have := elemCount_pos (R.Uint32 st.rng).1
        rw [hnil] at hlen; simp at hlen; omega
      · obtain ⟨s0, s1, hw2⟩ := synthRun_mem hrun w hw
        exact IH _ _ _ _ _ _ _ helt hw2
    | MapType k w =>
      simp only [getValueFixture] at h
      obtain ⟨tn, ps, htn, hrun, hlen, hv⟩ := mapFixtureWith_ok_inv R h
      rw [hv]
      have hkv : TypeOK (GoIdent U) k ∧ TypeOK (GoIdent U) w := by
        cases hok with
        | map h1 h2 => exact ⟨h1, h2⟩
        | other hf => simp [fallsThrough] at hf
      refine wellFormed_map U tn _ ps
        (typeOK_goLitType U _ tn (.inr ⟨k, w, rfl⟩) hok htn) ?_ (fun q hq => ⟨?_, ?_⟩)
      · intro hnil
        have := elemCount_pos (R.Uint32 st.rng).1
        rw [hnil] at hlen; simp at hlen; omega
      · obtain ⟨⟨s0, s1, hq2⟩, _⟩ := pairRun_mem hrun q hq
        exact IH _ _ _ _ _ _ _ hkv.1 hq2
      · obtain ⟨_, ⟨s0, s1, hq2⟩⟩ := pairRun_mem hrun q hq
        exact IH _ _ _ _ _ _ _ hkv.2 hq2
    | SelectorExpr X Sel =>
      simp only [getValueFixture] at h
      cases X with
      | Ident Name Obj =>
        cases hs : GetStruct W (getPackagePath W (mapGet imps Name)) Sel with
        | ok s =>
          cases hi : GetImports W (getPackagePath W (mapGet imps Name)) with
          | ok newImports =>
            simp only [externalStructFieldFixtureWith, hs, hi] at h
            obtain ⟨os, hrun, hv⟩ := structFixtureWith_ok_inv h
            rw [hv]
            exact structFixture_wellFormed U (GetStruct_structOK W hW _ _ s hs) hrun
              (fun e s0 s1 v he hg => IH e newImports p (ind + 1) s0 s1 v he hg)
          | err m => simp [externalStructFieldFixtureWith, hs, hi] at h
          | panic m => simp [externalStructFieldFixtureWith, hs, hi] at h
          | diverge => simp [externalStructFieldFixtureWith, hs, hi] at h
        | err m => simp [externalStructFieldFixtureWith, hs] at h
        | panic m => simp [externalStructFieldFixtureWith, hs] at h
        | diverge => simp [externalStructFieldFixtureWith, hs] at h
      | _ => simp [externalStructFieldFixtureWith] at h
    | StarExpr x =>
      simp only [getValueFixture] at h
      have hx : TypeOK (GoIdent U) x := by
        cases hok with
        | star h1 => exact h1
        | other hf => simp [fallsThrough] at hf
      exact IH _ _ _ _ _ _ _ hx h
    | _ => simp [getValueFixture] at h

end Grammar

/-- C15: for every record model and every random source, when the names of the sources
are identifiers of Go, as the parser ensures, every text `GetStructFixture` returns is an
expression of the grammar `Go`, a part of the grammar of the language: a composite
literal of the record's type, with `&` before it when the flag is set, whose entries are
`key: value` separated by commas, whose nested array literals hold comma-separated
elements and whose map literals hold comma-separated `key: value` pairs, a newline
standing only where the lexer inserts no semicolon, and whose scalar leaves are decimal
integer literals, conversion calls on an integer or a floating-point literal, the names
`true` and `false` and double-quoted string literals; and every opening brace of the text
is matched by a later closing brace. -/
theorem GetStructFixture_returns_literal {σ : Type} (U : Unicode) (W : World)
    (R : RandSource σ) (hW : WorldOK (GoIdent U) W) (fuel : Nat) (s : structType)
    (imps : Imports) (p : Bool) (ind : Int) (st st1 : St σ) (text : String)
    (hs : StructOK (GoIdent U) s)
    (h : GetStructFixture W R fuel s imps p ind st = (.ok text, st1)) :
    Go U .expr text ∧ Balanced text ∧
    ∃ body, Go U .elems body ∧
      text = (if p then "&" else "") ++ s.name ++ "\x7b" ++ body ++ "\x7d" := by
  obtain ⟨os, hrun, hv⟩ := structFixtureWith_ok_inv h
  have hwf := structFixture_wellFormed U hs hrun (fun e s0 s1 v he hg =>
    getValueFixture_wellFormed U W hW R fuel e imps p (ind + 1) s0 s1 v he hg)
  rw [← hv] at hwf
  refine ⟨hwf.1, hwf.2 0, _, go_structEntries U ind.toNat (entriesOf s.fields os) "\n"
    (tabs (ind.toNat - 1)) isSpace_newline (isSpace_tabs _) (fun e he => ?_), ?_⟩
  · rw [entriesOf_eq_map] at he
    obtain ⟨q, hq, rfl⟩ := List.mem_map.1 he
    obtain ⟨hmem, s0, s1, hq2⟩ := fieldsRun_mem hrun q hq
    exact ⟨(hs.2 q.1 hmem).1, (getValueFixture_wellFormed U W hW R fuel _ imps p (ind + 1)
      s0 s1 _ (hs.2 q.1 hmem).2 hq2).1⟩
  · rw [hv]
    simp only [structText, String.append_assoc]
    rfl

theorem emptyWorld_ok (U : Unicode) : WorldOK (GoIdent U) emptyWorld :=
  ⟨fun _ _ h => by simp [emptyWorld] at h, fun _ pkgs h pkg hpkg => by
    simp only [emptyWorld, Except.ok.injEq] at h
    subst h
    simp at hpkg⟩

theorem pointStruct_ok (U : Unicode) : StructOK (GoIdent U) pointStruct := by
  refine ⟨goIdent_of_ascii U _ (by decide), fun f hf => ?_⟩
  simp only [pointStruct, List.mem_cons, List.mem_singleton, List.not_mem_nil,
    or_false] at hf
  rcases hf with rfl | rfl
  · exact ⟨goIdent_of_ascii U _ (by decide), .ident _ _ (goIdent_of_ascii U _ (by decide))⟩
  · exact ⟨goIdent_of_ascii U _ (by decide), .ident _ _ (goIdent_of_ascii U _ (by decide))⟩

/-- The theorem `GetStructFixture_returns_literal` at `Point` with the counter source
started at 10. -/
theorem GetStructFixture_returns_literal_witness :
    Go asciiOnly .expr "Point\x7b\n\tX: 10,\n\tY: 11,\n\x7d" ∧
      Balanced "Point\x7b\n\tX: 10,\n\tY: 11,\n\x7d" ∧
      ∃ body, Go asciiOnly .elems body ∧
        "Point\x7b\n\tX: 10,\n\tY: 11,\n\x7d" =
          (if false = true then "&" else "") ++ pointStruct.name ++ "\x7b" ++ body ++ "\x7d" :=
  GetStructFixture_returns_literal asciiOnly emptyWorld (counterSource 1)
    (emptyWorld_ok asciiOnly) 1 pointStruct [] false 1 ⟨10, []⟩ ⟨12, []⟩ _
    (pointStruct_ok asciiOnly) rfl

end FixtureGenerator
